import Mathlib

set_option linter.unnecessarySeqFocus false
set_option linter.unusedVariables false

/-!
# RackPower-Architect: verification of the assignment and load-balancing engine

Shallow embedding of the core algorithms of the RackPower-Architect repository:

* the socket auto-wiring engine `runAutoConnect` (src/components/Dashboard.tsx, two
  phases plus the final compaction pass),
* the wiring compaction pass `optimizeWiring`,
* the manual-edit handlers `handleMoveDevice` and `handleConnectionUpdate`,
* the capacity sizing `calculatedPduPairs`,
* the bin-packing grouper `optimizePowerDistribution` (src/utils/csvParser.ts).

JavaScript numbers are modelled as exact rationals (`ℚ`); all arithmetic in the
source is on values far from float-precision edge cases and the spec's invariants
are stated over real arithmetic.  PDU identifiers, which the source builds with the
string template `A${k+1}` / `B${k+1}` (side letter followed by pair index plus one)
and only ever consumes by rebuilding the same template, are modelled by the pair
(side, pair index); this pairing is injective exactly like the string template.
-/

namespace RackPower

open List in
/-- Re-export of the list-permutation relation so that `~` is available
throughout this development. -/
lemma perm_def {α : Type} (l₁ l₂ : List α) : l₁ ~ l₂ ↔ List.Perm l₁ l₂ := Iff.rfl

open List

/-- The two redundant feeds.  Source: `side: 'A' | 'B'` in `PDUConfig`. -/
inductive Side where
  | A : Side
  | B : Side
deriving DecidableEq, Repr

/-- A PDU identifier: the source string `A${k+1}` or `B${k+1}` is the pair
(side, pair index `k`). -/
abbrev PduId := Side × Nat

/-- Source: `interface PSUConnection { pduId: string; socketIndex: number }`. -/
structure PSUConnection where
  pduId : PduId
  socketIndex : Nat
deriving DecidableEq, Repr

/-- Source: `interface Device` (src/unnamed/part_000).  `psuConnections` is the
map from PSU index to optional connection; following the design note in §9 of the
spec it is modelled as an ordered sequence indexed by PSU slot, which matches the
ascending-numeric-key iteration order of the source's integer-keyed object.
Fields never read by the algorithms under verification (`name`, `room`) are kept
for fidelity of the record shape. -/
structure Device where
  id : String
  name : String
  room : String
  psuCount : Nat
  typicalPower : ℚ
  powerRatingPerDevice : ℚ
  connectionType : String
  uHeight : Int
  uPosition : Option Int
  psuConnections : List (Option PSUConnection)
deriving DecidableEq, Repr

/-- JavaScript truthiness of `d.uPosition` (`null` and `0` are falsy): the
auto-wiring engine and the compaction pass guard on `if (!d.uPosition)`. -/
def uPosTruthy (d : Device) : Bool :=
  match d.uPosition with
  | none => false
  | some u => u != 0

/-- The truthy position of a placed device (only used under `uPosTruthy`). -/
def uPosVal (d : Device) : Int :=
  match d.uPosition with
  | none => 0
  | some u => u

/-- Per-PDU mutable record of the auto-wiring engine:
`{ currentLoad, usedSockets, circuitLoads }`.  The source also stores `id` and
`index` inside the record, mirroring its own key in the state map; here the key
(side, pair index) is passed where needed, so the two self-referential fields are
dropped. -/
structure PduEntry where
  currentLoad : ℚ
  usedSockets : List Nat
  circuitLoads : List ℚ
deriving DecidableEq, Repr

/-- The auto-wiring state `Record<string, PduEntry>`: total map over PDU ids.
The callers materialise keys `A1..A_n, B1..B_n`; the engine only ever reads keys
with pair index below `numPairs`. -/
abbrev PduState := PduId → PduEntry

/-- Functional update of one key of the state map. -/
def setPdu (st : PduState) (q : PduId) (e : PduEntry) : PduState :=
  fun r => if r = q then e else st r

/-- The configuration bundle: the parameters of `runAutoConnect` together with the
component state it captures by closure (`rackSize`, `baseSocketsPerPDU`,
`socketType`, `secondarySocketType`, `pduCols`). -/
structure Config where
  rackSize : Int
  baseSocketsPerPDU : Nat
  secondarySocketsPerPDU : Nat
  socketType : String
  secondarySocketType : String
  pduCols : Nat
  numPairs : Nat
  basePduCapacity : ℚ
  powerFactor : ℚ
  safetyMargin : ℚ
  voltage : ℚ
  circuitCount : Nat
  circuitAmps : ℚ
deriving Repr

/-- `effectiveCap = basePduCapacity * powerFactor * (safetyMargin / 100)`:
the value both call sites of `runAutoConnect` pass for the `effectiveCap`
parameter. -/
def Config.effectiveCap (c : Config) : ℚ :=
  c.basePduCapacity * c.powerFactor * (c.safetyMargin / 100)

/-- `totalSocketsPerPDU = baseSocketsPerPDU + secondarySocketsPerPDU`: the value
both call sites pass for the `totalSocketsPerPDU` parameter. -/
def Config.totalSockets (c : Config) : Nat :=
  c.baseSocketsPerPDU + c.secondarySocketsPerPDU

/-! ## Geometry constants and `getPDUSocketY` (Dashboard.tsx lines 11-20, 132-159) -/

def U_HEIGHT_PX : ℚ := 30
def RACK_HEADER_HEIGHT : ℚ := 16
def PDU_HEADER_H : ℚ := 40
def PDU_FOOTER_H : ℚ := 40
def SOCKET_H : ℚ := 14
def SOCKET_GAP : ℚ := 4
def SOCKET_PADDING : ℚ := 8
def PDU_VERTICAL_GAP : ℚ := 20

/-- Inner helper `getPDUHeight` of `getPDUSocketY`. -/
def getPDUHeight (cfg : Config) (socketCount : Nat) : ℚ :=
  let rows : ℚ := ⌈(socketCount : ℚ) / (cfg.pduCols : ℚ)⌉
  let contentH := rows * SOCKET_H + (rows - 1) * SOCKET_GAP
  PDU_HEADER_H + SOCKET_PADDING + contentH + SOCKET_PADDING + PDU_FOOTER_H

/-- `getPDUSocketY`: geometric Y position of a socket on a PDU, duplicated from
the visualizer for the auto-wiring distance tie-break. -/
def getPDUSocketY (cfg : Config) (pduIndex : Nat) (socketIndex : Nat) : ℚ :=
  let singlePduHeight := getPDUHeight cfg cfg.totalSockets
  let totalGroupHeight :=
    (cfg.numPairs : ℚ) * singlePduHeight + ((cfg.numPairs : ℚ) - 1) * PDU_VERTICAL_GAP
  let rackHeightPx := (cfg.rackSize : ℚ) * U_HEIGHT_PX + RACK_HEADER_HEIGHT * 2
  let startY := max 0 ((rackHeightPx - totalGroupHeight) / 2)
  let pduTopY := startY + (pduIndex : ℚ) * (singlePduHeight + PDU_VERTICAL_GAP)
  let row : ℚ := ⌊(socketIndex : ℚ) / (cfg.pduCols : ℚ)⌋
  let socketOffset := PDU_HEADER_H + SOCKET_PADDING + row * (SOCKET_H + SOCKET_GAP) + SOCKET_H / 2
  pduTopY + socketOffset

/-- `deviceCenterY` as computed in both phases:
`topPx = RACK_HEADER_HEIGHT + ((rackSize - uPos) * U_HEIGHT_PX)`;
`deviceCenterY = topPx + ((d.uHeight * U_HEIGHT_PX) / 2)`. -/
def deviceCenterY (cfg : Config) (d : Device) : ℚ :=
  let topPx := RACK_HEADER_HEIGHT + ((cfg.rackSize : ℚ) - (uPosVal d : ℚ)) * U_HEIGHT_PX
  topPx + ((d.uHeight : ℚ) * U_HEIGHT_PX) / 2

/-! ## Circuit bookkeeping (`checkCircuit`, `addCircuitLoad`, lines 261-282) -/

/-- `socketsPerCircuit = Math.ceil(totalSocketsPerPDU / circuitCount)`. -/
def socketsPerCircuit (cfg : Config) : Int :=
  ⌈(cfg.totalSockets : ℚ) / (cfg.circuitCount : ℚ)⌉

/-- `effectiveCircuitAmps = circuitAmps * (safetyMargin / 100)`. -/
def effectiveCircuitAmps (cfg : Config) : ℚ :=
  cfg.circuitAmps * (cfg.safetyMargin / 100)

/-- The circuit index of a socket: `Math.floor(socketIndex / socketsPerCircuit)`. -/
def circuitOf (cfg : Config) (socketIndex : Nat) : Int :=
  ⌊(socketIndex : ℚ) / (socketsPerCircuit cfg : ℚ)⌋

/-- `checkCircuit`: would adding `loadWatts` on `socketIndex` keep the projected
current of that circuit within the margin-derated breaker rating? -/
def checkCircuit (cfg : Config) (pdu : PduEntry) (socketIndex : Nat) (loadWatts : ℚ) : Bool :=
  let cIdx := circuitOf cfg socketIndex
  if cIdx ≥ (cfg.circuitCount : Int) then false
  else
    let currentWatts := pdu.circuitLoads.getD cIdx.toNat 0
    let totalWatts := currentWatts + loadWatts
    let totalAmps := totalWatts / cfg.powerFactor / cfg.voltage
    decide (totalAmps ≤ effectiveCircuitAmps cfg)

/-- `addCircuitLoad`. -/
def addCircuitLoad (cfg : Config) (pdu : PduEntry) (socketIndex : Nat) (loadWatts : ℚ) :
    PduEntry :=
  let cIdx := circuitOf cfg socketIndex
  if cIdx < (cfg.circuitCount : Int) then
    { pdu with circuitLoads :=
        pdu.circuitLoads.set cIdx.toNat (pdu.circuitLoads.getD cIdx.toNat 0 + loadWatts) }
  else pdu

/-! ## Socket searches -/

/-- The connector type of socket zone `s`: primary below `baseSocketsPerPDU`,
secondary at and above it. -/
def zoneType (cfg : Config) (s : Nat) : String :=
  if s ≥ cfg.baseSocketsPerPDU then cfg.secondarySocketType else cfg.socketType

/-- One step of the nearest-socket scans: keep the incumbent unless the candidate
is strictly closer (`dist < shortestDist`), so the lowest index wins ties. -/
def closerCandidate (best : Option (Nat × ℚ)) (s : Nat) (dist : ℚ) : Option (Nat × ℚ) :=
  match best with
  | none => some (s, dist)
  | some (b, bd) => if dist < bd then some (s, dist) else some (b, bd)

/-- The loop body of the matched-pair socket scan. -/
def sharedSocketStep (cfg : Config) (pduA pduB : PduEntry) (k : Nat)
    (d : Device) (centerY : ℚ) (load : ℚ) (best : Option (Nat × ℚ)) (s : Nat) :
    Option (Nat × ℚ) :=
  if s ∉ pduA.usedSockets ∧ s ∉ pduB.usedSockets then
    if zoneType cfg s ≠ d.connectionType then best
    else if ¬ (checkCircuit cfg pduA s load ∧ checkCircuit cfg pduB s load) then best
    else closerCandidate best s |getPDUSocketY cfg k s - centerY|
  else best

/-- The matched-pair socket scan of Phase 1: the free-on-both, type-matching,
circuit-legal socket index minimising distance to the device center. -/
def bestSharedSocket (cfg : Config) (pduA pduB : PduEntry) (k : Nat)
    (d : Device) (centerY : ℚ) (load : ℚ) : Option Nat :=
  (((List.range cfg.totalSockets).foldl
    (sharedSocketStep cfg pduA pduB k d centerY load) none)).map Prod.fst

/-- The loop body of the single-PDU socket scan. -/
def socketStep (cfg : Config) (pdu : PduEntry) (k : Nat)
    (d : Device) (centerY : ℚ) (load : ℚ) (best : Option (Nat × ℚ)) (s : Nat) :
    Option (Nat × ℚ) :=
  if s ∉ pdu.usedSockets then
    if zoneType cfg s ≠ d.connectionType then best
    else if ¬ checkCircuit cfg pdu s load then best
    else closerCandidate best s |getPDUSocketY cfg k s - centerY|
  else best

/-- The single-PDU socket scan shared by the Phase-1 fallback and Phase 2. -/
def bestSocketOn (cfg : Config) (pdu : PduEntry) (k : Nat)
    (d : Device) (centerY : ℚ) (load : ℚ) : Option Nat :=
  (((List.range cfg.totalSockets).foldl
    (socketStep cfg pdu k d centerY load) none)).map Prod.fst

/-- Commit an assignment on one PDU: mark the socket used, add the load, update
the circuit load. -/
def commitAssign (cfg : Config) (e : PduEntry) (s : Nat) (load : ℚ) : PduEntry :=
  addCircuitLoad cfg
    { e with usedSockets := s :: e.usedSockets, currentLoad := e.currentLoad + load }
    s load

/-- The per-PSU candidate loop shared by the Phase-1 fallback and Phase 2: walk
the side's PDUs in ascending pair index (the source builds the candidate array in
that order and re-sorts it by the same index, a no-op), take the first PDU with
spare capacity and a legal nearest socket.  Returns the connection made (if any)
and the updated state. -/
def assignPsu (cfg : Config) (side : Side) (d : Device) (centerY load : ℚ) :
    List Nat → PduState → Option PSUConnection × PduState
  | [], st => (none, st)
  | k :: ks, st =>
    let pdu := st (side, k)
    if pdu.currentLoad + load ≤ cfg.effectiveCap then
      match bestSocketOn cfg pdu k d centerY load with
      | some s =>
          (some ⟨(side, k), s⟩, setPdu st (side, k) (commitAssign cfg pdu s load))
      | none => assignPsu cfg side d centerY load ks st
    else assignPsu cfg side d centerY load ks st

/-- The matched-pair loop of Phase 1: scan pair indices in order; a pair is taken
when both sides have spare capacity and a shared legal socket exists. -/
def findMatchedPair (cfg : Config) (d : Device) (centerY load : ℚ) :
    List Nat → PduState → Option (Nat × Nat)
  | [], _ => none
  | k :: ks, st =>
    let pduA := st (Side.A, k)
    let pduB := st (Side.B, k)
    if pduA.currentLoad + load ≤ cfg.effectiveCap ∧
        pduB.currentLoad + load ≤ cfg.effectiveCap then
      match bestSharedSocket cfg pduA pduB k d centerY load with
      | some s => some (k, s)
      | none => findMatchedPair cfg d centerY load ks st
    else findMatchedPair cfg d centerY load ks st

/-- Phase-1 processing of one dual-PSU device. -/
def processDual (cfg : Config) (st : PduState) (d : Device) : Device × PduState :=
  if ¬ uPosTruthy d then ({ d with psuConnections := [] }, st)
  else
    let centerY := deviceCenterY cfg d
    let load := d.powerRatingPerDevice
    match findMatchedPair cfg d centerY load (List.range cfg.numPairs) st with
    | some (k, s) =>
        let st₁ := setPdu st (Side.A, k) (commitAssign cfg (st (Side.A, k)) s load)
        let st₂ := setPdu st₁ (Side.B, k) (commitAssign cfg (st₁ (Side.B, k)) s load)
        ({ d with psuConnections := [some ⟨(Side.A, k), s⟩, some ⟨(Side.B, k), s⟩] }, st₂)
    | none =>
        -- fallback: assign each PSU individually, PSU 0 on side A, PSU 1 on side B
        let step := fun (acc : List (Option PSUConnection) × PduState) (i : Nat) =>
          let side := if i = 0 then Side.A else Side.B
          let (c, st') := assignPsu cfg side d centerY load (List.range cfg.numPairs) acc.2
          (acc.1 ++ [c], st')
        let (conns, st') := (List.range d.psuCount).foldl step ([], st)
        ({ d with psuConnections := conns }, st')

/-- Phase-2 processing of one single/odd-PSU device; `rr` is the global
round-robin counter for single-PSU side alternation. -/
def processOther (cfg : Config) (st : PduState) (rr : Nat) (d : Device) :
    Device × PduState × Nat :=
  if ¬ uPosTruthy d then ({ d with psuConnections := [] }, st, rr)
  else
    let centerY := deviceCenterY cfg d
    let load := d.powerRatingPerDevice
    let step := fun (acc : List (Option PSUConnection) × PduState × Nat) (i : Nat) =>
      let (conns, st', rr') := acc
      let (side, rr'') :=
        if d.psuCount = 1 then
          ((if rr' % 2 = 0 then Side.A else Side.B), rr' + 1)
        else
          ((if i % 2 = 0 then Side.A else Side.B), rr')
      let (c, st'') := assignPsu cfg side d centerY load (List.range cfg.numPairs) st'
      (conns ++ [c], st'', rr'')
    let (conns, st', rr') := (List.range d.psuCount).foldl step ([], st, rr)
    ({ d with psuConnections := conns }, st', rr')

/-! ## Device ordering (lines 284-290): descending truthy U position, stable -/

/-- The sort relation of `sortedDevices`: `a` may precede `b` iff the comparator
`(a,b) ↦ (!a.uPosition && !b.uPosition ? 0 : !a.uPosition ? 1 : !b.uPosition ? -1
: b.uPosition - a.uPosition)` is non-positive.  `List.insertionSort` is stable in
the same sense as the ECMAScript sort. -/
def uPosDescLE (a b : Device) : Prop :=
  if uPosTruthy a then
    if uPosTruthy b then uPosVal b ≤ uPosVal a else True
  else
    if uPosTruthy b then False else True

instance : DecidableRel uPosDescLE := fun a b => by
  unfold uPosDescLE; infer_instance

instance : IsTotal Device uPosDescLE where
  total a b := by
    unfold uPosDescLE
    by_cases ha : uPosTruthy a <;> by_cases hb : uPosTruthy b <;> simp [ha, hb, le_total]

instance : IsTrans Device uPosDescLE where
  trans a b c := by
    unfold uPosDescLE
    by_cases ha : uPosTruthy a <;> by_cases hb : uPosTruthy b <;>
      by_cases hc : uPosTruthy c <;> simp [ha, hb, hc] <;> omega

/-! ## Wiring compaction pass `optimizeWiring` (lines 161-238) -/

/-- One element of the source's `pduMap` lists:
`{ deviceId, psuIndex, uPos, socketIndex }`. -/
structure ConnRec where
  deviceId : String
  psuIndex : Nat
  uPos : Int
  socketIndex : Nat
deriving DecidableEq, Repr

/-- The connection records a placed device files under PDU `p` in `pduMap`
(PSU entries in ascending slot order, which is the iteration order of the
source's integer-keyed object). -/
def devContribAt (d : Device) (p : PduId) : List ConnRec :=
  d.psuConnections.enum.filterMap fun (i, oc) =>
    oc.bind fun c => if c.pduId = p then some ⟨d.id, i, uPosVal d, c.socketIndex⟩ else none

/-- All records filed under PDU `p` in `pduMap`, in insertion order. -/
def connsOf (devices : List Device) (p : PduId) : List ConnRec :=
  devices.flatMap fun d => if uPosTruthy d then devContribAt d p else []

/-- The compaction sort relation: descending device U position, ascending current
socket index as tie-break (`sortFn`, lines 195-198). -/
def connLE (a b : ConnRec) : Prop :=
  b.uPos < a.uPos ∨ (a.uPos = b.uPos ∧ a.socketIndex ≤ b.socketIndex)

instance : DecidableRel connLE := fun a b => by unfold connLE; infer_instance

instance : IsTotal ConnRec connLE where
  total a b := by unfold connLE; omega

instance : IsTrans ConnRec connLE where
  trans a b c := by unfold connLE; omega

/-- The per-PDU compaction: split into primary/secondary zone, sort each by
`connLE`, and re-assign positionally the ascending list of previously used socket
indices of that zone. -/
def pduNewConns (devices : List Device) (baseSockets : Nat) (p : PduId) : List ConnRec :=
  let conns := connsOf devices p
  let primaryConns := conns.filter fun c => c.socketIndex < baseSockets
  let secondaryConns := conns.filter fun c => ¬ c.socketIndex < baseSockets
  let usedPrimary := (primaryConns.map (·.socketIndex)).insertionSort (· ≤ ·)
  let usedSecondary := (secondaryConns.map (·.socketIndex)).insertionSort (· ≤ ·)
  (List.zipWith (fun c s => { c with socketIndex := s })
      (primaryConns.insertionSort connLE) usedPrimary) ++
  (List.zipWith (fun c s => { c with socketIndex := s })
      (secondaryConns.insertionSort connLE) usedSecondary)

/-- The device rebuild of `optimizeWiring`: a placed device's connections are
re-pointed at the re-assigned socket of their own `(deviceId, psuIndex)` record;
a device with no record (in particular an unplaced one) is returned as-is. -/
def optDevice (devices : List Device) (baseSockets : Nat) (d : Device) : Device :=
  if ¬ uPosTruthy d then d
  else
    { d with psuConnections := d.psuConnections.enum.map fun (i, oc) =>
        match oc with
        | none => none
        | some c =>
          match (pduNewConns devices baseSockets c.pduId).find?
              (fun r => r.deviceId = d.id ∧ r.psuIndex = i) with
          | some r => some ⟨c.pduId, r.socketIndex⟩
          | none => some c }

/-- `optimizeWiring`: rebuild the device list applying the per-PDU re-assignments.
The source accumulates the re-assignments in a `changes` map keyed by
`(deviceId, psuIndex)`; for device lists with pairwise-distinct ids (the data
model requires identifiers to be unique) the entry for `(d.id, i)` is exactly the
record for that key in `pduNewConns` of the connection's own PDU, which is the
lookup performed by `optDevice`. -/
def optimizeWiring (devices : List Device) (baseSockets : Nat) : List Device :=
  devices.map (optDevice devices baseSockets)

/-! ## `runAutoConnect` (lines 241-489) -/

/-- The two assignment phases of `runAutoConnect`, before the final compaction
pass. -/
def runAutoConnectRaw (cfg : Config) (devicesToProcess : List Device) (st0 : PduState) :
    List Device :=
  let sortedDevices := devicesToProcess.insertionSort uPosDescLE
  let dualPSUDevices := sortedDevices.filter fun d => d.psuCount = 2
  let otherDevices := sortedDevices.filter fun d => d.psuCount ≠ 2
  let phase1 := dualPSUDevices.foldl
    (fun (acc : List Device × PduState) d =>
      let (d', st') := processDual cfg acc.2 d
      (acc.1 ++ [d'], st'))
    ([], st0)
  let phase2 := otherDevices.foldl
    (fun (acc : List Device × PduState × Nat) d =>
      let (d', st', rr') := processOther cfg acc.2.1 acc.2.2 d
      (acc.1 ++ [d'], st', rr'))
    ([], phase1.2, 0)
  phase1.1 ++ phase2.1

/-- `runAutoConnect`: the two phases followed by
`optimizeWiring(processedDevices, baseSocketsPerPDU)`. -/
def runAutoConnect (cfg : Config) (devicesToProcess : List Device) (st0 : PduState) :
    List Device :=
  optimizeWiring (runAutoConnectRaw cfg devicesToProcess st0) cfg.baseSocketsPerPDU

/-- The all-empty PDU state the two callers build before invoking the engine
(`currentLoad: 0, usedSockets: new Set(), circuitLoads: new Array(circuitCount).fill(0)`). -/
def initPduState (cfg : Config) : PduState :=
  fun _ => { currentLoad := 0, usedSockets := [], circuitLoads := List.replicate cfg.circuitCount 0 }

/-! ## Manual device move `handleMoveDevice` (lines 854-905) -/

/-- The conflict scan of `handleMoveDevice`: some placed device sticks out of the
rack (`uPosition > rackSize` or `uPosition - uHeight + 1 < 1`) or two distinct
list positions hold overlapping placed devices
(`max(d1Bot, d2Bot) <= min(d1Top, d2Top)`). -/
def hasConflict (rackSize : Int) (l : List Device) : Bool :=
  l.enum.any fun (i, d1) =>
    match d1.uPosition with
    | none => false
    | some u1 =>
      decide (rackSize < u1) || decide (u1 - d1.uHeight + 1 < 1) ||
      l.enum.any fun (j, d2) =>
        if i = j then false
        else match d2.uPosition with
          | none => false
          | some u2 =>
            decide (max (u1 - d1.uHeight + 1) (u2 - d2.uHeight + 1) ≤ min u1 u2)

/-- The target-device search: the first other device whose occupied range
contains `targetU` (strict `!== null` check on the position). -/
def findTarget (prev : List Device) (id : String) (targetU : Int) : Option Device :=
  prev.find? fun d =>
    d.id != id && d.uPosition.isSome &&
      (match d.uPosition with
       | some u => decide (targetU ≤ u) && decide (u - d.uHeight + 1 ≤ targetU)
       | none => false)

/-- `handleMoveDevice`: swap with the covering device if one exists, else plain
move; keep the new list only if the conflict scan is clean. -/
def handleMoveDevice (rackSize : Int) (prev : List Device) (id : String) (targetU : Int) :
    List Device :=
  match prev.find? (fun d => d.id = id) with
  | none => prev
  | some sourceDevice =>
    let newDevices :=
      match findTarget prev id targetU with
      | some targetDevice =>
          prev.map fun d =>
            if d.id = sourceDevice.id then { d with uPosition := targetDevice.uPosition }
            else if d.id = targetDevice.id then { d with uPosition := sourceDevice.uPosition }
            else d
      | none =>
          prev.map fun d =>
            if d.id = sourceDevice.id then { d with uPosition := some targetU } else d
    if hasConflict rackSize newDevices then prev else newDevices

/-! ## Manual connection update `handleConnectionUpdate` (lines 907-955) -/

/-- All `(deviceId, psuIndex)` pairs currently holding socket `(p, s)`, in scan
order. -/
def socketHolders (prev : List Device) (p : PduId) (s : Nat) : List (String × Nat) :=
  prev.flatMap fun d =>
    d.psuConnections.enum.filterMap fun (idx, oc) =>
      match oc with
      | some c => if c.pduId = p ∧ c.socketIndex = s then some (d.id, idx) else none
      | none => none

/-- `handleConnectionUpdate`: point the source PSU at the new target; if the
target socket was occupied, hand the occupant the source's previous connection.
A request that re-selects the source's own current socket is a no-op.  The
source asserts `socketIndex!` when `pduId` is non-null; a call with a non-null
`pduId` is always made with a non-null `socketIndex` (modelled by `getD 0`,
exercised only under that contract). -/
def handleConnectionUpdate (prev : List Device) (deviceId : String) (psuIndex : Nat)
    (pduId : Option PduId) (socketIndex : Option Nat) : List Device :=
  match prev.find? (fun d => d.id = deviceId) with
  | none => prev
  | some sourceDevice =>
    let sourcePrevConn := sourceDevice.psuConnections.getD psuIndex none
    let occupant? : Option (String × Nat) :=
      match pduId, socketIndex with
      | some p, some s => (socketHolders prev p s).head?
      | _, _ => none
    if occupant? = some (deviceId, psuIndex) then prev
    else
      prev.map fun d =>
        let conns₁ :=
          if d.id = deviceId then
            d.psuConnections.set psuIndex
              (match pduId with
               | none => none
               | some p => some ⟨p, socketIndex.getD 0⟩)
          else d.psuConnections
        let conns₂ :=
          match occupant? with
          | some (oid, oidx) => if d.id = oid then conns₁.set oidx sourcePrevConn else conns₁
          | none => conns₁
        { d with psuConnections := conns₂ }

/-! ## Capacity sizing `calculatedPduPairs` (lines 77-92) -/

/-- `calculatedPduPairs`: `max(1, pairsByPower, pairsBySockets)`. -/
def calculatedPduPairs (devices : List Device) (basePduCapacity powerFactor safetyMargin : ℚ)
    (baseSocketsPerPDU secondarySocketsPerPDU : Nat) : Int :=
  let totalMaxPower := (devices.map (·.powerRatingPerDevice)).sum
  let totalPSUs := (devices.map (·.psuCount)).sum
  let effectiveCapacity := basePduCapacity * powerFactor * (safetyMargin / 100)
  let pairsByPower := ⌈totalMaxPower / effectiveCapacity⌉
  let totalSocketsPerPDU := baseSocketsPerPDU + secondarySocketsPerPDU
  let pairsBySockets := ⌈((totalPSUs : ℚ) / 2) / (totalSocketsPerPDU : ℚ)⌉
  max 1 (max pairsByPower pairsBySockets)

/-! ## Bin-packing grouper `optimizePowerDistribution` (src/utils/csvParser.ts 132-198) -/

/-- Source: `interface RackGroup`. -/
structure RackGroup where
  roomId : String
  devices : List Device
  totalPower : ℚ
deriving Repr

/-- Source: `interface PDUPair`. -/
structure PDUPair where
  id : String
  capacity : ℚ
  currentLoad : ℚ
  devices : List Device
deriving Repr

/-- Source: `interface OptimizationResult`. -/
structure OptimizationResult where
  roomId : String
  pduPairs : List PDUPair
  unassignedDevices : List Device
deriving Repr

/-- Descending max-power order of the grouper. -/
def powerDescLE (a b : Device) : Prop :=
  b.powerRatingPerDevice ≤ a.powerRatingPerDevice

instance : DecidableRel powerDescLE := fun a b => by unfold powerDescLE; infer_instance

instance : IsTotal Device powerDescLE where
  total a b := le_total b.powerRatingPerDevice a.powerRatingPerDevice

instance : IsTrans Device powerDescLE where
  trans _ _ _ h h' := le_trans h' h

/-- The "least loaded valid PDU" choice: the source filters the pairs that fit,
sorts the filtered array by ascending `currentLoad` (a stable sort) and takes its
head — i.e. the earliest pair, in list order, whose load is minimal among those
that fit.  Modelled as a strict-improvement scan, which picks exactly that
pair. -/
def selectPduIdx (pairs : List PDUPair) (power cap : ℚ) : Option Nat :=
  (pairs.enum.foldl
    (fun best (ie : Nat × PDUPair) =>
      if ie.2.currentLoad + power ≤ cap then
        match best with
        | none => some ie
        | some (bi, be) =>
            if ie.2.currentLoad < be.currentLoad then some ie else some (bi, be)
      else best)
    none).map Prod.fst

/-- One grouper step: place the device in the least-loaded fitting pair, or
append a new pair holding just this device. -/
def placeDevice (cap : ℚ) (pairs : List PDUPair) (d : Device) : List PDUPair :=
  match selectPduIdx pairs d.powerRatingPerDevice cap with
  | some i =>
      pairs.modify (fun p =>
        { p with devices := p.devices ++ [d],
                 currentLoad := p.currentLoad + d.powerRatingPerDevice }) i
  | none =>
      pairs ++ [{ id := "PDU-Pair-" ++ toString (pairs.length + 1), capacity := cap,
                  currentLoad := d.powerRatingPerDevice, devices := [d] }]

/-- The per-rack body of `optimizePowerDistribution`. -/
def processRack (effectiveWattCapacity : ℚ) (rack : RackGroup) : OptimizationResult :=
  let sortedDevices := rack.devices.insertionSort powerDescLE
  let totalPower := (sortedDevices.map (·.powerRatingPerDevice)).sum
  let minPDUs : Int := ⌈totalPower / effectiveWattCapacity⌉
  let initPairs := (List.range (max 1 minPDUs).toNat).map fun i =>
    ({ id := "PDU-Pair-" ++ toString (i + 1), capacity := effectiveWattCapacity,
       currentLoad := 0, devices := [] } : PDUPair)
  let finalPairs := sortedDevices.foldl (placeDevice effectiveWattCapacity) initPairs
  { roomId := rack.roomId,
    pduPairs := finalPairs.filter fun p => p.devices.length > 0,
    unassignedDevices := [] }

/-- `optimizePowerDistribution`. -/
def optimizePowerDistribution (racks : List RackGroup) (pduCapacityVA safetyMargin powerFactor : ℚ) :
    List OptimizationResult :=
  let effectiveWattCapacity := pduCapacityVA * powerFactor * (safetyMargin / 100)
  racks.map (processRack effectiveWattCapacity)

/-! ## Semantic observables used by the claims -/

/-- Does the device hold at least one connection to PDU `p`? -/
def connectedTo (d : Device) (p : PduId) : Bool :=
  d.psuConnections.any fun oc =>
    match oc with | some c => c.pduId = p | none => false

/-- Does the device hold at least one connection to a socket of circuit `c` of
PDU `p`? -/
def connectedToCircuit (cfg : Config) (d : Device) (p : PduId) (c : Int) : Bool :=
  d.psuConnections.any fun oc =>
    match oc with
    | some cn => cn.pduId = p ∧ circuitOf cfg cn.socketIndex = c
    | none => false

/-- The total max power of the devices having at least one connection to PDU `p`
(each device counted once). -/
def devSumPdu (ds : List Device) (p : PduId) : ℚ :=
  ((ds.filter fun d => connectedTo d p).map (·.powerRatingPerDevice)).sum

/-- The total max power of the devices having at least one connection to a socket
of circuit `c` of PDU `p` (each device counted once). -/
def circuitDevSum (cfg : Config) (ds : List Device) (p : PduId) (c : Int) : ℚ :=
  ((ds.filter fun d => connectedToCircuit cfg d p c).map (·.powerRatingPerDevice)).sum

/-- The flattened list of `(pduId, socketIndex)` pairs over every `(device, PSU)`
slot of the list; socket uniqueness is `Nodup` of this list. -/
def socketPairs (ds : List Device) : List (PduId × Nat) :=
  ds.flatMap fun d =>
    d.psuConnections.filterMap fun oc => oc.map fun c => (c.pduId, c.socketIndex)

/-- The placement footprint of a device, as seen by the conflict scan. -/
def placement (d : Device) : Option Int × Int :=
  (d.uPosition, d.uHeight)

/-! ## Infrastructure: small list lemmas -/

/-- The `(deviceId, psuIndex)` key of a compaction record. -/
def connKey (r : ConnRec) : String × Nat :=
  (r.deviceId, r.psuIndex)

lemma zipWith_setIdx_map_socketIndex :
    ∀ (l : List ConnRec) (u : List Nat), l.length = u.length →
      (List.zipWith (fun c s => { c with socketIndex := s }) l u).map (·.socketIndex) = u
  | [], [], _ => rfl
  | c :: l, s :: u, h => by
      simp only [List.zipWith_cons_cons, List.map_cons]
      exact congrArg _ (zipWith_setIdx_map_socketIndex l u (by simpa using h))

lemma zipWith_setIdx_map_key :
    ∀ (l : List ConnRec) (u : List Nat), l.length = u.length →
      (List.zipWith (fun c s => { c with socketIndex := s }) l u).map connKey = l.map connKey
  | [], [], _ => rfl
  | c :: l, s :: u, h => by
      simp only [List.zipWith_cons_cons, List.map_cons]
      exact congrArg _ (zipWith_setIdx_map_key l u (by simpa using h))

lemma mem_zipWith_setIdx {x : ConnRec} :
    ∀ {l : List ConnRec} {u : List Nat},
      x ∈ List.zipWith (fun c s => { c with socketIndex := s }) l u →
      ∃ c ∈ l, x = { c with socketIndex := x.socketIndex }
  | [], _, h => by simp at h
  | _ :: _, [], h => by simp at h
  | c :: l, s :: u, h => by
      rcases List.mem_cons.mp h with h | h
      · exact ⟨c, List.mem_cons_self .., by
          subst h; rfl⟩
      · obtain ⟨c', hc', hx⟩ := mem_zipWith_setIdx h
        exact ⟨c', List.mem_cons_of_mem _ hc', hx⟩

/-- First-match search is unaffected by erasing a non-matching element. -/
lemma find?_erase_of_not_pred [DecidableEq α] {p : α → Bool} {n : α} (hn : p n = false) :
    ∀ (l : List α), (l.erase n).find? p = l.find? p
  | [] => rfl
  | a :: l => by
      by_cases ha : a = n
      · subst ha
        simp only [List.erase_cons_head, List.find?_cons, hn]
      · rw [List.erase_cons_tail (by simp [ha])]
        simp only [List.find?_cons]
        cases hp : p a
        · exact find?_erase_of_not_pred hn l
        · rfl

/-- The association permutation: if the keys of `N` are a permutation of the
(duplicate-free) keys of `A`, then replacing every element of `A` by the
first element of `N` carrying its key enumerates `N` up to permutation. -/
lemma map_find_getD_perm {α κ : Type} [DecidableEq α] [DecidableEq κ] (key : α → κ) :
    ∀ (A N : List α), N.map key ~ A.map key → (A.map key).Nodup →
      A.map (fun r => ((N.find? fun x => decide (key x = key r)).getD r)) ~ N := by
  intro A
  induction A with
  | nil =>
      intro N hperm _
      have : N.map key = [] := List.Perm.eq_nil (by simpa using hperm)
      simp [List.map_eq_nil_iff.mp this]
  | cons r A' ih =>
      intro N hperm hnodup
      have hkeymem : key r ∈ N.map key := hperm.mem_iff.mpr (by simp)
      have hsome : (N.find? fun x => decide (key x = key r)).isSome := by
        rw [List.find?_isSome]
        obtain ⟨x, hx, hxk⟩ := List.mem_map.mp hkeymem
        exact ⟨x, hx, by simp [hxk]⟩
      obtain ⟨n, hn⟩ := Option.isSome_iff_exists.mp hsome
      have hnN : n ∈ N := List.mem_of_find?_eq_some hn
      have hnkey : key n = key r := by
        have := List.find?_some hn
        simpa using this
      have hperm₁ : N ~ n :: N.erase n := List.perm_cons_erase hnN
      have hperm₂ : (N.erase n).map key ~ A'.map key := by
        have h₁ : N.map key ~ key n :: (N.erase n).map key := hperm₁.map key
        have h₂ : key n :: (N.erase n).map key ~ key r :: A'.map key :=
          h₁.symm.trans (by simpa using hperm)
        rw [hnkey] at h₂
        exact h₂.cons_inv
      have hnodup' : (A'.map key).Nodup := by
        simpa using hnodup.of_cons
      have hcongr : A'.map (fun x => ((N.find? fun y => decide (key y = key x)).getD x)) =
          A'.map (fun x => (((N.erase n).find? fun y => decide (key y = key x)).getD x)) := by
        apply List.map_congr_left
        intro x hx
        have hxkey : key x ≠ key r := by
          intro hcontra
          simp at hnodup
          exact hnodup.1 _ hx hcontra
        rw [find?_erase_of_not_pred (by simp [hnkey, Ne.symm hxkey])]
      calc (r :: A').map (fun x => ((N.find? fun y => decide (key y = key x)).getD x))
          = n :: A'.map (fun x => ((N.find? fun y => decide (key y = key x)).getD x)) := by
            simp [hn]
        _ = n :: A'.map (fun x => (((N.erase n).find? fun y => decide (key y = key x)).getD x)) := by
            rw [hcongr]
        _ ~ n :: N.erase n := List.Perm.cons n (ih (N.erase n) hperm₂ hnodup')
        _ ~ N := hperm₁.symm

/-- A list of pairs is duplicate-free as soon as, for every first component, the
list of second components filed under it is duplicate-free. -/
lemma nodup_of_nodup_filter_fst {κ ν : Type} [DecidableEq κ] [DecidableEq ν] :
    ∀ (l : List (κ × ν)),
      (∀ k, ((l.filter fun x => decide (x.1 = k)).map Prod.snd).Nodup) → l.Nodup
  | [], _ => List.nodup_nil
  | (k₀, v₀) :: l, h => by
      refine List.nodup_cons.mpr ⟨?_, ?_⟩
      · intro hmem
        have hfil := h k₀
        rw [List.filter_cons_of_pos (by simp)] at hfil
        simp only [List.map_cons, List.nodup_cons] at hfil
        exact hfil.1 (List.mem_map_of_mem Prod.snd (List.mem_filter.mpr ⟨hmem, by simp⟩))
      · refine nodup_of_nodup_filter_fst l (fun k => ?_)
        have hfil := h k
        by_cases hk : k₀ = k
        · rw [List.filter_cons_of_pos (by simp [hk])] at hfil
          simp only [List.map_cons, List.nodup_cons] at hfil
          exact hfil.2
        · rwa [List.filter_cons_of_neg (by simp [hk])] at hfil

/-! ## Infrastructure: the compaction pass -/

lemma connsOf_cons (d : Device) (ds : List Device) (p : PduId) :
    connsOf (d :: ds) p =
      (if uPosTruthy d then devContribAt d p else []) ++ connsOf ds p := by
  simp [connsOf]

lemma deviceId_of_mem_devContribAt {r : ConnRec} {d : Device} {p : PduId}
    (h : r ∈ devContribAt d p) : r.deviceId = d.id := by
  obtain ⟨⟨i, oc⟩, -, hoc⟩ := List.mem_filterMap.mp h
  cases oc with
  | none => simp at hoc
  | some c =>
      by_cases hcp : c.pduId = p
      · simp only [hcp, Option.some_bind, if_pos rfl] at hoc
        rw [← Option.some.inj hoc]
      · simp [hcp] at hoc

lemma deviceId_mem_of_mem_connsOf {r : ConnRec} :
    ∀ {ds : List Device} {p : PduId}, r ∈ connsOf ds p → r.deviceId ∈ ds.map (·.id) := by
  intro ds
  induction ds with
  | nil => intro p h; simp [connsOf] at h
  | cons d ds ih =>
      intro p h
      rw [connsOf_cons] at h
      rcases List.mem_append.mp h with h | h
      · have hid : r.deviceId = d.id := by
          split at h
          · exact deviceId_of_mem_devContribAt h
          · simp at h
        simp [hid]
      · exact List.mem_cons_of_mem _ (ih h)

/-- Transport of a `filterMap` image into a `map` image as a sublist. -/
lemma map_filterMap_sublist {α β γ : Type} (f : α → Option β) (g : β → γ) (h : α → γ)
    (hfg : ∀ a b, f a = some b → g b = h a) :
    ∀ l : List α, ((l.filterMap f).map g).Sublist (l.map h)
  | [] => List.Sublist.slnil
  | a :: l => by
      cases hfa : f a with
      | none =>
          simp only [List.filterMap_cons, hfa, List.map_cons]
          exact (map_filterMap_sublist f g h hfg l).cons _
      | some b =>
          simp only [List.filterMap_cons, hfa, List.map_cons, hfg a b hfa]
          exact (map_filterMap_sublist f g h hfg l).cons₂ _

lemma devContribAt_keys_nodup (d : Device) (p : PduId) :
    ((devContribAt d p).map connKey).Nodup := by
  have hsub : ((devContribAt d p).map connKey).Sublist
      (d.psuConnections.enum.map fun q => (d.id, q.1)) := by
    apply map_filterMap_sublist
    intro ⟨i, oc⟩ r hoc
    cases oc with
    | none => simp at hoc
    | some c =>
        by_cases hcp : c.pduId = p
        · simp only [hcp, Option.some_bind, if_pos rfl] at hoc
          rw [← Option.some.inj hoc]
          rfl
        · simp [hcp] at hoc
  refine hsub.nodup ?_
  have heq : (d.psuConnections.enum.map fun q => (d.id, q.1)) =
      (List.range d.psuConnections.length).map fun i => (d.id, i) := by
    rw [← List.enum_map_fst d.psuConnections, List.map_map]
    rfl
  rw [heq]
  exact (List.nodup_range _).map fun a b hab => by simpa using hab

lemma connsOf_keys_nodup :
    ∀ {ds : List Device}, (ds.map (·.id)).Nodup → ∀ (p : PduId),
      ((connsOf ds p).map connKey).Nodup := by
  intro ds
  induction ds with
  | nil => intro _ p; simp [connsOf]
  | cons d ds ih =>
      intro hids p
      simp only [List.map_cons, List.nodup_cons] at hids
      rw [connsOf_cons, List.map_append]
      refine List.Nodup.append ?_ (ih hids.2 p) ?_
      · split
        · exact devContribAt_keys_nodup d p
        · simp
      · intro k hk₁ hk₂
        obtain ⟨r₁, hr₁, hk₁'⟩ := List.mem_map.mp hk₁
        obtain ⟨r₂, hr₂, hk₂'⟩ := List.mem_map.mp hk₂
        have h₁ : r₁.deviceId = d.id := by
          split at hr₁
          · exact deviceId_of_mem_devContribAt hr₁
          · simp at hr₁
        have h₂ : r₂.deviceId ∈ ds.map (·.id) := deviceId_mem_of_mem_connsOf hr₂
        apply hids.1
        have : r₁.deviceId = r₂.deviceId := by
          have := hk₁'.trans hk₂'.symm
          exact congrArg Prod.fst this
        rw [← h₁, this]
        exact h₂

/-- The two zone filters of the compaction pass partition the records of a PDU
(up to permutation). -/
lemma filter_zone_perm (conns : List ConnRec) (b : Nat) :
    (conns.filter fun c => c.socketIndex < b) ++
      (conns.filter fun c => ¬ c.socketIndex < b) ~ conns := by
  have hfun : (fun c : ConnRec => decide (¬ c.socketIndex < b)) =
      (fun c : ConnRec => ! decide (c.socketIndex < b)) := by
    funext c
    exact decide_not
  calc (conns.filter fun c => c.socketIndex < b) ++
        (conns.filter fun c => ¬ c.socketIndex < b)
      = (conns.filter fun c => c.socketIndex < b) ++
        (conns.filter fun c => ! decide (c.socketIndex < b)) := by rw [hfun]
    _ ~ conns := List.filter_append_perm _ conns

lemma length_sorted_used (l : List ConnRec) :
    (l.insertionSort connLE).length =
      ((l.map (·.socketIndex)).insertionSort (· ≤ ·)).length := by
  simp [List.length_insertionSort]

/-- The keys of the compacted records of a PDU are a permutation of the keys of
its original records. -/
lemma pduNewConns_key_perm (ds : List Device) (b : Nat) (p : PduId) :
    (pduNewConns ds b p).map connKey ~ (connsOf ds p).map connKey := by
  unfold pduNewConns
  rw [List.map_append,
    zipWith_setIdx_map_key _ _ (length_sorted_used _),
    zipWith_setIdx_map_key _ _ (length_sorted_used _),
    ← List.map_append]
  exact (((List.perm_insertionSort connLE _).append
    (List.perm_insertionSort connLE _)).trans (filter_zone_perm _ b)).map connKey

/-- The socket indices of the compacted records of a PDU are a permutation of
the socket indices of its original records. -/
lemma pduNewConns_idx_perm (ds : List Device) (b : Nat) (p : PduId) :
    (pduNewConns ds b p).map (·.socketIndex) ~ (connsOf ds p).map (·.socketIndex) := by
  unfold pduNewConns
  rw [List.map_append,
    zipWith_setIdx_map_socketIndex _ _ (length_sorted_used _),
    zipWith_setIdx_map_socketIndex _ _ (length_sorted_used _)]
  refine ((List.perm_insertionSort _ _).append (List.perm_insertionSort _ _)).trans ?_
  rw [← List.map_append]
  exact (filter_zone_perm _ b).map _

/-- Every compacted record is an original record with only its socket index
re-assigned. -/
lemma mem_pduNewConns {x : ConnRec} {ds : List Device} {b : Nat} {p : PduId}
    (h : x ∈ pduNewConns ds b p) :
    ∃ c ∈ connsOf ds p, x = { c with socketIndex := x.socketIndex } := by
  unfold pduNewConns at h
  rcases List.mem_append.mp h with h | h
  · obtain ⟨c, hc, hx⟩ := mem_zipWith_setIdx h
    have := List.mem_insertionSort connLE |>.mp hc
    exact ⟨c, List.mem_of_mem_filter this, hx⟩
  · obtain ⟨c, hc, hx⟩ := mem_zipWith_setIdx h
    have := List.mem_insertionSort connLE |>.mp hc
    exact ⟨c, List.mem_of_mem_filter this, hx⟩

/-- The socket re-assignment the source's `changes` map applies to one record. -/
def substConn (N : List ConnRec) (r : ConnRec) : ConnRec :=
  match N.find? (fun x => x.deviceId = r.deviceId ∧ x.psuIndex = r.psuIndex) with
  | some x => { r with socketIndex := x.socketIndex }
  | none => r

lemma find?_pred_congr {α : Type} {p q : α → Bool} (hpq : ∀ x, p x = q x) :
    ∀ (l : List α), l.find? p = l.find? q
  | [] => rfl
  | a :: l => by
      simp only [List.find?_cons, hpq a]
      cases q a
      · exact find?_pred_congr hpq l
      · rfl

lemma find?_key_congr (N : List ConnRec) (r : ConnRec) :
    N.find? (fun x => x.deviceId = r.deviceId ∧ x.psuIndex = r.psuIndex) =
      N.find? (fun x => decide (connKey x = connKey r)) := by
  apply find?_pred_congr
  intro x
  simp [connKey, Prod.ext_iff]

/-- Under duplicate-free device ids, re-assigning every record of a PDU is, up to
permutation, exactly the compacted record list of that PDU. -/
lemma connsOf_map_substConn_perm {ds : List Device} (b : Nat) (p : PduId)
    (hids : (ds.map (·.id)).Nodup) :
    (connsOf ds p).map (substConn (pduNewConns ds b p)) ~ pduNewConns ds b p := by
  have hnodup := connsOf_keys_nodup hids p
  have hperm := pduNewConns_key_perm ds b p
  have hcongr : (connsOf ds p).map (substConn (pduNewConns ds b p)) =
      (connsOf ds p).map (fun r =>
        (((pduNewConns ds b p).find? fun x => decide (connKey x = connKey r)).getD r)) := by
    apply List.map_congr_left
    intro r hr
    unfold substConn
    rw [find?_key_congr]
    cases hfind : (pduNewConns ds b p).find? fun x => decide (connKey x = connKey r) with
    | none => rfl
    | some x =>
        have hxmem := List.mem_of_find?_eq_some hfind
        have hxkey : connKey x = connKey r := by
          have := List.find?_some hfind
          simpa using this
        obtain ⟨c, hc, hx⟩ := mem_pduNewConns hxmem
        have hck : connKey c = connKey r := by
          rw [← hxkey, hx]
          rfl
        have hcr : c = r :=
          List.inj_on_of_nodup_map hnodup hc hr hck
        simp only [Option.getD_some]
        rw [hx, hcr]
  rw [hcongr]
  exact map_find_getD_perm connKey (connsOf ds p) (pduNewConns ds b p) hperm hnodup

lemma enumFrom_map_pair {α β : Type} (φ : Nat × α → β) :
    ∀ (l : List α) (n : Nat),
      ((l.enumFrom n).map φ).enumFrom n = (l.enumFrom n).map fun q => (q.1, φ q)
  | [], _ => rfl
  | a :: l, n => by
      simp only [List.enumFrom_cons, List.map_cons]
      exact congrArg _ (enumFrom_map_pair φ l (n + 1))

lemma enum_map_pair {α β : Type} (φ : Nat × α → β) (l : List α) :
    (l.enum.map φ).enum = l.enum.map fun q => (q.1, φ q) :=
  enumFrom_map_pair φ l 0

/-- Field preservation of `optDevice`. -/
lemma optDevice_fields (ds₀ : List Device) (b : Nat) (d : Device) :
    (optDevice ds₀ b d).id = d.id ∧ (optDevice ds₀ b d).uPosition = d.uPosition ∧
      (optDevice ds₀ b d).uHeight = d.uHeight ∧
      (optDevice ds₀ b d).powerRatingPerDevice = d.powerRatingPerDevice := by
  unfold optDevice
  split
  · exact ⟨rfl, rfl, rfl, rfl⟩
  · exact ⟨rfl, rfl, rfl, rfl⟩

lemma optDevice_truthy (ds₀ : List Device) (b : Nat) (d : Device) :
    uPosTruthy (optDevice ds₀ b d) = uPosTruthy d := by
  unfold uPosTruthy
  rw [(optDevice_fields ds₀ b d).2.1]

lemma optDevice_uPosVal (ds₀ : List Device) (b : Nat) (d : Device) :
    uPosVal (optDevice ds₀ b d) = uPosVal d := by
  unfold uPosVal
  rw [(optDevice_fields ds₀ b d).2.1]

lemma optDevice_unplaced (ds₀ : List Device) (b : Nat) (d : Device)
    (hd : ¬ uPosTruthy d) : optDevice ds₀ b d = d := by
  unfold optDevice
  simp [hd]

/-- The per-device heart of the compaction pass: after the rebuild, a placed
device's records under `p` are exactly its original records with
`substConn`-re-assigned sockets. -/
lemma devContribAt_optDevice (ds₀ : List Device) (b : Nat) (p : PduId) (d : Device)
    (hd : uPosTruthy d) :
    devContribAt (optDevice ds₀ b d) p =
      (devContribAt d p).map (substConn (pduNewConns ds₀ b p)) := by
  have hid := (optDevice_fields ds₀ b d).1
  have hval := optDevice_uPosVal ds₀ b d
  have hconns : (optDevice ds₀ b d).psuConnections =
      d.psuConnections.enum.map fun (i, oc) =>
        match oc with
        | none => none
        | some c =>
          match (pduNewConns ds₀ b c.pduId).find?
              (fun r => r.deviceId = d.id ∧ r.psuIndex = i) with
          | some r => some ⟨c.pduId, r.socketIndex⟩
          | none => some c := by
    unfold optDevice
    simp [hd]
  unfold devContribAt
  rw [hconns, hid, hval, enum_map_pair, List.filterMap_map, List.map_filterMap]
  apply congrArg (fun f => List.filterMap f d.psuConnections.enum)
  funext q
  obtain ⟨i, oc⟩ := q
  cases oc with
  | none => rfl
  | some c =>
      unfold substConn
      by_cases hcp : c.pduId = p
      · subst hcp
        dsimp only
        cases hfind : (pduNewConns ds₀ b c.pduId).find?
            (fun r => decide (r.deviceId = d.id) && decide (r.psuIndex = i)) with
        | some x => simp [hfind]
        | none => simp [hfind]
      · dsimp only
        cases hfind : (pduNewConns ds₀ b c.pduId).find?
            (fun r => decide (r.deviceId = d.id) && decide (r.psuIndex = i)) with
        | some x => simp [hfind, hcp]
        | none => simp [hfind, hcp]

lemma connsOf_map_optDevice (ds₀ : List Device) (b : Nat) (p : PduId) :
    ∀ part : List Device,
      connsOf (part.map (optDevice ds₀ b)) p =
        (connsOf part p).map (substConn (pduNewConns ds₀ b p))
  | [] => rfl
  | d :: part => by
      rw [List.map_cons, connsOf_cons, connsOf_cons, List.map_append,
        connsOf_map_optDevice ds₀ b p part]
      congr 1
      by_cases hd : uPosTruthy d
      · rw [if_pos (by rw [optDevice_truthy]; exact hd), if_pos hd]
        exact devContribAt_optDevice ds₀ b p d hd
      · rw [if_neg (by rw [optDevice_truthy]; exact hd), if_neg hd]
        rfl

/-- The compaction pass, seen through `connsOf`. -/
lemma connsOf_optimizeWiring (ds : List Device) (b : Nat) (p : PduId) :
    connsOf (optimizeWiring ds b) p =
      (connsOf ds p).map (substConn (pduNewConns ds b p)) :=
  connsOf_map_optDevice ds b p ds

/-- C4 part (a), as a permutation of per-PDU occupied-socket multisets. -/
lemma optimizeWiring_sockets_perm {ds : List Device} (b : Nat) (p : PduId)
    (hids : (ds.map (·.id)).Nodup) :
    (connsOf (optimizeWiring ds b) p).map (·.socketIndex) ~
      (connsOf ds p).map (·.socketIndex) := by
  rw [connsOf_optimizeWiring]
  calc ((connsOf ds p).map (substConn (pduNewConns ds b p))).map (·.socketIndex)
      ~ (pduNewConns ds b p).map (·.socketIndex) :=
        (connsOf_map_substConn_perm b p hids).map _
    _ ~ (connsOf ds p).map (·.socketIndex) := pduNewConns_idx_perm ds b p

lemma forall₂_enumFrom_map {α β : Type} (R : α → β → Prop) (F : Nat × α → β)
    (h : ∀ i a, R a (F (i, a))) :
    ∀ (l : List α) (n : Nat), List.Forall₂ R l ((l.enumFrom n).map F)
  | [], _ => List.Forall₂.nil
  | a :: l, n => by
      simp only [List.enumFrom_cons, List.map_cons]
      exact List.Forall₂.cons (h n a) (forall₂_enumFrom_map R F h l (n + 1))

/-- The relation C4 asserts between a device and its compacted rebuild: identity,
position, height, power and the PDU of every PSU slot are untouched. -/
def SameButSockets (d d' : Device) : Prop :=
  d'.id = d.id ∧ d'.uPosition = d.uPosition ∧ d'.uHeight = d.uHeight ∧
    d'.powerRatingPerDevice = d.powerRatingPerDevice ∧
    List.Forall₂
      (fun oc oc' => Option.map PSUConnection.pduId oc' = Option.map PSUConnection.pduId oc)
      d.psuConnections d'.psuConnections

lemma optDevice_sameButSockets (ds₀ : List Device) (b : Nat) (d : Device) :
    SameButSockets d (optDevice ds₀ b d) := by
  obtain ⟨h1, h2, h3, h4⟩ := optDevice_fields ds₀ b d
  refine ⟨h1, h2, h3, h4, ?_⟩
  show List.Forall₂ _ d.psuConnections (optDevice ds₀ b d).psuConnections
  by_cases hd : uPosTruthy d
  · have hconns : (optDevice ds₀ b d).psuConnections =
        d.psuConnections.enum.map fun (i, oc) =>
          match oc with
          | none => none
          | some c =>
            match (pduNewConns ds₀ b c.pduId).find?
                (fun r => r.deviceId = d.id ∧ r.psuIndex = i) with
            | some r => some ⟨c.pduId, r.socketIndex⟩
            | none => some c := by
      unfold optDevice
      simp [hd]
    rw [hconns]
    apply forall₂_enumFrom_map
    intro i oc
    cases oc with
    | none => rfl
    | some c =>
        cases hfind : (pduNewConns ds₀ b c.pduId).find?
            (fun r => r.deviceId = d.id ∧ r.psuIndex = i) with
        | some x => simp only [hfind]; try rfl
        | none => simp only [hfind]; try rfl
  · rw [optDevice_unplaced ds₀ b d hd]
    exact (List.forall₂_same).mpr fun oc _ => rfl

/-- A concrete device (the 600 W single-PSU device of the spec's Scenario A),
used to instantiate hypotheses of the proved theorems. -/
def sampleDevice : Device :=
  { id := "dev-A", name := "dev-A", room := "R1", psuCount := 1, typicalPower := 360,
    powerRatingPerDevice := 600, connectionType := "C13", uHeight := 1,
    uPosition := some 48, psuConnections := [none] }

/-! ## Infrastructure: the assignment step relation -/

/-- A socket the scans may select on a PDU: free and circuit-legal. -/
def freeLegal (cfg : Config) (pdu : PduEntry) (load : ℚ) (s : Nat) : Prop :=
  s ∉ pdu.usedSockets ∧ checkCircuit cfg pdu s load = true

lemma closerCandidate_cases (best : Option (Nat × ℚ)) (s : Nat) (dist : ℚ) :
    closerCandidate best s dist = best ∨ closerCandidate best s dist = some (s, dist) := by
  unfold closerCandidate
  cases best with
  | none => right; rfl
  | some bq =>
      obtain ⟨b, bd⟩ := bq
      by_cases h : dist < bd
      · right; simp [h]
      · left; simp [h]

lemma socketStep_cases (cfg : Config) (pdu : PduEntry) (k : Nat) (d : Device)
    (centerY load : ℚ) (best : Option (Nat × ℚ)) (s : Nat) :
    socketStep cfg pdu k d centerY load best s = best ∨
      (freeLegal cfg pdu load s ∧
        socketStep cfg pdu k d centerY load best s = some (s, |getPDUSocketY cfg k s - centerY|)) := by
  unfold socketStep
  by_cases h₁ : s ∉ pdu.usedSockets
  · by_cases h₂ : zoneType cfg s ≠ d.connectionType
    · left; simp [h₁, h₂]
    · by_cases h₃ : ¬ checkCircuit cfg pdu s load
      · left; simp [h₁, h₂, h₃]
      · rcases closerCandidate_cases best s |getPDUSocketY cfg k s - centerY| with hc | hc
        · left; simpa [h₁, h₂, h₃] using hc
        · right
          refine ⟨⟨h₁, by simpa using h₃⟩, ?_⟩
          simpa [h₁, h₂, h₃] using hc
  · left; simp [h₁]

lemma sharedSocketStep_cases (cfg : Config) (pduA pduB : PduEntry) (k : Nat) (d : Device)
    (centerY load : ℚ) (best : Option (Nat × ℚ)) (s : Nat) :
    sharedSocketStep cfg pduA pduB k d centerY load best s = best ∨
      (freeLegal cfg pduA load s ∧ freeLegal cfg pduB load s ∧
        sharedSocketStep cfg pduA pduB k d centerY load best s =
          some (s, |getPDUSocketY cfg k s - centerY|)) := by
  unfold sharedSocketStep
  by_cases h₁ : s ∉ pduA.usedSockets ∧ s ∉ pduB.usedSockets
  · by_cases h₂ : zoneType cfg s ≠ d.connectionType
    · left; simp [h₁, h₂]
    · by_cases h₃ : ¬ (checkCircuit cfg pduA s load ∧ checkCircuit cfg pduB s load)
      · left; simp [h₁, h₂, h₃]
      · rw [not_not] at h₃
        rcases closerCandidate_cases best s |getPDUSocketY cfg k s - centerY| with hc | hc
        · left; simpa [h₁, h₂, h₃] using hc
        · right
          refine ⟨⟨h₁.1, h₃.1⟩, ⟨h₁.2, h₃.2⟩, ?_⟩
          simpa [h₁, h₂, h₃] using hc
  · left; simp [h₁]

lemma foldl_socketStep_spec (cfg : Config) (pdu : PduEntry) (k : Nat) (d : Device)
    (centerY load : ℚ) :
    ∀ (l : List Nat) (acc : Option (Nat × ℚ)),
      (∀ bq : Nat × ℚ, acc = some bq → freeLegal cfg pdu load bq.1) →
      ∀ bq : Nat × ℚ, l.foldl (socketStep cfg pdu k d centerY load) acc = some bq →
        freeLegal cfg pdu load bq.1
  | [], _, hacc, bq, h => hacc bq h
  | s :: l, acc, hacc, bq, h => by
      refine foldl_socketStep_spec cfg pdu k d centerY load l _ ?_ bq h
      intro bq' hbq'
      rcases socketStep_cases cfg pdu k d centerY load acc s with hc | ⟨hg, hc⟩
      · exact hacc bq' (hc ▸ hbq')
      · rw [hc] at hbq'
        cases hbq'
        exact hg

lemma foldl_sharedSocketStep_spec (cfg : Config) (pduA pduB : PduEntry) (k : Nat) (d : Device)
    (centerY load : ℚ) :
    ∀ (l : List Nat) (acc : Option (Nat × ℚ)),
      (∀ bq : Nat × ℚ, acc = some bq →
        freeLegal cfg pduA load bq.1 ∧ freeLegal cfg pduB load bq.1) →
      ∀ bq : Nat × ℚ, l.foldl (sharedSocketStep cfg pduA pduB k d centerY load) acc = some bq →
        freeLegal cfg pduA load bq.1 ∧ freeLegal cfg pduB load bq.1
  | [], _, hacc, bq, h => hacc bq h
  | s :: l, acc, hacc, bq, h => by
      refine foldl_sharedSocketStep_spec cfg pduA pduB k d centerY load l _ ?_ bq h
      intro bq' hbq'
      rcases sharedSocketStep_cases cfg pduA pduB k d centerY load acc s with hc | ⟨hgA, hgB, hc⟩
      · exact hacc bq' (hc ▸ hbq')
      · rw [hc] at hbq'
        cases hbq'
        exact ⟨hgA, hgB⟩

lemma bestSocketOn_freeLegal {cfg : Config} {pdu : PduEntry} {k : Nat} {d : Device}
    {centerY load : ℚ} {s : Nat}
    (h : bestSocketOn cfg pdu k d centerY load = some s) : freeLegal cfg pdu load s := by
  unfold bestSocketOn at h
  obtain ⟨bq, hfold, hs⟩ := Option.map_eq_some'.mp h
  subst hs
  exact foldl_socketStep_spec cfg pdu k d centerY load _ none (by intro bq h; cases h) bq hfold

lemma bestSharedSocket_freeLegal {cfg : Config} {pduA pduB : PduEntry} {k : Nat} {d : Device}
    {centerY load : ℚ} {s : Nat}
    (h : bestSharedSocket cfg pduA pduB k d centerY load = some s) :
    freeLegal cfg pduA load s ∧ freeLegal cfg pduB load s := by
  unfold bestSharedSocket at h
  obtain ⟨bq, hfold, hs⟩ := Option.map_eq_some'.mp h
  subst hs
  exact foldl_sharedSocketStep_spec cfg pduA pduB k d centerY load _ none
    (by intro bq h; cases h) bq hfold

/-! ## Infrastructure: commit arithmetic -/

/-- The watt load booked on circuit `c` of a state entry. -/
def circuitVal (e : PduEntry) (c : Nat) : ℚ :=
  e.circuitLoads.getD c 0

lemma circuitOf_nonneg (cfg : Config) (s : Nat) : 0 ≤ circuitOf cfg s := by
  unfold circuitOf socketsPerCircuit
  have h₁ : (0 : ℚ) ≤ (cfg.totalSockets : ℚ) / (cfg.circuitCount : ℚ) :=
    div_nonneg (by positivity) (by positivity)
  have h₂ : (0 : Int) ≤ ⌈(cfg.totalSockets : ℚ) / (cfg.circuitCount : ℚ)⌉ :=
    Int.ceil_nonneg h₁
  have h₃ : (0 : ℚ) ≤ (s : ℚ) / ((⌈(cfg.totalSockets : ℚ) / (cfg.circuitCount : ℚ)⌉ : Int) : ℚ) :=
    div_nonneg (by positivity) (by exact_mod_cast h₂)
  exact Int.floor_nonneg.mpr h₃

lemma checkCircuit_iff {cfg : Config} {e : PduEntry} {s : Nat} {l : ℚ} :
    checkCircuit cfg e s l = true ↔
      circuitOf cfg s < (cfg.circuitCount : Int) ∧
        (circuitVal e (circuitOf cfg s).toNat + l) / cfg.powerFactor / cfg.voltage ≤
          effectiveCircuitAmps cfg := by
  unfold checkCircuit circuitVal
  dsimp only
  by_cases h : circuitOf cfg s ≥ (cfg.circuitCount : Int)
  · rw [if_pos h]
    constructor
    · intro hh
      exact absurd hh (by simp)
    · rintro ⟨h1, -⟩
      omega
  · rw [if_neg h]
    simp only [decide_eq_true_eq]
    constructor
    · intro hb
      exact ⟨by omega, hb⟩
    · rintro ⟨-, hb⟩
      exact hb

lemma commitAssign_currentLoad (cfg : Config) (e : PduEntry) (s : Nat) (l : ℚ) :
    (commitAssign cfg e s l).currentLoad = e.currentLoad + l := by
  unfold commitAssign addCircuitLoad
  dsimp only
  split
  · rfl
  · rfl

lemma commitAssign_usedSockets (cfg : Config) (e : PduEntry) (s : Nat) (l : ℚ) :
    (commitAssign cfg e s l).usedSockets = s :: e.usedSockets := by
  unfold commitAssign addCircuitLoad
  dsimp only
  split
  · rfl
  · rfl

lemma commitAssign_circuitLoads_length (cfg : Config) (e : PduEntry) (s : Nat) (l : ℚ) :
    (commitAssign cfg e s l).circuitLoads.length = e.circuitLoads.length := by
  unfold commitAssign addCircuitLoad
  dsimp only
  split
  · simp
  · rfl

lemma getD_set_cases (l : List ℚ) (i c : Nat) (v : ℚ) (hi : i < l.length) :
    (l.set i v).getD c 0 = if c = i then v else l.getD c 0 := by
  by_cases hc : c = i
  · subst hc
    simp [List.getD_eq_getElem?_getD, List.getElem?_set_self, hi]
  · simp [List.getD_eq_getElem?_getD, List.getElem?_set_ne (fun h => hc h.symm), hc]

lemma circuitVal_commitAssign {cfg : Config} {e : PduEntry} (s : Nat) (l : ℚ)
    (hlen : e.circuitLoads.length = cfg.circuitCount) (c : Nat) :
    circuitVal (commitAssign cfg e s l) c =
      if c = (circuitOf cfg s).toNat ∧ circuitOf cfg s < (cfg.circuitCount : Int) then
        circuitVal e c + l
      else circuitVal e c := by
  unfold commitAssign addCircuitLoad circuitVal
  by_cases hidx : circuitOf cfg s < (cfg.circuitCount : Int)
  · have hlt : (circuitOf cfg s).toNat < e.circuitLoads.length := by
      have h0 := circuitOf_nonneg cfg s
      rw [hlen]
      omega
    simp only [if_pos hidx]
    rw [getD_set_cases _ _ _ _ hlt]
    by_cases hc : c = (circuitOf cfg s).toNat
    · simp [hc, hidx]
    · simp [hc, hidx]
  · simp [hidx]

/-- The effect of one successful PSU assignment on the PDU state: exactly one
key is updated, after a capacity guard, a free-socket guard and a circuit
guard. -/
def StepRel (cfg : Config) (load : ℚ) (st st' : PduState)
    (c? : Option PSUConnection) : Prop :=
  (c? = none ∧ st' = st) ∨
  ∃ q s, c? = some ⟨q, s⟩ ∧
    (st q).currentLoad + load ≤ cfg.effectiveCap ∧
    s ∉ (st q).usedSockets ∧
    checkCircuit cfg (st q) s load = true ∧
    st' = setPdu st q (commitAssign cfg (st q) s load)

/-- A chain of per-PSU assignment effects, one per produced connection slot. -/
inductive Steps (cfg : Config) (load : ℚ) :
    PduState → PduState → List (Option PSUConnection) → Prop where
  | nil : ∀ {st}, Steps cfg load st st []
  | cons : ∀ {st st₁ st' c? cs}, StepRel cfg load st st₁ c? →
      Steps cfg load st₁ st' cs → Steps cfg load st st' (c? :: cs)

lemma Steps.snoc {cfg : Config} {load : ℚ} {st st₁ st' : PduState}
    {cs : List (Option PSUConnection)} {c? : Option PSUConnection}
    (h : Steps cfg load st st₁ cs) (hstep : StepRel cfg load st₁ st' c?) :
    Steps cfg load st st' (cs ++ [c?]) := by
  induction h with
  | nil => exact Steps.cons hstep Steps.nil
  | cons h₁ _ ih => exact Steps.cons h₁ (ih hstep)

/-- `assignPsu` performs exactly one assignment effect (or none). -/
lemma assignPsu_stepRel (cfg : Config) (side : Side) (d : Device) (centerY load : ℚ) :
    ∀ (ks : List Nat) (st : PduState),
      StepRel cfg load st (assignPsu cfg side d centerY load ks st).2
        (assignPsu cfg side d centerY load ks st).1
  | [], st => Or.inl ⟨rfl, rfl⟩
  | k :: ks, st => by
      unfold assignPsu
      by_cases hcap : (st (side, k)).currentLoad + load ≤ cfg.effectiveCap
      · simp only [if_pos hcap]
        cases hbest : bestSocketOn cfg (st (side, k)) k d centerY load with
        | some s =>
            obtain ⟨hfree, hcirc⟩ := bestSocketOn_freeLegal hbest
            exact Or.inr ⟨(side, k), s, rfl, hcap, hfree, hcirc, rfl⟩
        | none => exact assignPsu_stepRel cfg side d centerY load ks st
      · simp only [if_neg hcap]
        exact assignPsu_stepRel cfg side d centerY load ks st

/-! ## Infrastructure: properties of assignment chains -/

lemma setPdu_apply_self (st : PduState) (q : PduId) (e : PduEntry) :
    setPdu st q e q = e := by
  unfold setPdu
  simp

lemma setPdu_apply_other (st : PduState) (q r : PduId) (e : PduEntry) (h : r ≠ q) :
    setPdu st q e r = st r := by
  unfold setPdu
  simp [h]

lemma StepRel.step_load_le_cap {cfg : Config} {load : ℚ} {st st' : PduState}
    {c? : Option PSUConnection} (h : StepRel cfg load st st' c?)
    (hst : ∀ q, (st q).currentLoad ≤ cfg.effectiveCap) :
    ∀ q, (st' q).currentLoad ≤ cfg.effectiveCap := by
  rcases h with ⟨-, rfl⟩ | ⟨q₀, s₀, -, hcap, -, -, rfl⟩
  · exact hst
  · intro q
    by_cases hq : q = q₀
    · subst hq
      rw [setPdu_apply_self, commitAssign_currentLoad]
      exact hcap
    · rw [setPdu_apply_other _ _ _ _ hq]
      exact hst q

lemma StepRel.step_load_mono {cfg : Config} {load : ℚ} {st st' : PduState}
    {c? : Option PSUConnection} (h : StepRel cfg load st st' c?) (hl : 0 ≤ load) :
    ∀ q, (st q).currentLoad ≤ (st' q).currentLoad := by
  rcases h with ⟨-, rfl⟩ | ⟨q₀, s₀, -, -, -, -, rfl⟩
  · exact fun q => le_refl _
  · intro q
    by_cases hq : q = q₀
    · subst hq
      rw [setPdu_apply_self, commitAssign_currentLoad]
      linarith
    · rw [setPdu_apply_other _ _ _ _ hq]

lemma StepRel.step_circuit_len {cfg : Config} {load : ℚ} {st st' : PduState}
    {c? : Option PSUConnection} (h : StepRel cfg load st st' c?) :
    ∀ q, (st' q).circuitLoads.length = (st q).circuitLoads.length := by
  rcases h with ⟨-, rfl⟩ | ⟨q₀, s₀, -, -, -, -, rfl⟩
  · exact fun q => rfl
  · intro q
    by_cases hq : q = q₀
    · subst hq
      rw [setPdu_apply_self, commitAssign_circuitLoads_length]
    · rw [setPdu_apply_other _ _ _ _ hq]

lemma StepRel.step_circuit_le {cfg : Config} {load : ℚ} {st st' : PduState}
    {c? : Option PSUConnection} (h : StepRel cfg load st st' c?)
    (hlen : ∀ q, (st q).circuitLoads.length = cfg.circuitCount)
    (hst : ∀ q c, circuitVal (st q) c / cfg.powerFactor / cfg.voltage ≤
      effectiveCircuitAmps cfg) :
    ∀ q c, circuitVal (st' q) c / cfg.powerFactor / cfg.voltage ≤
      effectiveCircuitAmps cfg := by
  rcases h with ⟨-, rfl⟩ | ⟨q₀, s₀, -, -, -, hcheck, rfl⟩
  · exact hst
  · intro q c
    by_cases hq : q = q₀
    · subst hq
      rw [setPdu_apply_self, circuitVal_commitAssign s₀ load (hlen q) c]
      obtain ⟨hlt, hbound⟩ := checkCircuit_iff.mp hcheck
      by_cases hc : c = (circuitOf cfg s₀).toNat ∧ circuitOf cfg s₀ < (cfg.circuitCount : Int)
      · rw [if_pos hc, hc.1]
        exact hbound
      · rw [if_neg hc]
        exact hst q c
    · rw [setPdu_apply_other _ _ _ _ hq]
      exact hst q c

lemma StepRel.step_circuitVal_mono {cfg : Config} {load : ℚ} {st st' : PduState}
    {c? : Option PSUConnection} (h : StepRel cfg load st st' c?) (hl : 0 ≤ load)
    (hlen : ∀ q, (st q).circuitLoads.length = cfg.circuitCount) :
    ∀ q c, circuitVal (st q) c ≤ circuitVal (st' q) c := by
  rcases h with ⟨-, rfl⟩ | ⟨q₀, s₀, -, -, -, -, rfl⟩
  · exact fun q c => le_refl _
  · intro q c
    by_cases hq : q = q₀
    · subst hq
      rw [setPdu_apply_self, circuitVal_commitAssign s₀ load (hlen q) c]
      split
      · linarith
      · exact le_refl _
    · rw [setPdu_apply_other _ _ _ _ hq]

lemma StepRel.step_used_mono {cfg : Config} {load : ℚ} {st st' : PduState}
    {c? : Option PSUConnection} (h : StepRel cfg load st st' c?) :
    ∀ q, (st q).usedSockets ⊆ (st' q).usedSockets := by
  rcases h with ⟨-, rfl⟩ | ⟨q₀, s₀, -, -, -, -, rfl⟩
  · exact fun q => List.Subset.refl _
  · intro q
    by_cases hq : q = q₀
    · subst hq
      rw [setPdu_apply_self, commitAssign_usedSockets]
      exact List.subset_cons_self _ _
    · rw [setPdu_apply_other _ _ _ _ hq]
      exact List.Subset.refl _

lemma Steps.load_le_cap {cfg : Config} {load : ℚ} {st st' : PduState}
    {cs : List (Option PSUConnection)} (h : Steps cfg load st st' cs) :
    (∀ q, (st q).currentLoad ≤ cfg.effectiveCap) →
      ∀ q, (st' q).currentLoad ≤ cfg.effectiveCap := by
  induction h with
  | nil => exact id
  | cons h₁ _ ih => exact fun hst => ih (h₁.step_load_le_cap hst)

lemma Steps.load_mono {cfg : Config} {load : ℚ} {st st' : PduState}
    {cs : List (Option PSUConnection)} (h : Steps cfg load st st' cs) (hl : 0 ≤ load) :
    ∀ q, (st q).currentLoad ≤ (st' q).currentLoad := by
  induction h with
  | nil => exact fun q => le_refl _
  | cons h₁ _ ih => exact fun q => (h₁.step_load_mono hl q).trans (ih q)

lemma Steps.circuit_len {cfg : Config} {load : ℚ} {st st' : PduState}
    {cs : List (Option PSUConnection)} (h : Steps cfg load st st' cs) :
    ∀ q, (st' q).circuitLoads.length = (st q).circuitLoads.length := by
  induction h with
  | nil => exact fun q => rfl
  | cons h₁ _ ih => exact fun q => (ih q).trans (h₁.step_circuit_len q)

lemma Steps.circuit_le {cfg : Config} {load : ℚ} {st st' : PduState}
    {cs : List (Option PSUConnection)} (h : Steps cfg load st st' cs) :
    (∀ q, (st q).circuitLoads.length = cfg.circuitCount) →
    (∀ q c, circuitVal (st q) c / cfg.powerFactor / cfg.voltage ≤
      effectiveCircuitAmps cfg) →
    ∀ q c, circuitVal (st' q) c / cfg.powerFactor / cfg.voltage ≤
      effectiveCircuitAmps cfg := by
  induction h with
  | nil => exact fun _ hst => hst
  | cons h₁ _ ih =>
      intro hlen hst
      refine ih (fun q => ?_) (h₁.step_circuit_le hlen hst)
      rw [h₁.step_circuit_len q]
      exact hlen q

lemma Steps.circuitVal_mono {cfg : Config} {load : ℚ} {st st' : PduState}
    {cs : List (Option PSUConnection)} (h : Steps cfg load st st' cs) (hl : 0 ≤ load) :
    (∀ q, (st q).circuitLoads.length = cfg.circuitCount) →
    ∀ q c, circuitVal (st q) c ≤ circuitVal (st' q) c := by
  induction h with
  | nil => exact fun _ q c => le_refl _
  | cons h₁ _ ih =>
      intro hlen q c
      refine (h₁.step_circuitVal_mono hl hlen q c).trans (ih (fun r => ?_) q c)
      rw [h₁.step_circuit_len r]
      exact hlen r

lemma Steps.used_mono {cfg : Config} {load : ℚ} {st st' : PduState}
    {cs : List (Option PSUConnection)} (h : Steps cfg load st st' cs) :
    ∀ q, (st q).usedSockets ⊆ (st' q).usedSockets := by
  induction h with
  | nil => exact fun q => List.Subset.refl _
  | cons h₁ _ ih => exact fun q => (h₁.step_used_mono q).trans (ih q)

lemma Steps.conn_load_delta {cfg : Config} {load : ℚ} {st st' : PduState}
    {cs : List (Option PSUConnection)} (h : Steps cfg load st st' cs) (hl : 0 ≤ load) :
    ∀ q s, some ⟨q, s⟩ ∈ cs → (st q).currentLoad + load ≤ (st' q).currentLoad := by
  induction h with
  | nil => intro q s h; cases h
  | @cons stA stB stC c? cs h₁ h₂ ih =>
      intro q s hmem
      rcases List.mem_cons.mp hmem with hhd | htl
      · rcases h₁ with ⟨hnone, -⟩ | ⟨q₀, s₀, hc, -, -, -, heq⟩
        · rw [hnone] at hhd; cases hhd
        · rw [hc] at hhd
          obtain ⟨rfl, rfl⟩ : q = q₀ ∧ s = s₀ := by cases hhd; exact ⟨rfl, rfl⟩
          have hload₁ : (stA q).currentLoad + load ≤ (stB q).currentLoad := by
            rw [heq, setPdu_apply_self, commitAssign_currentLoad]
          exact hload₁.trans (h₂.load_mono hl q)
      · rcases h₁ with ⟨-, rfl⟩ | ⟨q₀, s₀, -, -, -, -, heq⟩
        · exact ih q s htl
        · refine le_trans (add_le_add_right ?_ load) (ih q s htl)
          rw [heq]
          by_cases hq : q = q₀
          · subst hq
            rw [setPdu_apply_self, commitAssign_currentLoad]
            linarith
          · rw [setPdu_apply_other _ _ _ _ hq]

lemma Steps.conn_circuit_delta {cfg : Config} {load : ℚ} {st st' : PduState}
    {cs : List (Option PSUConnection)} (h : Steps cfg load st st' cs) (hl : 0 ≤ load) :
    (∀ q, (st q).circuitLoads.length = cfg.circuitCount) →
    ∀ q s, some ⟨q, s⟩ ∈ cs →
      circuitOf cfg s < (cfg.circuitCount : Int) ∧
      circuitVal (st q) (circuitOf cfg s).toNat + load ≤
        circuitVal (st' q) (circuitOf cfg s).toNat := by
  induction h with
  | nil => intro _ q s h; cases h
  | @cons stA stB stC c? cs h₁ h₂ ih =>
      intro hlen q s hmem
      have hlen₁ : ∀ r, (stB r).circuitLoads.length = cfg.circuitCount :=
        fun r => (h₁.step_circuit_len r).trans (hlen r)
      rcases List.mem_cons.mp hmem with hhd | htl
      · rcases h₁ with ⟨hnone, -⟩ | ⟨q₀, s₀, hc, -, -, hcheck, heq⟩
        · rw [hnone] at hhd; cases hhd
        · rw [hc] at hhd
          obtain ⟨rfl, rfl⟩ : q = q₀ ∧ s = s₀ := by cases hhd; exact ⟨rfl, rfl⟩
          obtain ⟨hlt, -⟩ := checkCircuit_iff.mp hcheck
          refine ⟨hlt, ?_⟩
          have hv : circuitVal (stA q) (circuitOf cfg s).toNat + load ≤
              circuitVal (stB q) (circuitOf cfg s).toNat := by
            rw [heq, setPdu_apply_self, circuitVal_commitAssign s load (hlen q),
              if_pos ⟨rfl, hlt⟩]
          exact hv.trans (h₂.circuitVal_mono hl hlen₁ q (circuitOf cfg s).toNat)
      · obtain ⟨hlt, hdelta⟩ := ih hlen₁ q s htl
        refine ⟨hlt, le_trans (add_le_add_right ?_ load) hdelta⟩
        exact h₁.step_circuitVal_mono hl hlen q (circuitOf cfg s).toNat

lemma Steps.conn_in_used {cfg : Config} {load : ℚ} {st st' : PduState}
    {cs : List (Option PSUConnection)} (h : Steps cfg load st st' cs) :
    ∀ q s, some ⟨q, s⟩ ∈ cs → s ∈ (st' q).usedSockets := by
  induction h with
  | nil => intro q s h; cases h
  | cons h₁ h₂ ih =>
      intro q s hmem
      rcases List.mem_cons.mp hmem with hhd | htl
      · rcases h₁ with ⟨hnone, -⟩ | ⟨q₀, s₀, hc, -, -, -, heq⟩
        · rw [hnone] at hhd; cases hhd
        · rw [hc] at hhd
          obtain ⟨rfl, rfl⟩ : q = q₀ ∧ s = s₀ := by cases hhd; exact ⟨rfl, rfl⟩
          refine h₂.used_mono q ?_
          rw [heq, setPdu_apply_self, commitAssign_usedSockets]
          exact List.mem_cons_self ..
      · exact ih q s htl

/-- The socket pairs claimed by a connection-slot list. -/
def pairsOf (cs : List (Option PSUConnection)) : List (PduId × Nat) :=
  cs.filterMap fun oc => oc.map fun c => (c.pduId, c.socketIndex)

lemma Steps.pairs_fresh {cfg : Config} {load : ℚ} {st st' : PduState}
    {cs : List (Option PSUConnection)} (h : Steps cfg load st st' cs) :
    (pairsOf cs).Nodup ∧ ∀ pr ∈ pairsOf cs, pr.2 ∉ (st pr.1).usedSockets := by
  induction h with
  | nil => exact ⟨List.nodup_nil, by intro pr h; cases h⟩
  | @cons stA stB stC c? cs h₁ h₂ ih =>
      obtain ⟨hnodup, hfresh⟩ := ih
      rcases h₁ with ⟨hnone, rfl⟩ | ⟨q₀, s₀, hc, -, hfree, -, heq⟩
      · subst hnone
        exact ⟨hnodup, fun pr hpr => hfresh pr (by simpa [pairsOf] using hpr)⟩
      · subst hc
        have hpairs : pairsOf (some ⟨q₀, s₀⟩ :: cs) = (q₀, s₀) :: pairsOf cs := by
          simp [pairsOf]
        rw [hpairs]
        have hsub : ∀ r, (stA r).usedSockets ⊆ (stB r).usedSockets := by
          intro r
          rw [heq]
          by_cases hr : r = q₀
          · subst hr
            rw [setPdu_apply_self, commitAssign_usedSockets]
            exact List.subset_cons_self _ _
          · rw [setPdu_apply_other _ _ _ _ hr]
            exact List.Subset.refl _
        have hused₁ : s₀ ∈ (stB q₀).usedSockets := by
          rw [heq, setPdu_apply_self, commitAssign_usedSockets]
          exact List.mem_cons_self ..
        refine ⟨List.nodup_cons.mpr ⟨?_, hnodup⟩, ?_⟩
        · intro hmem
          exact hfresh _ hmem hused₁
        · intro pr hpr
          rcases List.mem_cons.mp hpr with hpr | hpr'
          · rw [hpr]
            exact hfree
          · exact fun hcon => hfresh pr hpr' (hsub pr.1 hcon)

lemma findMatchedPair_spec (cfg : Config) (d : Device) (centerY load : ℚ) :
    ∀ (ks : List Nat) (st : PduState) {k : Nat} {s : Nat},
      findMatchedPair cfg d centerY load ks st = some (k, s) →
      (st (Side.A, k)).currentLoad + load ≤ cfg.effectiveCap ∧
      (st (Side.B, k)).currentLoad + load ≤ cfg.effectiveCap ∧
      freeLegal cfg (st (Side.A, k)) load s ∧ freeLegal cfg (st (Side.B, k)) load s
  | [], st, k, s, h => by cases h
  | k' :: ks, st, k, s, h => by
      unfold findMatchedPair at h
      by_cases hcap : (st (Side.A, k')).currentLoad + load ≤ cfg.effectiveCap ∧
          (st (Side.B, k')).currentLoad + load ≤ cfg.effectiveCap
      · rw [if_pos hcap] at h
        cases hbest : bestSharedSocket cfg (st (Side.A, k')) (st (Side.B, k')) k' d
            centerY load with
        | some s' =>
            rw [hbest] at h
            obtain ⟨rfl, rfl⟩ : k = k' ∧ s = s' := by cases h; exact ⟨rfl, rfl⟩
            obtain ⟨hA, hB⟩ := bestSharedSocket_freeLegal hbest
            exact ⟨hcap.1, hcap.2, hA, hB⟩
        | none =>
            rw [hbest] at h
            exact findMatchedPair_spec cfg d centerY load ks st h
      · rw [if_neg hcap] at h
        exact findMatchedPair_spec cfg d centerY load ks st h

lemma psuFold1_steps (cfg : Config) (d : Device) (centerY load : ℚ) :
    ∀ (idxs : List Nat) (conns₀ : List (Option PSUConnection)) (st : PduState),
      ∃ Δ st',
        idxs.foldl (fun (acc : List (Option PSUConnection) × PduState) i =>
          let side := if i = 0 then Side.A else Side.B
          let (c, st') := assignPsu cfg side d centerY load (List.range cfg.numPairs) acc.2
          (acc.1 ++ [c], st')) (conns₀, st) = (conns₀ ++ Δ, st') ∧
        Steps cfg load st st' Δ
  | [], conns₀, st => ⟨[], st, by simp, Steps.nil⟩
  | i :: idxs, conns₀, st => by
      set side := if i = 0 then Side.A else Side.B with hside
      obtain ⟨Δ, st', hfold, hsteps⟩ := psuFold1_steps cfg d centerY load idxs
        (conns₀ ++ [(assignPsu cfg side d centerY load (List.range cfg.numPairs) st).1])
        (assignPsu cfg side d centerY load (List.range cfg.numPairs) st).2
      refine ⟨(assignPsu cfg side d centerY load (List.range cfg.numPairs) st).1 :: Δ, st', ?_,
        Steps.cons (assignPsu_stepRel cfg side d centerY load (List.range cfg.numPairs) st)
          hsteps⟩
      rw [List.foldl_cons]
      have hconc : (conns₀ ++
          [(assignPsu cfg side d centerY load (List.range cfg.numPairs) st).1]) ++ Δ =
          conns₀ ++ ((assignPsu cfg side d centerY load (List.range cfg.numPairs) st).1 :: Δ) := by
        simp
      rw [hconc] at hfold
      exact hfold

lemma psuFold2_steps (cfg : Config) (d : Device) (centerY load : ℚ) :
    ∀ (idxs : List Nat) (conns₀ : List (Option PSUConnection)) (st : PduState) (rr : Nat),
      ∃ Δ st' rr',
        idxs.foldl (fun (acc : List (Option PSUConnection) × PduState × Nat) i =>
          let (conns, st', rr') := acc
          let (side, rr'') :=
            if d.psuCount = 1 then
              ((if rr' % 2 = 0 then Side.A else Side.B), rr' + 1)
            else
              ((if i % 2 = 0 then Side.A else Side.B), rr')
          let (c, st'') := assignPsu cfg side d centerY load (List.range cfg.numPairs) st'
          (conns ++ [c], st'', rr'')) (conns₀, st, rr) = (conns₀ ++ Δ, st', rr') ∧
        Steps cfg load st st' Δ
  | [], conns₀, st, rr => ⟨[], st, rr, by simp, Steps.nil⟩
  | i :: idxs, conns₀, st, rr => by
      set side := (if d.psuCount = 1 then
          ((if rr % 2 = 0 then Side.A else Side.B), rr + 1)
        else
          ((if i % 2 = 0 then Side.A else Side.B), rr)).1 with hside
      set rr₁ := (if d.psuCount = 1 then
          ((if rr % 2 = 0 then Side.A else Side.B), rr + 1)
        else
          ((if i % 2 = 0 then Side.A else Side.B), rr)).2 with hrr
      obtain ⟨Δ, st', rr', hfold, hsteps⟩ := psuFold2_steps cfg d centerY load idxs
        (conns₀ ++ [(assignPsu cfg side d centerY load (List.range cfg.numPairs) st).1])
        (assignPsu cfg side d centerY load (List.range cfg.numPairs) st).2 rr₁
      refine ⟨(assignPsu cfg side d centerY load (List.range cfg.numPairs) st).1 :: Δ, st', rr', ?_,
        Steps.cons (assignPsu_stepRel cfg side d centerY load (List.range cfg.numPairs) st)
          hsteps⟩
      rw [List.foldl_cons]
      have hconc : (conns₀ ++
          [(assignPsu cfg side d centerY load (List.range cfg.numPairs) st).1]) ++ Δ =
          conns₀ ++ ((assignPsu cfg side d centerY load (List.range cfg.numPairs) st).1 :: Δ) := by
        simp
      rw [hconc] at hfold
      exact hfold

/-- Phase-1 processing of a device is a chain of guarded assignment effects. -/
lemma processDual_steps (cfg : Config) (st : PduState) (d : Device) :
    Steps cfg d.powerRatingPerDevice st (processDual cfg st d).2
      ((processDual cfg st d).1).psuConnections := by
  unfold processDual
  by_cases hd : uPosTruthy d
  · rw [if_neg (by simpa using hd)]
    dsimp only
    cases hmatch : findMatchedPair cfg d (deviceCenterY cfg d) d.powerRatingPerDevice
        (List.range cfg.numPairs) st with
    | some ks =>
        obtain ⟨k, s⟩ := ks
        simp only [hmatch]
        obtain ⟨hcapA, hcapB, ⟨hfreeA, hcircA⟩, hfreeB, hcircB⟩ :=
          findMatchedPair_spec cfg d (deviceCenterY cfg d) d.powerRatingPerDevice
            (List.range cfg.numPairs) st hmatch
        have hBA : ((Side.B, k) : PduId) ≠ (Side.A, k) := by simp
        refine Steps.cons
          (Or.inr ⟨(Side.A, k), s, rfl, hcapA, hfreeA, hcircA, rfl⟩)
          (Steps.cons (Or.inr ⟨(Side.B, k), s, rfl, ?_, ?_, ?_, ?_⟩) Steps.nil)
        · rw [setPdu_apply_other _ _ _ _ hBA]
          exact hcapB
        · rw [setPdu_apply_other _ _ _ _ hBA]
          exact hfreeB
        · rw [setPdu_apply_other _ _ _ _ hBA]
          exact hcircB
        · rw [setPdu_apply_other _ _ _ _ hBA]
    | none =>
        simp only [hmatch]
        obtain ⟨Δ, st', hfold, hsteps⟩ := psuFold1_steps cfg d (deviceCenterY cfg d)
          d.powerRatingPerDevice (List.range d.psuCount) [] st
        rw [hfold]
        simpa using hsteps
  · rw [if_pos (by simpa using hd)]
    exact Steps.nil

/-- Phase-2 processing of a device is a chain of guarded assignment effects. -/
lemma processOther_steps (cfg : Config) (st : PduState) (rr : Nat) (d : Device) :
    Steps cfg d.powerRatingPerDevice st (processOther cfg st rr d).2.1
      ((processOther cfg st rr d).1).psuConnections := by
  unfold processOther
  by_cases hd : uPosTruthy d
  · rw [if_neg (by simpa using hd)]
    dsimp only
    obtain ⟨Δ, st', rr', hfold, hsteps⟩ := psuFold2_steps cfg d (deviceCenterY cfg d)
      d.powerRatingPerDevice (List.range d.psuCount) [] st rr
    rw [hfold]
    simpa using hsteps
  · rw [if_pos (by simpa using hd)]
    exact Steps.nil

/-! ## Infrastructure: folding the per-device invariants through both phases -/

lemma phase1_fold_inv (cfg : Config) (Φ : List Device → PduState → Prop) :
    ∀ (l : List Device),
      (∀ P st (d : Device), d ∈ l → Φ P st →
        Φ (P ++ [(processDual cfg st d).1]) (processDual cfg st d).2) →
      ∀ (acc : List Device) (st : PduState), Φ acc st →
        Φ ((l.foldl (fun (acc : List Device × PduState) d =>
            let (d', st') := processDual cfg acc.2 d
            (acc.1 ++ [d'], st')) (acc, st)).1)
          ((l.foldl (fun (acc : List Device × PduState) d =>
            let (d', st') := processDual cfg acc.2 d
            (acc.1 ++ [d'], st')) (acc, st)).2)
  | [], _, acc, st, hΦ => hΦ
  | d :: l, hext, acc, st, hΦ => by
      rw [List.foldl_cons]
      exact phase1_fold_inv cfg Φ l
        (fun P st' d' hd' => hext P st' d' (List.mem_cons_of_mem _ hd'))
        _ _ (hext acc st d (List.mem_cons_self ..) hΦ)

lemma phase2_fold_inv (cfg : Config) (Φ : List Device → PduState → Prop) :
    ∀ (l : List Device),
      (∀ P st rr (d : Device), d ∈ l → Φ P st →
        Φ (P ++ [(processOther cfg st rr d).1]) (processOther cfg st rr d).2.1) →
      ∀ (acc : List Device) (st : PduState) (rr : Nat), Φ acc st →
        Φ ((l.foldl (fun (acc : List Device × PduState × Nat) d =>
            let (d', st', rr') := processOther cfg acc.2.1 acc.2.2 d
            (acc.1 ++ [d'], st', rr')) (acc, st, rr)).1)
          ((l.foldl (fun (acc : List Device × PduState × Nat) d =>
            let (d', st', rr') := processOther cfg acc.2.1 acc.2.2 d
            (acc.1 ++ [d'], st', rr')) (acc, st, rr)).2.1)
  | [], _, acc, st, rr, hΦ => hΦ
  | d :: l, hext, acc, st, rr, hΦ => by
      rw [List.foldl_cons]
      exact phase2_fold_inv cfg Φ l
        (fun P st' rr' d' hd' => hext P st' rr' d' (List.mem_cons_of_mem _ hd'))
        _ _ _ (hext acc st rr d (List.mem_cons_self ..) hΦ)

lemma phase2_fold_shift (cfg : Config) :
    ∀ (l : List Device) (acc : List Device) (st : PduState) (rr : Nat),
      (l.foldl (fun (acc : List Device × PduState × Nat) d =>
          let (d', st', rr') := processOther cfg acc.2.1 acc.2.2 d
          (acc.1 ++ [d'], st', rr')) (acc, st, rr)).1 =
        acc ++ (l.foldl (fun (acc : List Device × PduState × Nat) d =>
          let (d', st', rr') := processOther cfg acc.2.1 acc.2.2 d
          (acc.1 ++ [d'], st', rr')) ([], st, rr)).1
  | [], acc, st, rr => by simp
  | d :: l, acc, st, rr => by
      rw [List.foldl_cons]
      have h₁ := phase2_fold_shift cfg l (acc ++ [(processOther cfg st rr d).1])
        (processOther cfg st rr d).2.1 (processOther cfg st rr d).2.2
      have h₂ := phase2_fold_shift cfg l ([] ++ [(processOther cfg st rr d).1])
        (processOther cfg st rr d).2.1 (processOther cfg st rr d).2.2
      rw [List.nil_append] at h₂
      have h₃ : ((d :: l).foldl (fun (acc : List Device × PduState × Nat) d =>
          let (d', st', rr') := processOther cfg acc.2.1 acc.2.2 d
          (acc.1 ++ [d'], st', rr')) ([], st, rr)).1 =
          [(processOther cfg st rr d).1] ++ (l.foldl (fun (acc : List Device × PduState × Nat) d =>
          let (d', st', rr') := processOther cfg acc.2.1 acc.2.2 d
          (acc.1 ++ [d'], st', rr')) ([], (processOther cfg st rr d).2.1,
            (processOther cfg st rr d).2.2)).1 := by
        rw [List.foldl_cons]
        exact h₂
      rw [h₃, h₁, List.append_assoc]

/-- Both phases maintain any property extendable one processed device at a
time. -/
lemma runAutoConnectRaw_inv (cfg : Config) (ds : List Device) (st0 : PduState)
    (Φ : List Device → PduState → Prop)
    (hext1 : ∀ P st (d : Device), d ∈ ds → Φ P st →
      Φ (P ++ [(processDual cfg st d).1]) (processDual cfg st d).2)
    (hext2 : ∀ P st rr (d : Device), d ∈ ds → Φ P st →
      Φ (P ++ [(processOther cfg st rr d).1]) (processOther cfg st rr d).2.1)
    (h0 : Φ [] st0) :
    ∃ st', Φ (runAutoConnectRaw cfg ds st0) st' := by
  unfold runAutoConnectRaw
  dsimp only
  have hmem : ∀ {p : Device → Bool} (d : Device),
      d ∈ (ds.insertionSort uPosDescLE).filter p → d ∈ ds := fun d hd =>
    (List.mem_insertionSort uPosDescLE).mp (List.mem_of_mem_filter hd)
  have h1 := phase1_fold_inv cfg Φ
    ((ds.insertionSort uPosDescLE).filter fun d => d.psuCount = 2)
    (fun P st d hd => hext1 P st d (hmem d hd)) [] st0 h0
  have h2 := phase2_fold_inv cfg Φ
    ((ds.insertionSort uPosDescLE).filter fun d => ¬ d.psuCount = 2)
    (fun P st rr d hd => hext2 P st rr d (hmem d hd)) _ _ 0 h1
  rw [phase2_fold_shift cfg _ _ _ 0] at h2
  exact ⟨_, h2⟩

/-! ## Infrastructure: the load, circuit and uniqueness invariants -/

lemma connectedTo_iff {d : Device} {q : PduId} :
    connectedTo d q = true ↔ ∃ s, some (⟨q, s⟩ : PSUConnection) ∈ d.psuConnections := by
  unfold connectedTo
  rw [List.any_eq_true]
  constructor
  · rintro ⟨oc, hoc, hpred⟩
    cases oc with
    | none => simp at hpred
    | some c =>
        have : c.pduId = q := by simpa using hpred
        exact ⟨c.socketIndex, by rwa [show (⟨q, c.socketIndex⟩ : PSUConnection) = c by
          cases c; simp_all]⟩
  · rintro ⟨s, hs⟩
    exact ⟨some ⟨q, s⟩, hs, by simp⟩

lemma connectedToCircuit_iff {cfg : Config} {d : Device} {q : PduId} {c : Int} :
    connectedToCircuit cfg d q c = true ↔
      ∃ s, some (⟨q, s⟩ : PSUConnection) ∈ d.psuConnections ∧ circuitOf cfg s = c := by
  unfold connectedToCircuit
  rw [List.any_eq_true]
  constructor
  · rintro ⟨oc, hoc, hpred⟩
    cases oc with
    | none => simp at hpred
    | some cn =>
        have h : cn.pduId = q ∧ circuitOf cfg cn.socketIndex = c := by simpa using hpred
        refine ⟨cn.socketIndex, ?_, h.2⟩
        rwa [show (⟨q, cn.socketIndex⟩ : PSUConnection) = cn by
          cases cn; simp_all [h.1]]
  · rintro ⟨s, hs, hc⟩
    exact ⟨some ⟨q, s⟩, hs, by simp [hc]⟩

lemma devSumPdu_append (P : List Device) (d' : Device) (q : PduId) :
    devSumPdu (P ++ [d']) q =
      devSumPdu P q + (if connectedTo d' q then d'.powerRatingPerDevice else 0) := by
  unfold devSumPdu
  rw [List.filter_append, List.map_append, List.sum_append]
  congr 1
  by_cases h : connectedTo d' q
  · simp [h]
  · simp [h]

lemma circuitDevSum_append (cfg : Config) (P : List Device) (d' : Device) (q : PduId)
    (c : Int) :
    circuitDevSum cfg (P ++ [d']) q c =
      circuitDevSum cfg P q c +
        (if connectedToCircuit cfg d' q c then d'.powerRatingPerDevice else 0) := by
  unfold circuitDevSum
  rw [List.filter_append, List.map_append, List.sum_append]
  congr 1
  by_cases h : connectedToCircuit cfg d' q c
  · simp [h]
  · simp [h]

lemma socketPairs_append (P : List Device) (d' : Device) :
    socketPairs (P ++ [d']) = socketPairs P ++ pairsOf d'.psuConnections := by
  unfold socketPairs pairsOf
  simp

lemma pairsOf_mem {cs : List (Option PSUConnection)} {q : PduId} {s : Nat} :
    (q, s) ∈ pairsOf cs ↔ some (⟨q, s⟩ : PSUConnection) ∈ cs := by
  unfold pairsOf
  rw [List.mem_filterMap]
  constructor
  · rintro ⟨oc, hoc, hmap⟩
    cases oc with
    | none => simp at hmap
    | some c =>
        have h : c.pduId = q ∧ c.socketIndex = s := by
          simpa [Prod.ext_iff] using hmap
        rwa [show (⟨q, s⟩ : PSUConnection) = c by cases c; simp_all]
  · intro h
    exact ⟨some ⟨q, s⟩, h, by simp⟩

lemma processDual_keeps (cfg : Config) (st : PduState) (d : Device) :
    ((processDual cfg st d).1).powerRatingPerDevice = d.powerRatingPerDevice ∧
      ((processDual cfg st d).1).uPosition = d.uPosition := by
  unfold processDual
  by_cases hd : uPosTruthy d
  · rw [if_neg (by simpa using hd)]
    dsimp only
    cases hmatch : findMatchedPair cfg d (deviceCenterY cfg d) d.powerRatingPerDevice
        (List.range cfg.numPairs) st with
    | some ks => exact ⟨rfl, rfl⟩
    | none => exact ⟨rfl, rfl⟩
  · rw [if_pos (by simpa using hd)]
    exact ⟨rfl, rfl⟩

lemma processOther_keeps (cfg : Config) (st : PduState) (rr : Nat) (d : Device) :
    ((processOther cfg st rr d).1).powerRatingPerDevice = d.powerRatingPerDevice ∧
      ((processOther cfg st rr d).1).uPosition = d.uPosition := by
  unfold processOther
  by_cases hd : uPosTruthy d
  · rw [if_neg (by simpa using hd)]
    exact ⟨rfl, rfl⟩
  · rw [if_pos (by simpa using hd)]
    exact ⟨rfl, rfl⟩

/-- The load invariant of C1: capacity bound on the state and per-PDU device sums
dominated by the booked loads. -/
def PhiLoad (cfg : Config) (P : List Device) (st : PduState) : Prop :=
  (∀ q, (st q).currentLoad ≤ cfg.effectiveCap) ∧
  (∀ q, devSumPdu P q ≤ (st q).currentLoad)

lemma PhiLoad_extend {cfg : Config} {P : List Device} {st st' : PduState}
    {d d' : Device} (hl : 0 ≤ d.powerRatingPerDevice)
    (hsteps : Steps cfg d.powerRatingPerDevice st st' d'.psuConnections)
    (hpower : d'.powerRatingPerDevice = d.powerRatingPerDevice)
    (h : PhiLoad cfg P st) : PhiLoad cfg (P ++ [d']) st' := by
  refine ⟨hsteps.load_le_cap h.1, ?_⟩
  intro q
  rw [devSumPdu_append]
  by_cases hconn : connectedTo d' q
  · rw [if_pos hconn, hpower]
    obtain ⟨s, hs⟩ := connectedTo_iff.mp hconn
    have hdelta := hsteps.conn_load_delta hl q s hs
    have hP := h.2 q
    linarith
  · rw [if_neg hconn, add_zero]
    exact (h.2 q).trans (hsteps.load_mono hl q)

/-- With nonnegative device powers, both phases keep every PDU's device sum at or
below the effective capacity. -/
lemma runAutoConnectRaw_load_inv (cfg : Config) (ds : List Device) (st0 : PduState)
    (hload : ∀ d ∈ ds, 0 ≤ d.powerRatingPerDevice)
    (hst0 : ∀ q, (st0 q).currentLoad ≤ cfg.effectiveCap)
    (hst0nn : ∀ q, 0 ≤ (st0 q).currentLoad) :
    ∀ q, devSumPdu (runAutoConnectRaw cfg ds st0) q ≤ cfg.effectiveCap := by
  obtain ⟨st', h1, h2⟩ := runAutoConnectRaw_inv cfg ds st0 (PhiLoad cfg)
    (fun P st d hd hΦ =>
      PhiLoad_extend (hload d hd) (processDual_steps cfg st d)
        (processDual_keeps cfg st d).1 hΦ)
    (fun P st rr d hd hΦ =>
      PhiLoad_extend (hload d hd) (processOther_steps cfg st rr d)
        (processOther_keeps cfg st rr d).1 hΦ)
    ⟨hst0, fun q => by simpa [devSumPdu] using hst0nn q⟩
  exact fun q => (h2 q).trans (h1 q)

lemma exists_conn_congr {l l' : List (Option PSUConnection)}
    (h : List.Forall₂
      (fun oc oc' => Option.map PSUConnection.pduId oc' = Option.map PSUConnection.pduId oc)
      l l') (q : PduId) :
    (∃ s, some (⟨q, s⟩ : PSUConnection) ∈ l') ↔
      ∃ s, some (⟨q, s⟩ : PSUConnection) ∈ l := by
  induction h with
  | nil => simp
  | @cons oc oc' cs cs' hoc _ ih =>
      simp only [List.mem_cons]
      constructor
      · rintro ⟨s, hmem | hmem⟩
        · rw [← hmem] at hoc
          cases oc with
          | none => simp at hoc
          | some c =>
              have hc : c.pduId = q := by simpa using hoc.symm
              exact ⟨c.socketIndex, Or.inl (by rw [show (⟨q, c.socketIndex⟩ :
                PSUConnection) = c by cases c; simp_all])⟩
        · obtain ⟨t, ht⟩ := ih.mp ⟨s, hmem⟩
          exact ⟨t, Or.inr ht⟩
      · rintro ⟨s, hmem | hmem⟩
        · rw [← hmem] at hoc
          cases oc' with
          | none => simp at hoc
          | some c' =>
              have hc : c'.pduId = q := by simpa using hoc
              exact ⟨c'.socketIndex, Or.inl (by rw [show (⟨q, c'.socketIndex⟩ :
                PSUConnection) = c' by cases c'; simp_all])⟩
        · obtain ⟨t, ht⟩ := ih.mpr ⟨s, hmem⟩
          exact ⟨t, Or.inr ht⟩

/-- Per-PDU device sums only depend on the data `SameButSockets` preserves. -/
lemma devSumPdu_congr {l l' : List Device}
    (h : List.Forall₂ SameButSockets l l') (q : PduId) :
    devSumPdu l' q = devSumPdu l q := by
  induction h with
  | nil => rfl
  | @cons d d' ds ds' hd hds ih =>
      obtain ⟨-, -, -, hpow, hconns⟩ := hd
      have hconn : connectedTo d' q = connectedTo d q := by
        rw [Bool.eq_iff_iff, connectedTo_iff, connectedTo_iff]
        exact exists_conn_congr hconns q
      show devSumPdu (d' :: ds') q = devSumPdu (d :: ds) q
      unfold devSumPdu
      rw [List.filter_cons, List.filter_cons, hconn]
      by_cases hc : connectedTo d q
      · simp only [hc, if_pos]
        rw [List.map_cons, List.map_cons, List.sum_cons, List.sum_cons, hpow]
        unfold devSumPdu at ih
        rw [ih]
      · simp only [hc, if_neg]
        exact ih

/-- The spec's Scenario A configuration (capacity 7360, power factor 0.95,
safety margin 80, one pair, 20 + 4 sockets, one 32 A circuit at 230 V). -/
def cfgA : Config :=
  { rackSize := 48, baseSocketsPerPDU := 20, secondarySocketsPerPDU := 4,
    socketType := "C13", secondarySocketType := "C19", pduCols := 1, numPairs := 1,
    basePduCapacity := 7360, powerFactor := 95 / 100, safetyMargin := 80,
    voltage := 230, circuitCount := 1, circuitAmps := 32 }

/-- A wired dual-PSU device at the top of the rack (witness input). -/
def wiredDeviceA : Device :=
  { id := "wired-A", name := "wired-A", room := "R1", psuCount := 2, typicalPower := 500,
    powerRatingPerDevice := 1000, connectionType := "C13", uHeight := 1,
    uPosition := some 48,
    psuConnections := [some ⟨(Side.A, 0), 3⟩, some ⟨(Side.B, 0), 3⟩] }

/-- A wired single-PSU device further down the rack (witness input). -/
def wiredDeviceB : Device :=
  { id := "wired-B", name := "wired-B", room := "R1", psuCount := 1, typicalPower := 200,
    powerRatingPerDevice := 400, connectionType := "C13", uHeight := 1,
    uPosition := some 40,
    psuConnections := [some ⟨(Side.A, 0), 1⟩] }

/-- An unplaced device still holding stale connections (witness input). -/
def unplacedDevice : Device :=
  { id := "unplaced", name := "unplaced", room := "R1", psuCount := 1, typicalPower := 100,
    powerRatingPerDevice := 200, connectionType := "C13", uHeight := 1,
    uPosition := none,
    psuConnections := [some ⟨(Side.A, 0), 5⟩] }

/-! ## C4: the compaction pass is a frame-preserving re-assignment -/

/-- C4: for every device list (with the data model's unique identifiers) and
every base socket count, the compaction pass preserves, for every PDU id, the
multiset of occupied socket indices — hence their set and their number — and
leaves every device's identity, position, height, power and the PDU of every
(device, psuIndex) connection unchanged; only which socket of the preserved
index set a connection sits on may change. -/
theorem C4_compaction_frame (ds : List Device) (b : Nat)
    (hids : (ds.map (·.id)).Nodup) :
    (∀ p : PduId, (connsOf (optimizeWiring ds b) p).map (·.socketIndex) ~
        (connsOf ds p).map (·.socketIndex)) ∧
    List.Forall₂ SameButSockets ds (optimizeWiring ds b) := by
  refine ⟨fun p => optimizeWiring_sockets_perm b p hids, ?_⟩
  unfold optimizeWiring
  rw [List.forall₂_map_right_iff]
  exact (List.forall₂_same).mpr fun d _ => optDevice_sameButSockets ds b d

/-- Witness for C4 on a two-device list whose compaction genuinely re-assigns
sockets (the pass moves the top device from socket 3 to socket 1). -/
theorem C4_compaction_frame_witness :
    ((([wiredDeviceA, wiredDeviceB]).map (·.id)).Nodup ∧
      (connsOf (optimizeWiring [wiredDeviceA, wiredDeviceB] 20) (Side.A, 0)).map (·.socketIndex) ~
        (connsOf [wiredDeviceA, wiredDeviceB] (Side.A, 0)).map (·.socketIndex)) ∧
    List.Forall₂ SameButSockets [wiredDeviceA, wiredDeviceB]
      (optimizeWiring [wiredDeviceA, wiredDeviceB] 20) :=
  ⟨⟨by decide, (C4_compaction_frame [wiredDeviceA, wiredDeviceB] 20 (by decide)).1 (Side.A, 0)⟩,
    (C4_compaction_frame [wiredDeviceA, wiredDeviceB] 20 (by decide)).2⟩

/-! ## C10: unplaced devices leave the engine with an empty connection map -/

lemma processDual_unplaced (cfg : Config) (st : PduState) (d : Device)
    (hd : ¬ uPosTruthy d) :
    processDual cfg st d = ({ d with psuConnections := [] }, st) := by
  unfold processDual
  simp [hd]

lemma processOther_unplaced (cfg : Config) (st : PduState) (rr : Nat) (d : Device)
    (hd : ¬ uPosTruthy d) :
    processOther cfg st rr d = ({ d with psuConnections := [] }, st, rr) := by
  unfold processOther
  simp [hd]

lemma phase1_acc_mono {cfg : Config} {x : Device} :
    ∀ (l : List Device) (acc : List Device) (st : PduState), x ∈ acc →
      x ∈ (l.foldl (fun (acc : List Device × PduState) d =>
        let (d', st') := processDual cfg acc.2 d
        (acc.1 ++ [d'], st')) (acc, st)).1
  | [], acc, st, hx => hx
  | d :: l, acc, st, hx =>
      phase1_acc_mono l _ _ (List.mem_append_left _ hx)

lemma phase1_mem_unplaced {cfg : Config} {x : Device} (hx : ¬ uPosTruthy x) :
    ∀ (l : List Device) (acc : List Device) (st : PduState), x ∈ l →
      { x with psuConnections := [] } ∈ (l.foldl (fun (acc : List Device × PduState) d =>
        let (d', st') := processDual cfg acc.2 d
        (acc.1 ++ [d'], st')) (acc, st)).1
  | d :: l, acc, st, hmem => by
      rcases List.mem_cons.mp hmem with h | h
      · subst h
        rw [List.foldl_cons]
        rw [processDual_unplaced cfg (acc, st).2 x hx]
        apply phase1_acc_mono
        exact List.mem_append_right _ (List.mem_singleton.mpr rfl)
      · exact phase1_mem_unplaced hx l _ _ h

lemma phase2_acc_mono {cfg : Config} {x : Device} :
    ∀ (l : List Device) (acc : List Device) (st : PduState) (rr : Nat), x ∈ acc →
      x ∈ (l.foldl (fun (acc : List Device × PduState × Nat) d =>
        let (d', st', rr') := processOther cfg acc.2.1 acc.2.2 d
        (acc.1 ++ [d'], st', rr')) (acc, st, rr)).1
  | [], acc, st, rr, hx => hx
  | d :: l, acc, st, rr, hx =>
      phase2_acc_mono l _ _ _ (List.mem_append_left _ hx)

lemma phase2_mem_unplaced {cfg : Config} {x : Device} (hx : ¬ uPosTruthy x) :
    ∀ (l : List Device) (acc : List Device) (st : PduState) (rr : Nat), x ∈ l →
      { x with psuConnections := [] } ∈ (l.foldl (fun (acc : List Device × PduState × Nat) d =>
        let (d', st', rr') := processOther cfg acc.2.1 acc.2.2 d
        (acc.1 ++ [d'], st', rr')) (acc, st, rr)).1
  | d :: l, acc, st, rr, hmem => by
      rcases List.mem_cons.mp hmem with h | h
      · subst h
        rw [List.foldl_cons]
        rw [processOther_unplaced cfg (acc, st, rr).2.1 (acc, st, rr).2.2 x hx]
        apply phase2_acc_mono
        exact List.mem_append_right _ (List.mem_singleton.mpr rfl)
      · exact phase2_mem_unplaced hx l _ _ _ h

/-- An unplaced input device reappears in the raw (pre-compaction) output with an
empty connection map. -/
lemma runAutoConnectRaw_mem_unplaced {cfg : Config} {ds : List Device} {st0 : PduState}
    {d : Device} (hd : d ∈ ds) (hx : ¬ uPosTruthy d) :
    { d with psuConnections := [] } ∈ runAutoConnectRaw cfg ds st0 := by
  unfold runAutoConnectRaw
  have hsorted : d ∈ ds.insertionSort uPosDescLE := List.mem_insertionSort _ |>.mpr hd
  by_cases hpsu : d.psuCount = 2
  · apply List.mem_append_left
    exact phase1_mem_unplaced hx _ _ _ (List.mem_filter.mpr ⟨hsorted, by simp [hpsu]⟩)
  · apply List.mem_append_right
    exact phase2_mem_unplaced hx _ _ _ _ (List.mem_filter.mpr ⟨hsorted, by simp [hpsu]⟩)

/-- C10: for every configuration, state, and device list with the data model's
unique identifiers, every input device whose `uPosition` is `null` comes out of
`runAutoConnect` (either phase, and through the compaction pass) with a
completely empty `psuConnections` map — every connection it held before the call
is removed. -/
theorem C10_unplaced_devices_cleared (cfg : Config) (ds : List Device) (st0 : PduState)
    (d : Device) (hids : (ds.map (·.id)).Nodup) (hd : d ∈ ds)
    (hpos : d.uPosition = none) :
    ∃ d' ∈ runAutoConnect cfg ds st0,
      d'.id = d.id ∧ d'.uPosition = none ∧ d'.psuConnections = [] := by
  have hx : ¬ uPosTruthy d := by
    unfold uPosTruthy
    rw [hpos]
    simp
  have hraw := @runAutoConnectRaw_mem_unplaced cfg ds st0 d hd hx
  refine ⟨{ d with psuConnections := [] }, ?_, rfl, hpos, rfl⟩
  unfold runAutoConnect optimizeWiring
  have hx' : ¬ uPosTruthy { d with psuConnections := ([] : List (Option PSUConnection)) } := by
    unfold uPosTruthy at hx ⊢
    exact hx
  have := List.mem_map_of_mem (optDevice (runAutoConnectRaw cfg ds st0) cfg.baseSocketsPerPDU) hraw
  rwa [optDevice_unplaced _ _ _ hx'] at this

/-- Witness for C10: an unplaced device with a stale connection is returned
stripped. -/
theorem C10_unplaced_devices_cleared_witness :
    ((([unplacedDevice, sampleDevice]).map (·.id)).Nodup ∧
      unplacedDevice ∈ [unplacedDevice, sampleDevice] ∧
      unplacedDevice.uPosition = none) ∧
    (∃ d' ∈ runAutoConnect cfgA [unplacedDevice, sampleDevice] (initPduState cfgA),
      d'.id = unplacedDevice.id ∧ d'.uPosition = none ∧ d'.psuConnections = []) :=
  ⟨⟨by decide, by decide, by decide⟩,
    C10_unplaced_devices_cleared cfgA [unplacedDevice, sampleDevice] (initPduState cfgA)
      unplacedDevice (by decide) (by decide) (by decide)⟩

/-! ## C6: sizing lower bounds (`calculatedPduPairs`) -/

/-- C6: for every device list, positive effective capacity and at least one
socket per PDU, `calculatedPduPairs ≥ 1`,
`calculatedPduPairs × effectiveCapacity ≥ total max power`, and
`calculatedPduPairs × totalSocketsPerPDU × 2 ≥ total PSU count`. -/
theorem C6_sizing_lower_bounds (devices : List Device)
    (basePduCapacity powerFactor safetyMargin : ℚ)
    (baseSocketsPerPDU secondarySocketsPerPDU : Nat)
    (hcap : 0 < basePduCapacity * powerFactor * (safetyMargin / 100))
    (hsock : 1 ≤ baseSocketsPerPDU + secondarySocketsPerPDU) :
    1 ≤ calculatedPduPairs devices basePduCapacity powerFactor safetyMargin
        baseSocketsPerPDU secondarySocketsPerPDU ∧
    (devices.map (·.powerRatingPerDevice)).sum ≤
      (calculatedPduPairs devices basePduCapacity powerFactor safetyMargin
        baseSocketsPerPDU secondarySocketsPerPDU : ℚ) *
        (basePduCapacity * powerFactor * (safetyMargin / 100)) ∧
    (((devices.map (·.psuCount)).sum : Nat) : ℚ) ≤
      (calculatedPduPairs devices basePduCapacity powerFactor safetyMargin
        baseSocketsPerPDU secondarySocketsPerPDU : ℚ) *
        ((baseSocketsPerPDU + secondarySocketsPerPDU : Nat) : ℚ) * 2 := by
  unfold calculatedPduPairs
  set T : ℚ := (devices.map (·.powerRatingPerDevice)).sum with hT
  set N : Nat := (devices.map (·.psuCount)).sum with hN
  set eff : ℚ := basePduCapacity * powerFactor * (safetyMargin / 100) with heff
  set S : Nat := baseSocketsPerPDU + secondarySocketsPerPDU with hS
  have hSpos : (0 : ℚ) < (S : ℚ) := by exact_mod_cast Nat.lt_of_lt_of_le Nat.zero_lt_one hsock
  set P : Int := max 1 (max ⌈T / eff⌉ ⌈((N : ℚ) / 2) / (S : ℚ)⌉) with hP
  refine ⟨le_max_left _ _, ?_, ?_⟩
  · have h2 : (⌈T / eff⌉ : ℚ) ≤ (P : ℚ) := by
      exact_mod_cast le_trans (le_max_left _ _) (le_max_right _ _)
    have h3 : T / eff ≤ (P : ℚ) := (Int.le_ceil (T / eff)).trans h2
    exact (div_le_iff₀ hcap).mp h3
  · have h2 : (⌈((N : ℚ) / 2) / (S : ℚ)⌉ : ℚ) ≤ (P : ℚ) := by
      exact_mod_cast le_trans (le_max_right _ _) (le_max_right _ _)
    have h3 : ((N : ℚ) / 2) / (S : ℚ) ≤ (P : ℚ) :=
      (Int.le_ceil (((N : ℚ) / 2) / (S : ℚ))).trans h2
    have h4 : (N : ℚ) / 2 ≤ (P : ℚ) * (S : ℚ) := (div_le_iff₀ hSpos).mp h3
    have h5 : (N : ℚ) ≤ (P : ℚ) * (S : ℚ) * 2 :=
      (div_le_iff₀ (by norm_num : (0 : ℚ) < 2)).mp h4
    exact h5

/-- Witness for C6 at the spec's Scenario A configuration. -/
theorem C6_sizing_lower_bounds_witness :
    (0 < (7360 : ℚ) * (95 / 100) * ((80 : ℚ) / 100) ∧ 1 ≤ 20 + 4) ∧
    (1 ≤ calculatedPduPairs [sampleDevice] 7360 (95 / 100) 80 20 4 ∧
     ([sampleDevice].map (·.powerRatingPerDevice)).sum ≤
       (calculatedPduPairs [sampleDevice] 7360 (95 / 100) 80 20 4 : ℚ) *
         (7360 * (95 / 100) * ((80 : ℚ) / 100)) ∧
     ((([sampleDevice].map (·.psuCount)).sum : Nat) : ℚ) ≤
       (calculatedPduPairs [sampleDevice] 7360 (95 / 100) 80 20 4 : ℚ) *
         (((20 + 4 : Nat)) : ℚ) * 2) :=
  ⟨⟨by norm_num, by norm_num⟩,
    C6_sizing_lower_bounds [sampleDevice] 7360 (95 / 100) 80 20 4
      (by norm_num) (by norm_num)⟩

/-! ## C1: the per-PDU capacity invariant -/

/-- A configuration with one PDU pair, capacity 30 W (power factor 1, margin
100 %), eight primary sockets and a single 63 A circuit at 100 V. -/
def cfgC1 : Config :=
  { rackSize := 48, baseSocketsPerPDU := 8, secondarySocketsPerPDU := 0,
    socketType := "C13", secondarySocketType := "C19", pduCols := 1,
    numPairs := 1, basePduCapacity := 30, powerFactor := 1, safetyMargin := 100,
    voltage := 100, circuitCount := 1, circuitAmps := 63 }

/-- A placed device with `n` PSUs, power rating `pw`, at rack unit `u`. -/
def mkDevC1 (nm : String) (n : Nat) (pw : ℚ) (u : Int) : Device :=
  { id := nm, name := nm, room := "R", psuCount := n, typicalPower := pw,
    powerRatingPerDevice := pw, connectionType := "C13", uHeight := 1,
    uPosition := some u, psuConnections := List.replicate n none }

/-- A triple-PSU device rated −50 W above three single-PSU devices rated 60 W:
each −50 W booking lowers `currentLoad`, so the capacity gate keeps admitting
the 60 W devices onto PDU A1 even though their summed rating exceeds 30 W. -/
def devsC1 : List Device :=
  [mkDevC1 "X" 3 (-50) 48, mkDevC1 "Y1" 1 60 47, mkDevC1 "Y2" 1 60 46,
   mkDevC1 "Y3" 1 60 45]

/-- C1 (amended: the device power ratings must also be nonnegative — the claim
as stated fails on a negative rating, see the counterexample): for every device
list with nonnegative max power ratings and every configuration with positive
capacity, power factor in (0,1] and safety margin in (0,100], the wiring
produced by `runAutoConnect` from the all-empty PDU state keeps, for every PDU,
the summed max power of the devices connected to it within
`capacity × powerFactor × (safetyMargin/100)`. -/
theorem C1_capacity_invariant (cfg : Config) (ds : List Device)
    (hpow : ∀ d ∈ ds, 0 ≤ d.powerRatingPerDevice)
    (hcap : 0 < cfg.basePduCapacity)
    (hpf : 0 < cfg.powerFactor) (hpf1 : cfg.powerFactor ≤ 1)
    (hsm : 0 < cfg.safetyMargin) (hsm100 : cfg.safetyMargin ≤ 100) :
    ∀ q, devSumPdu (runAutoConnect cfg ds (initPduState cfg)) q ≤ cfg.effectiveCap := by
  intro q
  have hcap0 : 0 ≤ cfg.effectiveCap := by
    unfold Config.effectiveCap
    positivity
  have hF : List.Forall₂ SameButSockets (runAutoConnectRaw cfg ds (initPduState cfg))
      (runAutoConnect cfg ds (initPduState cfg)) := by
    rw [runAutoConnect, optimizeWiring, List.forall₂_map_right_iff]
    exact List.forall₂_same.mpr fun d _ => optDevice_sameButSockets _ _ d
  rw [devSumPdu_congr hF q]
  exact runAutoConnectRaw_load_inv cfg ds (initPduState cfg) hpow
    (fun r => by simpa [initPduState] using hcap0)
    (fun r => by simp [initPduState]) q

/-- The capacity invariant holds on the one-pair configuration for a single
placed 60 W device. -/
theorem C1_capacity_invariant_witness :
    ((∀ d ∈ [mkDevC1 "Y1" 1 60 47], 0 ≤ d.powerRatingPerDevice) ∧
      0 < cfgC1.basePduCapacity ∧ 0 < cfgC1.powerFactor ∧ cfgC1.powerFactor ≤ 1 ∧
      0 < cfgC1.safetyMargin ∧ cfgC1.safetyMargin ≤ 100) ∧
    ∀ q, devSumPdu (runAutoConnect cfgC1 [mkDevC1 "Y1" 1 60 47] (initPduState cfgC1)) q ≤
      cfgC1.effectiveCap :=
  ⟨⟨by intro d hd; rw [List.mem_singleton] at hd; subst hd; norm_num [mkDevC1],
      by norm_num [cfgC1], by norm_num [cfgC1], by norm_num [cfgC1],
      by norm_num [cfgC1], by norm_num [cfgC1]⟩,
    C1_capacity_invariant cfgC1 [mkDevC1 "Y1" 1 60 47]
      (by intro d hd; rw [List.mem_singleton] at hd; subst hd; norm_num [mkDevC1])
      (by norm_num [cfgC1]) (by norm_num [cfgC1]) (by norm_num [cfgC1])
      (by norm_num [cfgC1]) (by norm_num [cfgC1])⟩

set_option maxRecDepth 100000 in
/-- C1 as stated is false: on `cfgC1` (capacity 30 W, power factor 1, margin
100 %) the engine wires `devsC1` so that PDU A1 carries devices summing to
70 W — the −50 W rating of device X drives `currentLoad` below zero, so the
capacity gate admits more 60 W devices than the PDU can hold. -/
theorem C1_capacity_invariant_cex :
    (0 < cfgC1.basePduCapacity ∧ 0 < cfgC1.powerFactor ∧ cfgC1.powerFactor ≤ 1 ∧
      0 < cfgC1.safetyMargin ∧ cfgC1.safetyMargin ≤ 100) ∧
    cfgC1.effectiveCap <
      devSumPdu (runAutoConnect cfgC1 devsC1 (initPduState cfgC1)) (Side.A, 0) := by
  constructor
  · refine ⟨?_, ?_, ?_, ?_, ?_⟩ <;> norm_num [cfgC1]
  · with_unfolding_all decide

/-! ## C2: the per-circuit current invariant -/

/-- The circuit invariant carried through the two assignment phases: the
circuit-load vectors keep their length, every booked circuit load stays within
the derated breaker rating, and each PDU circuit's connected-device sum is
dominated by its booked load. -/
def PhiCirc (cfg : Config) (P : List Device) (st : PduState) : Prop :=
  (∀ q, (st q).circuitLoads.length = cfg.circuitCount) ∧
  (∀ q c, circuitVal (st q) c / cfg.powerFactor / cfg.voltage ≤
    effectiveCircuitAmps cfg) ∧
  (∀ q (c : Int), 0 ≤ c → circuitDevSum cfg P q c ≤ circuitVal (st q) c.toNat)

lemma connectedToCircuit_false_of_neg {cfg : Config} {d : Device} {q : PduId}
    {c : Int} (hc : c < 0) : ¬ connectedToCircuit cfg d q c = true := by
  rw [connectedToCircuit_iff]
  rintro ⟨s, -, hs⟩
  have := circuitOf_nonneg cfg s
  omega

lemma circuitDevSum_neg (cfg : Config) (P : List Device) (q : PduId) {c : Int}
    (hc : c < 0) : circuitDevSum cfg P q c = 0 := by
  unfold circuitDevSum
  have h : P.filter (fun d => connectedToCircuit cfg d q c) = [] :=
    List.filter_eq_nil_iff.mpr fun d _ => connectedToCircuit_false_of_neg hc
  rw [h]
  rfl

lemma PhiCirc_extend {cfg : Config} {P : List Device} {st st' : PduState}
    {d d' : Device} (hl : 0 ≤ d.powerRatingPerDevice)
    (hsteps : Steps cfg d.powerRatingPerDevice st st' d'.psuConnections)
    (hpower : d'.powerRatingPerDevice = d.powerRatingPerDevice)
    (h : PhiCirc cfg P st) : PhiCirc cfg (P ++ [d']) st' := by
  obtain ⟨hlen, hbound, hsum⟩ := h
  refine ⟨fun q => (hsteps.circuit_len q).trans (hlen q),
    hsteps.circuit_le hlen hbound, ?_⟩
  intro q c hc
  rw [circuitDevSum_append]
  by_cases hconn : connectedToCircuit cfg d' q c
  · rw [if_pos hconn, hpower]
    obtain ⟨s, hs, hcirc⟩ := connectedToCircuit_iff.mp hconn
    obtain ⟨hlt, hdelta⟩ := hsteps.conn_circuit_delta hl hlen q s hs
    rw [hcirc] at hdelta
    have hP := hsum q c hc
    linarith
  · rw [if_neg hconn, add_zero]
    exact (hsum q c hc).trans (hsteps.circuitVal_mono hl hlen q c.toNat)

/-- Each circuit load of the all-empty state is zero. -/
lemma circuitVal_init (cfg : Config) (q : PduId) (c : Nat) :
    circuitVal (initPduState cfg q) c = 0 := by
  unfold circuitVal initPduState
  rw [List.getD_eq_getElem?_getD, List.getElem?_replicate]
  split <;> rfl

/-- With nonnegative device powers, both assignment phases keep every PDU
circuit's connected-device sum within the booked circuit load, which stays
within the derated rating. -/
lemma runAutoConnectRaw_circuit_inv (cfg : Config) (ds : List Device)
    (st0 : PduState)
    (hload : ∀ d ∈ ds, 0 ≤ d.powerRatingPerDevice)
    (hlen0 : ∀ q, (st0 q).circuitLoads.length = cfg.circuitCount)
    (hb0 : ∀ q c, circuitVal (st0 q) c / cfg.powerFactor / cfg.voltage ≤
      effectiveCircuitAmps cfg)
    (hnn0 : ∀ q c, 0 ≤ circuitVal (st0 q) c)
    (hpf : 0 < cfg.powerFactor) (hv : 0 < cfg.voltage)
    (hamps : 0 ≤ effectiveCircuitAmps cfg) :
    ∀ q (c : Int),
      circuitDevSum cfg (runAutoConnectRaw cfg ds st0) q c
        / cfg.powerFactor / cfg.voltage ≤ effectiveCircuitAmps cfg := by
  obtain ⟨st', hlen, hbound, hsum⟩ := runAutoConnectRaw_inv cfg ds st0 (PhiCirc cfg)
    (fun P st d hd hΦ =>
      PhiCirc_extend (hload d hd) (processDual_steps cfg st d)
        (processDual_keeps cfg st d).1 hΦ)
    (fun P st rr d hd hΦ =>
      PhiCirc_extend (hload d hd) (processOther_steps cfg st rr d)
        (processOther_keeps cfg st rr d).1 hΦ)
    ⟨hlen0, hb0, fun q c hc => by
      have : circuitDevSum cfg [] q c = 0 := by
        unfold circuitDevSum
        rfl
      rw [this]
      exact hnn0 q c.toNat⟩
  intro q c
  rcases lt_or_le c 0 with hc | hc
  · rw [circuitDevSum_neg cfg _ q hc]
    simpa using hamps
  · calc circuitDevSum cfg (runAutoConnectRaw cfg ds st0) q c
        / cfg.powerFactor / cfg.voltage
        ≤ circuitVal (st' q) c.toNat / cfg.powerFactor / cfg.voltage := by
          gcongr
          exact hsum q c hc
      _ ≤ effectiveCircuitAmps cfg := hbound q c.toNat

/-- C2 (amended: restricted to the wiring of the two assignment phases — the
final compaction pass breaks the invariant, see the counterexample — and to
nonnegative device power ratings, positive power factor and voltage, and a
nonnegative derated breaker rating): for every PDU and every circuit index,
the connected max power of the wiring the two phases produce from the
all-empty state, converted to amps via `(watts / powerFactor) / voltage`, is
at most `circuitRatedAmps × (safetyMargin/100)`. -/
theorem C2_circuit_invariant (cfg : Config) (ds : List Device)
    (hpow : ∀ d ∈ ds, 0 ≤ d.powerRatingPerDevice)
    (hpf : 0 < cfg.powerFactor) (hv : 0 < cfg.voltage)
    (hamps : 0 ≤ effectiveCircuitAmps cfg) :
    ∀ q (c : Int),
      circuitDevSum cfg (runAutoConnectRaw cfg ds (initPduState cfg)) q c
        / cfg.powerFactor / cfg.voltage ≤ effectiveCircuitAmps cfg := by
  refine runAutoConnectRaw_circuit_inv cfg ds (initPduState cfg) hpow
    (fun q => by simp [initPduState]) (fun q c => ?_) (fun q c => ?_) hpf hv hamps
  · rw [circuitVal_init]
    simpa using hamps
  · rw [circuitVal_init]

/-- A configuration with one PDU pair, ample capacity, four sockets split into
two 12 A circuits at 100 V (sockets 0-1 on circuit 0, sockets 2-3 on
circuit 1). -/
def cfgC2 : Config :=
  { rackSize := 48, baseSocketsPerPDU := 4, secondarySocketsPerPDU := 0,
    socketType := "C13", secondarySocketType := "C19", pduCols := 1,
    numPairs := 1, basePduCapacity := 10000, powerFactor := 1, safetyMargin := 100,
    voltage := 100, circuitCount := 2, circuitAmps := 12 }

/-- One single-PSU 600 W device high in the rack and two dual-PSU devices
(800 W and 500 W) lower down. Pre-compaction, circuit 1 of PDU A1 carries
600 + 500 = 1100 W (11 A ≤ 12 A); the compaction pass then swaps the 800 W
device onto socket 2, putting 800 + 500 = 1300 W (13 A) on that circuit. -/
def devsC2 : List Device :=
  [mkDevC1 "S" 1 600 48, mkDevC1 "D1" 2 800 26, mkDevC1 "D2" 2 500 23]

/-- The circuit invariant of the two assignment phases holds for a single
placed 600 W device on the two-circuit configuration. -/
theorem C2_circuit_invariant_witness :
    ((∀ d ∈ [mkDevC1 "S" 1 600 48], 0 ≤ d.powerRatingPerDevice) ∧
      0 < cfgC2.powerFactor ∧ 0 < cfgC2.voltage ∧ 0 ≤ effectiveCircuitAmps cfgC2) ∧
    ∀ q (c : Int),
      circuitDevSum cfgC2
          (runAutoConnectRaw cfgC2 [mkDevC1 "S" 1 600 48] (initPduState cfgC2)) q c
        / cfgC2.powerFactor / cfgC2.voltage ≤ effectiveCircuitAmps cfgC2 :=
  ⟨⟨by intro d hd; rw [List.mem_singleton] at hd; subst hd; norm_num [mkDevC1],
      by norm_num [cfgC2], by norm_num [cfgC2],
      by norm_num [cfgC2, effectiveCircuitAmps]⟩,
    C2_circuit_invariant cfgC2 [mkDevC1 "S" 1 600 48]
      (by intro d hd; rw [List.mem_singleton] at hd; subst hd; norm_num [mkDevC1])
      (by norm_num [cfgC2]) (by norm_num [cfgC2])
      (by norm_num [cfgC2, effectiveCircuitAmps])⟩

set_option maxRecDepth 400000 in
/-- C2 as stated is false for the full engine including its compaction pass:
on `cfgC2`/`devsC2` (all powers nonnegative, power factor 1, voltage 100,
derated rating 12 A) the compacted wiring puts 1300 W on circuit 1 of PDU A1,
i.e. 13 A on a 12 A circuit — compaction re-ranks sockets with no circuit
check. -/
theorem C2_circuit_invariant_cex :
    ((∀ d ∈ devsC2, 0 ≤ d.powerRatingPerDevice) ∧
      0 < cfgC2.powerFactor ∧ 0 < cfgC2.voltage ∧ 0 ≤ effectiveCircuitAmps cfgC2) ∧
    effectiveCircuitAmps cfgC2 <
      circuitDevSum cfgC2 (runAutoConnect cfgC2 devsC2 (initPduState cfgC2))
        (Side.A, 0) 1 / cfgC2.powerFactor / cfgC2.voltage := by
  constructor
  · refine ⟨?_, ?_, ?_, ?_⟩
    · intro d hd
      fin_cases hd <;> norm_num [mkDevC1]
    · norm_num [cfgC2]
    · norm_num [cfgC2]
    · norm_num [cfgC2, effectiveCircuitAmps]
  · with_unfolding_all decide

/-! ## C3: socket uniqueness through both phases and the compaction pass -/

lemma processDual_id (cfg : Config) (st : PduState) (d : Device) :
    ((processDual cfg st d).1).id = d.id := by
  unfold processDual
  by_cases hd : uPosTruthy d
  · rw [if_neg (by simpa using hd)]
    dsimp only
    cases hmatch : findMatchedPair cfg d (deviceCenterY cfg d) d.powerRatingPerDevice
        (List.range cfg.numPairs) st with
    | some ks => rfl
    | none => rfl
  · rw [if_pos (by simpa using hd)]

lemma processOther_id (cfg : Config) (st : PduState) (rr : Nat) (d : Device) :
    ((processOther cfg st rr d).1).id = d.id := by
  unfold processOther
  by_cases hd : uPosTruthy d
  · rw [if_neg (by simpa using hd)]
  · rw [if_pos (by simpa using hd)]

lemma processDual_truthy (cfg : Config) (st : PduState) (d : Device) :
    uPosTruthy (processDual cfg st d).1 = uPosTruthy d := by
  unfold uPosTruthy
  rw [(processDual_keeps cfg st d).2]

lemma processOther_truthy (cfg : Config) (st : PduState) (rr : Nat) (d : Device) :
    uPosTruthy (processOther cfg st rr d).1 = uPosTruthy d := by
  unfold uPosTruthy
  rw [(processOther_keeps cfg st rr d).2]

/-- Every device the two phases emit either is placed or carries an empty
connection list. -/
lemma runAutoConnectRaw_unplaced_empty (cfg : Config) (ds : List Device)
    (st0 : PduState) :
    ∀ x ∈ runAutoConnectRaw cfg ds st0, ¬ uPosTruthy x → x.psuConnections = [] := by
  obtain ⟨st', h⟩ := runAutoConnectRaw_inv cfg ds st0
    (fun P _ => ∀ x ∈ P, ¬ uPosTruthy x → x.psuConnections = [])
    (fun P st d _ hΦ => by
      intro x hx hxt
      rcases List.mem_append.mp hx with hP | hnew
      · exact hΦ x hP hxt
      · rw [List.mem_singleton] at hnew
        subst hnew
        rw [processDual_truthy] at hxt
        rw [processDual_unplaced cfg st d hxt])
    (fun P st rr d _ hΦ => by
      intro x hx hxt
      rcases List.mem_append.mp hx with hP | hnew
      · exact hΦ x hP hxt
      · rw [List.mem_singleton] at hnew
        subst hnew
        rw [processOther_truthy] at hxt
        rw [processOther_unplaced cfg st rr d hxt])
    (fun x hx => absurd hx (List.not_mem_nil x))
  exact h

lemma phase1_fold_ids (cfg : Config) :
    ∀ (l : List Device) (acc : List Device) (st : PduState),
      ((l.foldl (fun (acc : List Device × PduState) d =>
          let (d', st') := processDual cfg acc.2 d
          (acc.1 ++ [d'], st')) (acc, st)).1).map (·.id) =
        acc.map (·.id) ++ l.map (·.id)
  | [], acc, st => by simp
  | d :: l, acc, st => by
      rw [List.foldl_cons]
      have ih := phase1_fold_ids cfg l (acc ++ [(processDual cfg st d).1])
        (processDual cfg st d).2
      refine Eq.trans ih ?_
      simp [processDual_id cfg st d]

lemma phase2_fold_ids (cfg : Config) :
    ∀ (l : List Device) (acc : List Device) (st : PduState) (rr : Nat),
      ((l.foldl (fun (acc : List Device × PduState × Nat) d =>
          let (d', st', rr') := processOther cfg acc.2.1 acc.2.2 d
          (acc.1 ++ [d'], st', rr')) (acc, st, rr)).1).map (·.id) =
        acc.map (·.id) ++ l.map (·.id)
  | [], acc, st, rr => by simp
  | d :: l, acc, st, rr => by
      rw [List.foldl_cons]
      have ih := phase2_fold_ids cfg l (acc ++ [(processOther cfg st rr d).1])
        (processOther cfg st rr d).2.1 (processOther cfg st rr d).2.2
      refine Eq.trans ih ?_
      simp [processOther_id cfg st rr d]

/-- The two phases permute the device ids: sorting, splitting by PSU count and
per-device processing never drop, add or rename a device. -/
lemma runAutoConnectRaw_ids (cfg : Config) (ds : List Device) (st0 : PduState) :
    (runAutoConnectRaw cfg ds st0).map (·.id) ~ ds.map (·.id) := by
  unfold runAutoConnectRaw
  dsimp only
  rw [List.map_append, phase1_fold_ids cfg _ [] st0, phase2_fold_ids cfg _ []]
  simp only [List.map_nil, List.nil_append]
  have hsplit := List.filter_append_perm (fun d => decide (d.psuCount = 2))
    (ds.insertionSort uPosDescLE)
  have hmap := hsplit.map (·.id)
  rw [List.map_append] at hmap
  have hfix : ((ds.insertionSort uPosDescLE).filter fun d => !decide (d.psuCount = 2)) =
      ((ds.insertionSort uPosDescLE).filter fun d => decide (¬ d.psuCount = 2)) := by
    apply List.filter_congr
    intro x _
    simp [decide_not]
  rw [hfix] at hmap
  exact hmap.trans ((List.perm_insertionSort uPosDescLE ds).map (·.id))

/-- Extending the socket-uniqueness invariant by one processed device: the
fresh-socket guard of each successful assignment keeps the new pairs disjoint
from every pair already emitted. -/
lemma PhiNodup_extend {cfg : Config} {load : ℚ} {P : List Device}
    {st st' : PduState} {d' : Device}
    (hsteps : Steps cfg load st st' d'.psuConnections)
    (h : (∀ pr ∈ socketPairs P, pr.2 ∈ (st pr.1).usedSockets) ∧
      (socketPairs P).Nodup) :
    (∀ pr ∈ socketPairs (P ++ [d']), pr.2 ∈ (st' pr.1).usedSockets) ∧
      (socketPairs (P ++ [d'])).Nodup := by
  obtain ⟨hused, hnodup⟩ := h
  obtain ⟨hnew, hfresh⟩ := hsteps.pairs_fresh
  rw [socketPairs_append]
  constructor
  · intro pr hpr
    rcases List.mem_append.mp hpr with hm | hm
    · exact hsteps.used_mono pr.1 (hused pr hm)
    · obtain ⟨q, s⟩ := pr
      exact hsteps.conn_in_used q s (pairsOf_mem.mp hm)
  · rw [List.nodup_append]
    exact ⟨hnodup, hnew, fun pr hprP hprN => hfresh pr hprN (hused pr hprP)⟩

/-- The wiring of the two assignment phases claims each `(pduId, socketIndex)`
at most once. -/
lemma runAutoConnectRaw_socket_nodup (cfg : Config) (ds : List Device)
    (st0 : PduState) : (socketPairs (runAutoConnectRaw cfg ds st0)).Nodup := by
  obtain ⟨st', -, h⟩ := runAutoConnectRaw_inv cfg ds st0
    (fun P st => (∀ pr ∈ socketPairs P, pr.2 ∈ (st pr.1).usedSockets) ∧
      (socketPairs P).Nodup)
    (fun P st d _ hΦ => PhiNodup_extend (processDual_steps cfg st d) hΦ)
    (fun P st rr d _ hΦ => PhiNodup_extend (processOther_steps cfg st rr d) hΦ)
    ⟨fun pr hpr => by simp [socketPairs] at hpr, List.nodup_nil⟩
  exact h

lemma devContribAt_sockets_aux (p : PduId) (did : String) (up : Int) :
    ∀ (cs : List (Option PSUConnection)) (n : Nat),
      (((cs.enumFrom n).filterMap fun iv =>
          iv.2.bind fun c =>
            if c.pduId = p then some (⟨did, iv.1, up, c.socketIndex⟩ : ConnRec)
            else none).map (·.socketIndex)) =
        cs.filterMap fun oc =>
          oc.bind fun c => if c.pduId = p then some c.socketIndex else none
  | [], n => rfl
  | none :: cs, n => devContribAt_sockets_aux p did up cs (n + 1)
  | some c :: cs, n => by
      have ih := devContribAt_sockets_aux p did up cs (n + 1)
      by_cases hp : c.pduId = p
      · simpa [List.enumFrom_cons, List.filterMap_cons, hp] using ih
      · simpa [List.enumFrom_cons, List.filterMap_cons, hp] using ih

/-- The socket indices a device's records contribute under PDU `p`, read off its
connection list. -/
lemma devContribAt_sockets (d : Device) (p : PduId) :
    (devContribAt d p).map (·.socketIndex) =
      d.psuConnections.filterMap fun oc =>
        oc.bind fun c => if c.pduId = p then some c.socketIndex else none := by
  unfold devContribAt
  exact devContribAt_sockets_aux p d.id (uPosVal d) d.psuConnections 0

lemma pairs_fiber_sockets (p : PduId) :
    ∀ cs : List (Option PSUConnection),
      (((pairsOf cs).filter fun pr => decide (pr.1 = p)).map Prod.snd) =
        cs.filterMap fun oc =>
          oc.bind fun c => if c.pduId = p then some c.socketIndex else none
  | [] => rfl
  | none :: cs => pairs_fiber_sockets p cs
  | some c :: cs => by
      have ih := pairs_fiber_sockets p cs
      by_cases hp : c.pduId = p
      · simpa [pairsOf, List.filterMap_cons, List.filter_cons, hp] using ih
      · simpa [pairsOf, List.filterMap_cons, List.filter_cons, hp] using ih

lemma socketPairs_cons (d : Device) (ds : List Device) :
    socketPairs (d :: ds) = pairsOf d.psuConnections ++ socketPairs ds := by
  simp [socketPairs, pairsOf]

/-- On lists whose unplaced devices carry no connections, the `p`-fiber of the
socket-pair list is exactly the socket column of the compaction records of `p`. -/
lemma socketPairs_fiber (p : PduId) :
    ∀ ds : List Device,
      (∀ d ∈ ds, ¬ uPosTruthy d → d.psuConnections = []) →
      (((socketPairs ds).filter fun pr => decide (pr.1 = p)).map Prod.snd) =
        (connsOf ds p).map (·.socketIndex)
  | [], _ => rfl
  | d :: ds, h => by
      have ih := socketPairs_fiber p ds fun d' hd' =>
        h d' (List.mem_cons_of_mem _ hd')
      rw [socketPairs_cons, List.filter_append, List.map_append, connsOf_cons,
        List.map_append, ih]
      congr 1
      by_cases ht : uPosTruthy d
      · rw [if_pos ht, pairs_fiber_sockets p d.psuConnections, devContribAt_sockets]
      · rw [if_neg ht, h d (List.mem_cons_self ..) ht]
        rfl

/-- The compaction pass preserves socket uniqueness (distinct device ids, and no
connections on unplaced devices, as the engine guarantees). -/
lemma socketPairs_nodup_optimizeWiring {ds : List Device} (b : Nat)
    (hids : (ds.map (·.id)).Nodup)
    (hempty : ∀ d ∈ ds, ¬ uPosTruthy d → d.psuConnections = [])
    (hnodup : (socketPairs ds).Nodup) :
    (socketPairs (optimizeWiring ds b)).Nodup := by
  apply nodup_of_nodup_filter_fst
  intro p
  have hempty' : ∀ d' ∈ optimizeWiring ds b, ¬ uPosTruthy d' →
      d'.psuConnections = [] := by
    intro d' hd' ht
    rw [optimizeWiring] at hd'
    obtain ⟨d, hd, rfl⟩ := List.mem_map.mp hd'
    rw [optDevice_truthy] at ht
    rw [optDevice_unplaced ds b d ht]
    exact hempty d hd ht
  rw [socketPairs_fiber p _ hempty']
  have h1 : (((socketPairs ds).filter fun pr => decide (pr.1 = p)).map
      Prod.snd).Nodup := by
    refine List.Nodup.map_on ?_ (hnodup.filter _)
    intro x hx y hy hxy
    have hxp := (List.mem_filter.mp hx).2
    have hyp := (List.mem_filter.mp hy).2
    rw [decide_eq_true_eq] at hxp hyp
    exact Prod.ext (hxp.trans hyp.symm) hxy
  rw [socketPairs_fiber p ds hempty] at h1
  exact ((optimizeWiring_sockets_perm b p hids).nodup_iff).mpr h1

/-- C3: for every device list with pairwise-distinct ids (the data model's
identifiers are unique) and every configuration, the wiring `runAutoConnect`
produces — both phases followed by the compaction pass — maps no two distinct
`(device, psuIndex)` slots to the same `(pduId, socketIndex)`. -/
theorem C3_socket_uniqueness (cfg : Config) (ds : List Device)
    (hids : (ds.map (·.id)).Nodup) :
    (socketPairs (runAutoConnect cfg ds (initPduState cfg))).Nodup := by
  have hempty := runAutoConnectRaw_unplaced_empty cfg ds (initPduState cfg)
  have hids' : ((runAutoConnectRaw cfg ds (initPduState cfg)).map (·.id)).Nodup :=
    (runAutoConnectRaw_ids cfg ds (initPduState cfg)).nodup_iff.mpr hids
  have hraw := runAutoConnectRaw_socket_nodup cfg ds (initPduState cfg)
  exact socketPairs_nodup_optimizeWiring cfg.baseSocketsPerPDU hids' hempty hraw

/-- Socket uniqueness of the engine's output on the four-device scenario. -/
theorem C3_socket_uniqueness_witness :
    (devsC1.map (·.id)).Nodup ∧
      (socketPairs (runAutoConnect cfgC1 devsC1 (initPduState cfgC1))).Nodup :=
  ⟨by decide, C3_socket_uniqueness cfgC1 devsC1 (by decide)⟩

/-! ## C9: totality of the bin-packing grouper -/

lemma selectPduIdx_fold_spec (power cap : ℚ) (Q : Nat × PDUPair → Prop) :
    ∀ (l : List (Nat × PDUPair)) (acc : Option (Nat × PDUPair)),
      (∀ ie, acc = some ie → Q ie) → (∀ ie ∈ l, Q ie) →
      ∀ ie, l.foldl
          (fun best (ie : Nat × PDUPair) =>
            if ie.2.currentLoad + power ≤ cap then
              match best with
              | none => some ie
              | some (bi, be) =>
                  if ie.2.currentLoad < be.currentLoad then some ie else some (bi, be)
            else best)
          acc = some ie → Q ie
  | [], _, hacc, _, ie, h => hacc ie h
  | e :: l, acc, hacc, hl, ie, h => by
      rw [List.foldl_cons] at h
      refine selectPduIdx_fold_spec power cap Q l _ ?_
        (fun x hx => hl x (List.mem_cons_of_mem _ hx)) ie h
      intro ie' hie'
      by_cases hc : e.2.currentLoad + power ≤ cap
      · rw [if_pos hc] at hie'
        cases acc with
        | none =>
            cases hie'
            exact hl e (List.mem_cons_self ..)
        | some be =>
            obtain ⟨bi, bp⟩ := be
            dsimp only at hie'
            by_cases hlt : e.2.currentLoad < bp.currentLoad
            · rw [if_pos hlt] at hie'
              cases hie'
              exact hl e (List.mem_cons_self ..)
            · rw [if_neg hlt] at hie'
              exact hacc ie' hie'
      · rw [if_neg hc] at hie'
        exact hacc ie' hie'

/-- The least-loaded-fit scan only returns indices of the pair list. -/
lemma selectPduIdx_lt {pairs : List PDUPair} {power cap : ℚ} {i : Nat}
    (h : selectPduIdx pairs power cap = some i) : i < pairs.length := by
  unfold selectPduIdx at h
  rw [Option.map_eq_some'] at h
  obtain ⟨⟨j, e⟩, hfold, hj⟩ := h
  subst hj
  refine selectPduIdx_fold_spec power cap (fun ie => ie.1 < pairs.length)
    pairs.enum none (fun ie h => by cases h) ?_ (j, e) hfold
  intro ie hie
  have hget := List.mem_enum_iff_getElem?.mp hie
  rcases List.getElem?_eq_some.mp hget with ⟨hlt, -⟩
  exact hlt

lemma flatMap_modify_perm (d : Device) (f : PDUPair → PDUPair)
    (hgain : ∀ p, (f p).devices ~ d :: p.devices) :
    ∀ (pairs : List PDUPair) (i : Nat), i < pairs.length →
      ((List.modify f i pairs).flatMap (·.devices)) ~
        d :: pairs.flatMap (·.devices)
  | [], i, hi => by cases hi
  | p :: pairs, 0, _ => by
      show ((f p).devices ++ pairs.flatMap (·.devices)) ~ _
      exact ((hgain p).append_right _).trans (List.Perm.refl _)
  | p :: pairs, i + 1, hi => by
      show (p.devices ++ (List.modify f i pairs).flatMap (·.devices)) ~
        d :: (p.devices ++ pairs.flatMap (·.devices))
      have ih := flatMap_modify_perm d f hgain pairs i (by simpa using hi)
      exact ((ih.append_left p.devices).trans List.perm_middle)

/-- One grouper step adds exactly the placed device to the multiset of grouped
devices. -/
lemma placeDevice_perm (cap : ℚ) (pairs : List PDUPair) (d : Device) :
    ((placeDevice cap pairs d).flatMap (·.devices)) ~
      d :: pairs.flatMap (·.devices) := by
  unfold placeDevice
  cases hsel : selectPduIdx pairs d.powerRatingPerDevice cap with
  | some i =>
      exact flatMap_modify_perm d _ (fun p => List.perm_append_singleton d p.devices)
        pairs i (selectPduIdx_lt hsel)
  | none =>
      rw [List.flatMap_append]
      show (pairs.flatMap (·.devices) ++ ([d] ++ [])) ~ _
      rw [List.append_nil]
      exact List.perm_append_singleton d _

/-- Pairs with no devices contribute nothing: dropping them keeps the grouped
multiset. -/
lemma flatMap_filter_nonempty :
    ∀ l : List PDUPair,
      ((l.filter fun p => p.devices.length > 0).flatMap (·.devices)) =
        l.flatMap (·.devices)
  | [] => rfl
  | p :: l => by
      by_cases hp : p.devices.length > 0
      · simp [List.filter_cons, hp, flatMap_filter_nonempty l]
      · have hnil : p.devices = [] := List.length_eq_zero.mp (by omega)
        simp [List.filter_cons, hp, hnil, flatMap_filter_nonempty l]

lemma foldl_placeDevice_perm (cap : ℚ) :
    ∀ (l : List Device) (pairs : List PDUPair),
      ((l.foldl (placeDevice cap) pairs).flatMap (·.devices)) ~
        pairs.flatMap (·.devices) ++ l
  | [], pairs => by simp
  | d :: l, pairs => by
      rw [List.foldl_cons]
      refine (foldl_placeDevice_perm cap l (placeDevice cap pairs d)).trans ?_
      calc (placeDevice cap pairs d).flatMap (·.devices) ++ l
          ~ (d :: pairs.flatMap (·.devices)) ++ l :=
            (placeDevice_perm cap pairs d).append_right l
        _ ~ pairs.flatMap (·.devices) ++ d :: l := List.perm_middle.symm

/-- The per-rack grouping: room id preserved, no unassigned devices, every input
device in exactly one returned pair, no empty pair. -/
lemma processRack_spec (cap : ℚ) (rack : RackGroup) :
    (processRack cap rack).roomId = rack.roomId ∧
    (processRack cap rack).unassignedDevices = [] ∧
    ((processRack cap rack).pduPairs.flatMap (·.devices)) ~ rack.devices ∧
    ∀ p ∈ (processRack cap rack).pduPairs, p.devices ≠ [] := by
  unfold processRack
  dsimp only
  refine ⟨rfl, rfl, ?_, ?_⟩
  · rw [flatMap_filter_nonempty]
    refine (foldl_placeDevice_perm cap _ _).trans ?_
    have hinit : (((List.range (max 1 ⌈((rack.devices.insertionSort
        powerDescLE).map (·.powerRatingPerDevice)).sum / cap⌉).toNat).map fun i =>
          ({ id := "PDU-Pair-" ++ toString (i + 1), capacity := cap,
             currentLoad := 0, devices := [] } : PDUPair)).flatMap (·.devices)) = [] :=
      List.flatMap_eq_nil_iff.mpr fun p hp => by
        obtain ⟨i, -, rfl⟩ := List.mem_map.mp hp
        rfl
    rw [hinit, List.nil_append]
    exact List.perm_insertionSort powerDescLE rack.devices
  · intro p hp
    have hlen := (List.mem_filter.mp hp).2
    intro hnil
    rw [hnil] at hlen
    simp at hlen

/-- C9: the bin-packing grouper is total and complete — for every rack list and
every parameter choice, each rack yields a result with its room id, an empty
`unassignedDevices` list, the rack's devices distributed into the returned
pairs with each device in exactly one pair, and no returned pair empty. -/
theorem C9_grouper_total (racks : List RackGroup)
    (pduCapacityVA safetyMargin powerFactor : ℚ) :
    List.Forall₂ (fun (rack : RackGroup) (res : OptimizationResult) =>
        res.roomId = rack.roomId ∧ res.unassignedDevices = [] ∧
        (res.pduPairs.flatMap (·.devices)) ~ rack.devices ∧
        ∀ p ∈ res.pduPairs, p.devices ≠ [])
      racks (optimizePowerDistribution racks pduCapacityVA safetyMargin powerFactor) := by
  unfold optimizePowerDistribution
  dsimp only
  rw [List.forall₂_map_right_iff]
  exact List.forall₂_same.mpr fun rack _ =>
    processRack_spec (pduCapacityVA * powerFactor * (safetyMargin / 100)) rack

/-! ## C7: manual device move -/

lemma find?_map_pred {f : Device → Device} {pred : Device → Bool}
    (hf : ∀ d, pred (f d) = pred d) :
    ∀ l : List Device, (l.map f).find? pred = (l.find? pred).map f
  | [] => rfl
  | d :: l => by
      by_cases hd : pred d = true
      · rw [List.map_cons, List.find?_cons_of_pos _ ((hf d).trans hd),
          List.find?_cons_of_pos _ hd, Option.map_some']
      · rw [List.map_cons, List.find?_cons_of_neg _ (by rw [hf]; simpa using hd),
          List.find?_cons_of_neg _ (by simpa using hd), find?_map_pred hf l]

/-- With pairwise-distinct ids, the id scan finds a member device itself. -/
lemma find?_id_of_mem :
    ∀ {l : List Device}, ((l.map (·.id)).Nodup) → ∀ {t : Device}, t ∈ l →
      l.find? (fun d => d.id = t.id) = some t
  | [], _, t, ht => absurd ht (List.not_mem_nil t)
  | d :: l, hids, t, ht => by
      rw [List.map_cons] at hids
      obtain ⟨hnotin, hids'⟩ := List.nodup_cons.mp hids
      rcases List.mem_cons.mp ht with rfl | hmem
      · exact List.find?_cons_of_pos _ (by simp)
      · have hne : ¬ d.id = t.id := fun he =>
          hnotin (he ▸ List.mem_map_of_mem (fun x => x.id) hmem)
        rw [List.find?_cons_of_neg _ (by simpa using hne)]
        exact find?_id_of_mem hids' hmem

/-- C7 (amended: the exact-footprint condition is not required for the swap —
see the counterexample): a manual move either returns the prior list or a list
the conflict scan accepts; and whenever a covering target device exists and the
move is not rejected, the source and target devices' positions are exactly
exchanged (for lists with pairwise-distinct ids). -/
theorem C7_move_swap (rackSize : Int) (prev : List Device) (id : String)
    (targetU : Int) (hids : (prev.map (·.id)).Nodup) :
    (handleMoveDevice rackSize prev id targetU = prev ∨
      hasConflict rackSize (handleMoveDevice rackSize prev id targetU) = false) ∧
    (∀ s t, prev.find? (fun d => d.id = id) = some s →
      findTarget prev id targetU = some t →
      handleMoveDevice rackSize prev id targetU ≠ prev →
      (handleMoveDevice rackSize prev id targetU).find? (fun d => d.id = id) =
          some { s with uPosition := t.uPosition } ∧
        (handleMoveDevice rackSize prev id targetU).find? (fun d => d.id = t.id) =
          some { t with uPosition := s.uPosition }) := by
  constructor
  · unfold handleMoveDevice
    cases hfind : prev.find? (fun d => d.id = id) with
    | none => exact Or.inl rfl
    | some s =>
        dsimp only
        split
        · exact Or.inl rfl
        · rename_i hc
          exact Or.inr (by simpa using hc)
  · intro s t hfind htgt hne
    have hsid : s.id = id := by simpa using List.find?_some hfind
    have htmem : t ∈ prev := by
      unfold findTarget at htgt
      exact List.mem_of_find?_eq_some htgt
    have htid : t.id ≠ id := by
      unfold findTarget at htgt
      have := List.find?_some htgt
      simp only [Bool.and_eq_true, bne_iff_ne] at this
      exact this.1.1
    have hts : ¬ t.id = s.id := by rw [hsid]; exact htid
    unfold handleMoveDevice at hne ⊢
    rw [hfind, htgt] at hne ⊢
    dsimp only at hne ⊢
    by_cases hc : hasConflict rackSize (prev.map fun d =>
        if d.id = s.id then { d with uPosition := t.uPosition }
        else if d.id = t.id then { d with uPosition := s.uPosition }
        else d) = true
    · rw [if_pos hc] at hne
      exact absurd rfl hne
    · rw [if_neg hc] at hne ⊢
      have hfid : ∀ d : Device,
          (if d.id = s.id then { d with uPosition := t.uPosition }
           else if d.id = t.id then { d with uPosition := s.uPosition }
           else d).id = d.id := by
        intro d
        by_cases h1 : d.id = s.id
        · rw [if_pos h1]
        · rw [if_neg h1]
          by_cases h2 : d.id = t.id
          · rw [if_pos h2]
          · rw [if_neg h2]
      constructor
      · rw [find?_map_pred (fun d => by simp only [hfid]) prev, hfind]
        simp
      · rw [find?_map_pred (fun d => by simp only [hfid]) prev,
          find?_id_of_mem hids htmem]
        simp [hts]

/-- A 1U device at U10 and a 2U device occupying U19-U20. -/
def devC7S : Device :=
  { id := "S", name := "S", room := "R", psuCount := 1, typicalPower := 0,
    powerRatingPerDevice := 0, connectionType := "C13", uHeight := 1,
    uPosition := some 10, psuConnections := [] }

def devC7T : Device :=
  { id := "T", name := "T", room := "R", psuCount := 1, typicalPower := 0,
    powerRatingPerDevice := 0, connectionType := "C13", uHeight := 2,
    uPosition := some 20, psuConnections := [] }

/-- C7's exact-footprint condition is refuted: moving the 1U device `S` onto
U20 — covered by the 2U device `T`, whose footprint `S` cannot exactly take —
still swaps the two positions instead of rejecting the move. -/
theorem C7_move_swap_cex :
    (devC7T.uPosition = some 20 ∧ devC7T.uHeight ≠ devC7S.uHeight) ∧
    (handleMoveDevice 42 [devC7S, devC7T] "S" 20).map (fun d => (d.id, d.uPosition)) =
      [("S", some 20), ("T", some 10)] ∧
    handleMoveDevice 42 [devC7S, devC7T] "S" 20 ≠ [devC7S, devC7T] := by
  exact ⟨⟨rfl, by decide⟩, by decide, by decide⟩

/-- The move theorem applied to the two-device rack. -/
theorem C7_move_swap_witness :
    (([devC7S, devC7T].map (·.id)).Nodup) ∧
    (handleMoveDevice 42 [devC7S, devC7T] "S" 20 = [devC7S, devC7T] ∨
      hasConflict 42 (handleMoveDevice 42 [devC7S, devC7T] "S" 20) = false) :=
  ⟨by decide, (C7_move_swap 42 [devC7S, devC7T] "S" 20 (by decide)).1⟩

/-! ## C8: atomicity of manual edits -/

/-- The contribution of one connection slot to the holder count of pair `pr`. -/
def pcnt (pr : PduId × Nat) (oc : Option PSUConnection) : Nat :=
  match oc with
  | some c => if (c.pduId, c.socketIndex) = pr then 1 else 0
  | none => 0

lemma count_pairsOf (pr : PduId × Nat) :
    ∀ cs : List (Option PSUConnection),
      (pairsOf cs).count pr = (cs.map (pcnt pr)).sum
  | [] => rfl
  | none :: cs => by
      simpa [pairsOf, List.filterMap_cons, pcnt] using count_pairsOf pr cs
  | some c :: cs => by
      have ih := count_pairsOf pr cs
      have hhead : pairsOf (some c :: cs) = (c.pduId, c.socketIndex) :: pairsOf cs := rfl
      rw [hhead, List.count_cons, List.map_cons, List.sum_cons, ih]
      by_cases hc : (c.pduId, c.socketIndex) = pr
      · rw [if_pos (by rw [hc]; simp),
          show pcnt pr (some c) = 1 from by simp [pcnt, hc]]
        omega
      · rw [if_neg (by simp only [beq_iff_eq]; exact hc),
          show pcnt pr (some c) = 0 from by simp [pcnt, hc]]
        omega

lemma count_socketPairs (pr : PduId × Nat) :
    ∀ l : List Device,
      (socketPairs l).count pr =
        (l.map fun d => (pairsOf d.psuConnections).count pr).sum
  | [] => rfl
  | d :: l => by
      rw [socketPairs_cons, List.count_append, List.map_cons, List.sum_cons,
        count_socketPairs pr l]

lemma sum_map_set {α : Type} (f : α → Nat) :
    ∀ (l : List α) (i : Nat) (v w : α), l[i]? = some w →
      ((l.set i v).map f).sum + f w = (l.map f).sum + f v
  | [], i, v, w, h => by simp at h
  | a :: l, 0, v, w, h => by
      obtain rfl : a = w := by simpa using h
      simp [List.sum_cons]
      omega
  | a :: l, i + 1, v, w, h => by
      have ih := sum_map_set f l i v w (by simpa using h)
      simp only [List.set_cons_succ, List.map_cons, List.sum_cons]
      omega

/-- Count form of a single slot update: the pair of the overwritten slot leaves,
the pair of the new value enters. -/
lemma count_pairsOf_set (pr : PduId × Nat) (cs : List (Option PSUConnection))
    (i : Nat) (v w : Option PSUConnection) (h : cs[i]? = some w) :
    (pairsOf (cs.set i v)).count pr + pcnt pr w =
      (pairsOf cs).count pr + pcnt pr v := by
  rw [count_pairsOf, count_pairsOf]
  exact sum_map_set (pcnt pr) cs i v w h

lemma socketHolders_cons (d : Device) (l : List Device) (p : PduId) (s : Nat) :
    socketHolders (d :: l) p s =
      (d.psuConnections.enum.filterMap fun (idx, oc) =>
        match oc with
        | some c => if c.pduId = p ∧ c.socketIndex = s then some (d.id, idx) else none
        | none => none) ++ socketHolders l p s := by
  simp [socketHolders]

lemma count_pairsOf_holders (p : PduId) (s : Nat) (did : String) :
    ∀ (cs : List (Option PSUConnection)) (n : Nat),
      (pairsOf cs).count (p, s) =
        ((cs.enumFrom n).filterMap fun (iv : Nat × Option PSUConnection) =>
          match iv.2 with
          | some c => if c.pduId = p ∧ c.socketIndex = s then some (did, iv.1) else none
          | none => none).length
  | [], n => rfl
  | none :: cs, n => by
      have ih := count_pairsOf_holders p s did cs (n + 1)
      simpa [List.enumFrom_cons, List.filterMap_cons] using ih
  | some c :: cs, n => by
      have ih := count_pairsOf_holders p s did cs (n + 1)
      have hhead : pairsOf (some c :: cs) = (c.pduId, c.socketIndex) :: pairsOf cs := rfl
      rw [hhead, List.count_cons, ih]
      by_cases hc : c.pduId = p ∧ c.socketIndex = s
      · rw [if_pos (by rw [show (c.pduId, c.socketIndex) = (p, s) from by
            rw [hc.1, hc.2]]; simp),
          show ((List.enumFrom n (some c :: cs)).filterMap fun
              (iv : Nat × Option PSUConnection) =>
            match iv.2 with
            | some c => if c.pduId = p ∧ c.socketIndex = s then some (did, iv.1)
              else none
            | none => none) = (did, n) :: ((cs.enumFrom (n + 1)).filterMap fun
              (iv : Nat × Option PSUConnection) =>
            match iv.2 with
            | some c => if c.pduId = p ∧ c.socketIndex = s then some (did, iv.1)
              else none
            | none => none) from by simp [List.enumFrom_cons, List.filterMap_cons, hc]]
        simp
      · rw [if_neg (by
            simp only [beq_iff_eq, Prod.mk.injEq, not_and]
            intro h1 h2
            exact hc ⟨h1, h2⟩),
          show ((List.enumFrom n (some c :: cs)).filterMap fun
              (iv : Nat × Option PSUConnection) =>
            match iv.2 with
            | some c => if c.pduId = p ∧ c.socketIndex = s then some (did, iv.1)
              else none
            | none => none) = (cs.enumFrom (n + 1)).filterMap fun
              (iv : Nat × Option PSUConnection) =>
            match iv.2 with
            | some c => if c.pduId = p ∧ c.socketIndex = s then some (did, iv.1)
              else none
            | none => none from by simp [List.enumFrom_cons, List.filterMap_cons, hc]]
        simp

/-- The holder count of socket `(p, s)` equals the number of holder slots the
scan `socketHolders` lists. -/
lemma count_socketPairs_holders (p : PduId) (s : Nat) :
    ∀ l : List Device,
      (socketPairs l).count (p, s) = (socketHolders l p s).length
  | [] => rfl
  | d :: l => by
      rw [socketPairs_cons, List.count_append, socketHolders_cons,
        List.length_append, count_socketPairs_holders p s l,
        count_pairsOf_holders p s d.id d.psuConnections 0]
      rfl

lemma socketHolders_mem {prev : List Device} {p : PduId} {s : Nat}
    {oid : String} {oidx : Nat} (h : (oid, oidx) ∈ socketHolders prev p s) :
    ∃ o ∈ prev, o.id = oid ∧ o.psuConnections[oidx]? = some (some ⟨p, s⟩) := by
  unfold socketHolders at h
  obtain ⟨o, ho, hin⟩ := List.mem_flatMap.mp h
  refine ⟨o, ho, ?_⟩
  obtain ⟨⟨idx, oc⟩, hmem, heq⟩ := List.mem_filterMap.mp hin
  cases oc with
  | none => simp at heq
  | some c =>
      dsimp only at heq
      by_cases hc : c.pduId = p ∧ c.socketIndex = s
      · rw [if_pos hc] at heq
        have hpair := Option.some.inj heq
        have h1 : o.id = oid := congrArg Prod.fst hpair
        have h2 : idx = oidx := congrArg Prod.snd hpair
        subst h2
        refine ⟨h1, ?_⟩
        have hget := List.mem_enum_iff_getElem?.mp hmem
        have hcc : c = ⟨p, s⟩ := by
          obtain ⟨h3, h4⟩ := hc
          cases c
          simp_all
        rw [← hcc]
        exact hget
      · rw [if_neg hc] at heq
        simp at heq

/-- Splitting the holder-count sum at one modified device. -/
lemma count_map_single (g : Device → Device) (pr : PduId × Nat)
    {prev : List Device} (hdev : prev.Nodup) {src : Device} (hmem : src ∈ prev)
    (hother : ∀ d ∈ prev, d ≠ src → g d = d) :
    (socketPairs (prev.map g)).count pr + (pairsOf src.psuConnections).count pr =
      (socketPairs prev).count pr +
        (pairsOf (g src).psuConnections).count pr := by
  have hperm := List.perm_cons_erase hmem
  have h1 : (socketPairs (prev.map g)).count pr =
      (prev.map fun d => (pairsOf (g d).psuConnections).count pr).sum := by
    rw [count_socketPairs, List.map_map]
    rfl
  have h2 := (hperm.map fun d => (pairsOf (g d).psuConnections).count pr).sum_eq
  have h3 := (hperm.map fun d => (pairsOf d.psuConnections).count pr).sum_eq
  have h4 : ((prev.erase src).map fun d =>
      (pairsOf (g d).psuConnections).count pr).sum =
      ((prev.erase src).map fun d => (pairsOf d.psuConnections).count pr).sum := by
    refine congrArg List.sum (List.map_congr_left fun d hd => ?_)
    rw [hother d (List.mem_of_mem_erase hd) ((hdev.mem_erase_iff.mp hd).1)]
  rw [count_socketPairs pr prev, h1, h2, h3]
  simp only [List.map_cons, List.sum_cons]
  omega

/-- Splitting the holder-count sum at two distinct modified devices. -/
lemma count_map_double (g : Device → Device) (pr : PduId × Nat)
    {prev : List Device} (hdev : prev.Nodup) {src o : Device}
    (hs : src ∈ prev) (ho : o ∈ prev) (hso : o ≠ src)
    (hother : ∀ d ∈ prev, d ≠ src → d ≠ o → g d = d) :
    (socketPairs (prev.map g)).count pr + (pairsOf src.psuConnections).count pr +
        (pairsOf o.psuConnections).count pr =
      (socketPairs prev).count pr +
        (pairsOf (g src).psuConnections).count pr +
        (pairsOf (g o).psuConnections).count pr := by
  have hperm1 := List.perm_cons_erase hs
  have ho' : o ∈ prev.erase src := hdev.mem_erase_iff.mpr ⟨hso, ho⟩
  have hperm2 := List.perm_cons_erase ho'
  have herased : (prev.erase src).Nodup := hdev.erase src
  have h1 : (socketPairs (prev.map g)).count pr =
      (prev.map fun d => (pairsOf (g d).psuConnections).count pr).sum := by
    rw [count_socketPairs, List.map_map]
    rfl
  have h2 := (hperm1.map fun d => (pairsOf (g d).psuConnections).count pr).sum_eq
  have h3 := (hperm1.map fun d => (pairsOf d.psuConnections).count pr).sum_eq
  have h4 := (hperm2.map fun d => (pairsOf (g d).psuConnections).count pr).sum_eq
  have h5 := (hperm2.map fun d => (pairsOf d.psuConnections).count pr).sum_eq
  have h6 : (((prev.erase src).erase o).map fun d =>
      (pairsOf (g d).psuConnections).count pr).sum =
      (((prev.erase src).erase o).map fun d =>
        (pairsOf d.psuConnections).count pr).sum := by
    refine congrArg List.sum (List.map_congr_left fun d hd => ?_)
    obtain ⟨hdo, hd2⟩ := herased.mem_erase_iff.mp hd
    obtain ⟨hdsrc, hdprev⟩ := hdev.mem_erase_iff.mp hd2
    rw [hother d hdprev hdsrc hdo]
  rw [count_socketPairs pr prev, h1, h2, h3]
  simp only [List.map_cons, List.sum_cons] at h4 h5 ⊢
  omega

/-- The two `BEq` instances in scope for socket pairs count alike. -/
lemma count_pairs_instances (l : List (PduId × Nat)) (pr : PduId × Nat) :
    @List.count _ instBEqOfDecidableEq pr l = l.count pr := by
  unfold List.count
  refine List.countP_congr fun x _ => ?_
  show decide (x = pr) = true ↔ (x == pr) = true
  by_cases hx : x = pr
  · simp [hx]
  · simp [hx]

/-- `Nodup` of a socket-pair list in count form, with the ambient count. -/
lemma nodup_pairs_iff_count {l : List (PduId × Nat)} :
    l.Nodup ↔ ∀ pr, l.count pr ≤ 1 := by
  rw [List.nodup_iff_count_le_one]
  refine forall_congr' fun pr => ?_
  rw [count_pairs_instances]

/-- One modified device: socket uniqueness is preserved when the device's own
holder counts do not grow, except possibly on a previously-free socket. -/
lemma nodup_map_single (g : Device → Device)
    {prev : List Device} (hdev : prev.Nodup) {src : Device} (hmem : src ∈ prev)
    (hother : ∀ d ∈ prev, d ≠ src → g d = d)
    (huniq : (socketPairs prev).Nodup)
    (hbound : ∀ pr, (pairsOf (g src).psuConnections).count pr ≤
        (pairsOf src.psuConnections).count pr +
          (if (socketPairs prev).count pr = 0 then 1 else 0)) :
    (socketPairs (prev.map g)).Nodup := by
  rw [nodup_pairs_iff_count]
  intro pr
  have hkey := count_map_single g pr hdev hmem hother
  have hc := nodup_pairs_iff_count.mp huniq pr
  have hb := hbound pr
  by_cases h0 : (socketPairs prev).count pr = 0
  · rw [if_pos h0] at hb
    omega
  · rw [if_neg h0] at hb
    omega

/-- Two modified devices: socket uniqueness is preserved when their joint
holder counts do not grow. -/
lemma nodup_map_double (g : Device → Device)
    {prev : List Device} (hdev : prev.Nodup) {src o : Device}
    (hs : src ∈ prev) (ho : o ∈ prev) (hso : o ≠ src)
    (hother : ∀ d ∈ prev, d ≠ src → d ≠ o → g d = d)
    (huniq : (socketPairs prev).Nodup)
    (hbound : ∀ pr, (pairsOf (g src).psuConnections).count pr +
        (pairsOf (g o).psuConnections).count pr ≤
      (pairsOf src.psuConnections).count pr +
        (pairsOf o.psuConnections).count pr) :
    (socketPairs (prev.map g)).Nodup := by
  rw [nodup_pairs_iff_count]
  intro pr
  have hkey := count_map_double g pr hdev hs ho hso hother
  have hc := nodup_pairs_iff_count.mp huniq pr
  have hb := hbound pr
  omega

/-- The occupant-swap connection edit preserves socket uniqueness. -/
lemma handleConnectionUpdate_nodup (prev : List Device) (deviceId : String)
    (psuIndex : Nat) (pduId : Option PduId) (socketIndex : Option Nat)
    (hids : (prev.map (·.id)).Nodup)
    (huniq : (socketPairs prev).Nodup)
    (hwf : pduId.isSome → socketIndex.isSome) :
    (socketPairs
      (handleConnectionUpdate prev deviceId psuIndex pduId socketIndex)).Nodup := by
  unfold handleConnectionUpdate
  cases hfind : prev.find? (fun d => d.id = deviceId) with
  | none => exact huniq
  | some src =>
    dsimp only
    have hsrc_mem : src ∈ prev := List.mem_of_find?_eq_some hfind
    have hsrc_id : src.id = deviceId := by simpa using List.find?_some hfind
    have hdev : prev.Nodup := List.Nodup.of_map _ hids
    have huniq_id : ∀ d ∈ prev, d.id = deviceId → d = src := fun d hd hdid =>
      List.inj_on_of_nodup_map hids hd hsrc_mem (hdid.trans hsrc_id.symm)
    cases pduId with
    | none =>
        rw [if_neg (by simp)]
        show (socketPairs (prev.map fun d =>
          ({ d with psuConnections :=
              if d.id = deviceId then d.psuConnections.set psuIndex none
              else d.psuConnections } : Device))).Nodup
        refine nodup_map_single _ hdev hsrc_mem ?_ huniq ?_
        · intro d hd hne
          have hne_id : ¬ d.id = deviceId := fun he => hne (huniq_id d hd he)
          rw [if_neg hne_id]
        · intro pr
          dsimp only
          rw [if_pos hsrc_id]
          by_cases hpsu : psuIndex < src.psuConnections.length
          · have hset := count_pairsOf_set pr src.psuConnections psuIndex none
              (src.psuConnections[psuIndex]) (List.getElem?_eq_getElem hpsu)
            have h0 : pcnt pr none = 0 := rfl
            split <;> omega
          · rw [List.set_eq_of_length_le (le_of_not_lt hpsu)]
            split <;> omega
    | some p =>
        cases socketIndex with
        | none => exact absurd (hwf (by simp)) (by simp)
        | some s =>
          dsimp only
          cases hocc : (socketHolders prev p s).head? with
          | none =>
              rw [if_neg (by simp)]
              show (socketPairs (prev.map fun d =>
                ({ d with psuConnections :=
                    if d.id = deviceId then
                      d.psuConnections.set psuIndex (some ⟨p, s⟩)
                    else d.psuConnections } : Device))).Nodup
              refine nodup_map_single _ hdev hsrc_mem ?_ huniq ?_
              · intro d hd hne
                have hne_id : ¬ d.id = deviceId := fun he => hne (huniq_id d hd he)
                rw [if_neg hne_id]
              · intro pr
                dsimp only
                rw [if_pos hsrc_id]
                by_cases hpsu : psuIndex < src.psuConnections.length
                · have hset := count_pairsOf_set pr src.psuConnections psuIndex
                    (some ⟨p, s⟩) (src.psuConnections[psuIndex])
                    (List.getElem?_eq_getElem hpsu)
                  by_cases hpr : pr = ((p, s) : PduId × Nat)
                  · subst hpr
                    have hzero : (socketPairs prev).count (p, s) = 0 := by
                      rw [count_socketPairs_holders, List.head?_eq_none_iff.mp hocc]
                      rfl
                    rw [if_pos hzero]
                    have hp1 : pcnt (p, s) (some ⟨p, s⟩) = 1 := by
                      show (if ((p, s) : PduId × Nat) = (p, s) then 1 else 0) = 1
                      rw [if_pos rfl]
                    omega
                  · have hp0 : pcnt pr (some ⟨p, s⟩) = 0 := by
                      show (if ((p, s) : PduId × Nat) = pr then 1 else 0) = 0
                      rw [if_neg fun h => hpr h.symm]
                    split <;> omega
                · rw [List.set_eq_of_length_le (le_of_not_lt hpsu)]
                  split <;> omega
          | some oo =>
              obtain ⟨oid, oidx⟩ := oo
              obtain ⟨o, ho_mem, ho_id, ho_get⟩ := socketHolders_mem
                (List.mem_of_mem_head? (show (oid, oidx) ∈
                  (socketHolders prev p s).head? from by rw [hocc]; rfl))
              by_cases hrej : ((oid, oidx) : String × Nat) = (deviceId, psuIndex)
              · rw [if_pos (by rw [hrej])]
                exact huniq
              · rw [if_neg (by simpa using hrej)]
                show (socketPairs (prev.map fun d =>
                  ({ d with psuConnections :=
                      if d.id = oid then List.set (if d.id = deviceId then d.psuConnections.set psuIndex (some ⟨p, s⟩) else d.psuConnections) oidx (src.psuConnections.getD psuIndex none)
                      else if d.id = deviceId then d.psuConnections.set psuIndex (some ⟨p, s⟩) else d.psuConnections } : Device))).Nodup
                by_cases hoid : oid = deviceId
                · have ho_src : o = src := huniq_id o ho_mem (ho_id.trans hoid)
                  rw [ho_src] at ho_get
                  have hsrc_oid : src.id = oid := hsrc_id.trans hoid.symm
                  have hne_idx : oidx ≠ psuIndex := fun h =>
                    hrej (by rw [hoid, h])
                  refine nodup_map_single _ hdev hsrc_mem ?_ huniq ?_
                  · intro d hd hne
                    have hne_id : ¬ d.id = deviceId := fun he =>
                      hne (huniq_id d hd he)
                    have hne_oid : ¬ d.id = oid := fun he =>
                      hne_id (he.trans hoid)
                    rw [if_neg hne_oid, if_neg hne_id]
                  · intro pr
                    dsimp only
                    rw [if_pos hsrc_oid, if_pos hsrc_id]
                    by_cases hpsu : psuIndex < src.psuConnections.length
                    · have hgetd : src.psuConnections.getD psuIndex none =
                          src.psuConnections[psuIndex] := by
                        rw [List.getD_eq_getElem?_getD,
                          List.getElem?_eq_getElem hpsu]
                        rfl
                      rw [hgetd]
                      have hset1 := count_pairsOf_set pr src.psuConnections
                        psuIndex (some ⟨p, s⟩) (src.psuConnections[psuIndex])
                        (List.getElem?_eq_getElem hpsu)
                      have helem : (src.psuConnections.set psuIndex
                          (some ⟨p, s⟩))[oidx]? = some (some ⟨p, s⟩) := by
                        rw [List.getElem?_set_ne fun h => hne_idx h.symm]
                        exact ho_get
                      have hset2 := count_pairsOf_set pr
                        (src.psuConnections.set psuIndex (some ⟨p, s⟩)) oidx
                        (src.psuConnections[psuIndex]) (some ⟨p, s⟩) helem
                      split <;> omega
                    · rw [List.set_eq_of_length_le (le_of_not_lt hpsu)]
                      have hgetd : src.psuConnections.getD psuIndex none = none := by
                        rw [List.getD_eq_getElem?_getD,
                          List.getElem?_eq_none_iff.mpr (le_of_not_lt hpsu)]
                        rfl
                      rw [hgetd]
                      have hset2 := count_pairsOf_set pr src.psuConnections oidx
                        none (some ⟨p, s⟩) ho_get
                      have h0 : pcnt pr none = 0 := rfl
                      split <;> omega
                · have hso : o ≠ src := fun he =>
                    hoid (by rw [← ho_id, he, hsrc_id])
                  have hsrc_noid : ¬ src.id = oid := fun he =>
                    hoid (hsrc_id.symm.trans he).symm
                  have ho_ndev : ¬ o.id = deviceId := fun he =>
                    hoid ((ho_id.symm.trans he))
                  refine nodup_map_double _ hdev hsrc_mem ho_mem hso ?_ huniq ?_
                  · intro d hd hne hneo
                    have hne_id : ¬ d.id = deviceId := fun he =>
                      hne (huniq_id d hd he)
                    have hne_oid : ¬ d.id = oid := fun he => hneo
                      (List.inj_on_of_nodup_map hids hd ho_mem (he.trans ho_id.symm))
                    rw [if_neg hne_oid, if_neg hne_id]
                  · intro pr
                    dsimp only
                    rw [if_neg hsrc_noid, if_pos hsrc_id, if_pos ho_id,
                      if_neg ho_ndev]
                    by_cases hpsu : psuIndex < src.psuConnections.length
                    · have hgetd : src.psuConnections.getD psuIndex none =
                          src.psuConnections[psuIndex] := by
                        rw [List.getD_eq_getElem?_getD,
                          List.getElem?_eq_getElem hpsu]
                        rfl
                      rw [hgetd]
                      have hset1 := count_pairsOf_set pr src.psuConnections
                        psuIndex (some ⟨p, s⟩) (src.psuConnections[psuIndex])
                        (List.getElem?_eq_getElem hpsu)
                      have hset2 := count_pairsOf_set pr o.psuConnections oidx
                        (src.psuConnections[psuIndex]) (some ⟨p, s⟩) ho_get
                      omega
                    · rw [List.set_eq_of_length_le (le_of_not_lt hpsu)]
                      have hgetd : src.psuConnections.getD psuIndex none = none := by
                        rw [List.getD_eq_getElem?_getD,
                          List.getElem?_eq_none_iff.mpr (le_of_not_lt hpsu)]
                        rfl
                      rw [hgetd]
                      have hset2 := count_pairsOf_set pr o.psuConnections oidx
                        none (some ⟨p, s⟩) ho_get
                      have h0 : pcnt pr none = 0 := rfl
                      omega

/-- C8 (amended: the connection half of the claim is weakened — a colliding
connection change is not rejected, see the counterexample; instead the edit
swaps connections with the occupant, and socket uniqueness is still preserved.
The move half holds as claimed): a manual move returns the prior list or a
list the conflict scan accepts, and a manual connection change on a list with
pairwise-distinct ids and unique socket assignments (a socket index
accompanying every non-null PDU id) again yields unique socket assignments. -/
theorem C8_manual_edit_atomicity (rackSize : Int) (prev : List Device)
    (id : String) (targetU : Int) (deviceId : String) (psuIndex : Nat)
    (pduId : Option PduId) (socketIndex : Option Nat)
    (hids : (prev.map (·.id)).Nodup)
    (huniq : (socketPairs prev).Nodup)
    (hwf : pduId.isSome → socketIndex.isSome) :
    (handleMoveDevice rackSize prev id targetU = prev ∨
      hasConflict rackSize (handleMoveDevice rackSize prev id targetU) = false) ∧
    (socketPairs
      (handleConnectionUpdate prev deviceId psuIndex pduId socketIndex)).Nodup := by
  constructor
  · unfold handleMoveDevice
    cases hfind : prev.find? (fun d => d.id = id) with
    | none => exact Or.inl rfl
    | some s =>
        dsimp only
        split
        · exact Or.inl rfl
        · rename_i hc
          exact Or.inr (by simpa using hc)
  · exact handleConnectionUpdate_nodup prev deviceId psuIndex pduId socketIndex
      hids huniq hwf

/-- Device E1 holding socket 0 of PDU A1 and device E2 holding socket 1. -/
def devC8E1 : Device :=
  { id := "E1", name := "E1", room := "R", psuCount := 1, typicalPower := 0,
    powerRatingPerDevice := 0, connectionType := "C13", uHeight := 1,
    uPosition := some 10, psuConnections := [some ⟨(Side.A, 0), 0⟩] }

def devC8E2 : Device :=
  { id := "E2", name := "E2", room := "R", psuCount := 1, typicalPower := 0,
    powerRatingPerDevice := 0, connectionType := "C13", uHeight := 1,
    uPosition := some 12, psuConnections := [some ⟨(Side.A, 0), 1⟩] }

/-- C8's connection half as stated is false: requesting socket 0 of PDU A1 —
already held by device E1 — for PSU 0 of device E2 is not rejected with the
prior list; the edit applies, exchanging the two devices' sockets. -/
theorem C8_manual_edit_atomicity_cex :
    socketHolders [devC8E1, devC8E2] (Side.A, 0) 0 = [("E1", 0)] ∧
    (socketPairs [devC8E1, devC8E2]).Nodup ∧
    handleConnectionUpdate [devC8E1, devC8E2] "E2" 0 (some (Side.A, 0)) (some 0) ≠
      [devC8E1, devC8E2] ∧
    (handleConnectionUpdate [devC8E1, devC8E2] "E2" 0 (some (Side.A, 0))
        (some 0)).map (fun d => (d.id, d.psuConnections)) =
      [("E1", [some ⟨(Side.A, 0), 1⟩]), ("E2", [some ⟨(Side.A, 0), 0⟩])] :=
  ⟨by decide, by decide, by decide, by decide⟩

/-- The manual-edit theorem applied to the two-device list with an occupied
target socket. -/
theorem C8_manual_edit_atomicity_witness :
    ((([devC8E1, devC8E2].map (·.id)).Nodup) ∧
      (socketPairs [devC8E1, devC8E2]).Nodup ∧
      ((some ((Side.A, 0) : PduId)).isSome → (some (0 : Nat)).isSome)) ∧
    ((handleMoveDevice 42 [devC8E1, devC8E2] "E1" 11 = [devC8E1, devC8E2] ∨
      hasConflict 42 (handleMoveDevice 42 [devC8E1, devC8E2] "E1" 11) = false) ∧
     (socketPairs (handleConnectionUpdate [devC8E1, devC8E2] "E2" 0
        (some (Side.A, 0)) (some 0))).Nodup) :=
  ⟨⟨by decide, by decide, by decide⟩,
    C8_manual_edit_atomicity 42 [devC8E1, devC8E2] "E1" 11 "E2" 0
      (some (Side.A, 0)) (some 0) (by decide) (by decide) (by decide)⟩

/-! ## C5: idempotence of the compaction pass -/

/-- The zone body of the compaction pass: sort the records, sort their socket
indices, re-assign by rank. -/
def sortAssign (F : List ConnRec) : List ConnRec :=
  List.zipWith (fun c s => { c with socketIndex := s })
    (F.insertionSort connLE) ((F.map (·.socketIndex)).insertionSort (· ≤ ·))

/-- The compaction of one PDU's record list, as a function of the records. -/
def compactRecs (conns : List ConnRec) (b : Nat) : List ConnRec :=
  sortAssign (conns.filter fun c => c.socketIndex < b) ++
    sortAssign (conns.filter fun c => ¬ c.socketIndex < b)

lemma pduNewConns_eq_compactRecs (ds : List Device) (b : Nat) (p : PduId) :
    pduNewConns ds b p = compactRecs (connsOf ds p) b := rfl

lemma zipWith_setIdx_self :
    ∀ l : List ConnRec,
      List.zipWith (fun c s => { c with socketIndex := s }) l
        (l.map (·.socketIndex)) = l
  | [] => rfl
  | c :: l => by
      rw [List.map_cons, List.zipWith_cons_cons, zipWith_setIdx_self l]

/-- Two sorted permutations of each other agree when the order is antisymmetric
on their members. -/
lemma perm_sorted_unique {α : Type} {r : α → α → Prop} :
    ∀ {l l' : List α}, l ~ l' → l.Pairwise r → l'.Pairwise r →
      (∀ x ∈ l', ∀ y ∈ l', r x y → r y x → x = y) → l = l'
  | [], l', h, _, _, _ => h.nil_eq
  | a :: t, l', h, hp, hp', hanti => by
      cases l' with
      | nil => exact absurd h.eq_nil (by simp)
      | cons b t' =>
          have ha : a ∈ b :: t' := h.mem_iff.mp (List.mem_cons_self ..)
          have hab : a = b := by
            rcases List.mem_cons.mp ha with h1 | h1
            · exact h1
            · have hb : b ∈ a :: t := h.mem_iff.mpr (List.mem_cons_self ..)
              rcases List.mem_cons.mp hb with h2 | h2
              · exact h2.symm
              · have hra : r b a := (List.pairwise_cons.mp hp').1 a h1
                have hrb : r a b := (List.pairwise_cons.mp hp).1 b h2
                exact hanti a (List.mem_cons_of_mem _ h1) b (List.mem_cons_self ..)
                  hrb hra
          subst hab
          have ht := perm_sorted_unique h.cons_inv (List.pairwise_cons.mp hp).2
            (List.pairwise_cons.mp hp').2
            (fun x hx y hy => hanti x (List.mem_cons_of_mem _ hx) y
              (List.mem_cons_of_mem _ hy))
          rw [ht]

/-- Re-assigning strictly ascending sockets along a `connLE`-sorted record
list yields a `connLE`-sorted list. -/
lemma sorted_zip_assign :
    ∀ (l : List ConnRec) (u : List Nat), l.length = u.length →
      l.Sorted connLE → u.Sorted (· < ·) →
      (List.zipWith (fun c s => { c with socketIndex := s }) l u).Sorted connLE
  | [], [], _, _, _ => List.sorted_nil
  | [], _ :: _, h, _, _ => by simp at h
  | _ :: _, [], h, _, _ => by simp at h
  | c :: l, s :: u, h, hl, hu => by
      rw [List.zipWith_cons_cons]
      rw [List.sorted_cons] at hl hu ⊢
      refine ⟨?_, sorted_zip_assign l u (by simpa using h) hl.2 hu.2⟩
      intro x hx
      obtain ⟨c', hc', hxc⟩ := mem_zipWith_setIdx hx
      have hsock : x.socketIndex ∈ u := by
        have hcol : (List.zipWith (fun c s => { c with socketIndex := s })
            l u).map (·.socketIndex) = u :=
          zipWith_setIdx_map_socketIndex l u (by simpa using h)
        rw [← hcol]
        exact List.mem_map_of_mem _ hx
      have hss : s < x.socketIndex := hu.1 _ hsock
      have hcc' : connLE c c' := hl.1 c' hc'
      have hup : x.uPos = c'.uPos := by rw [hxc]
      show connLE { c with socketIndex := s } x
      unfold connLE at hcc' ⊢
      rcases hcc' with h1 | h2
      · exact Or.inl (by show x.uPos < c.uPos; omega)
      · exact Or.inr ⟨by show c.uPos = x.uPos; omega, le_of_lt hss⟩

lemma sortAssign_sockets (F : List ConnRec) :
    (sortAssign F).map (·.socketIndex) =
      (F.map (·.socketIndex)).insertionSort (· ≤ ·) :=
  zipWith_setIdx_map_socketIndex _ _ (length_sorted_used F)

lemma sortAssign_sock_sorted (F : List ConnRec) :
    ((sortAssign F).map (·.socketIndex)).Sorted (· ≤ ·) := by
  rw [sortAssign_sockets]
  exact List.sorted_insertionSort _ _

lemma sortAssign_sock_nodup (F : List ConnRec)
    (hn : (F.map (·.socketIndex)).Nodup) :
    ((sortAssign F).map (·.socketIndex)).Nodup := by
  rw [sortAssign_sockets]
  exact (List.perm_insertionSort _ _).nodup_iff.mpr hn

lemma sortAssign_sorted (F : List ConnRec)
    (hn : (F.map (·.socketIndex)).Nodup) :
    (sortAssign F).Sorted connLE :=
  sorted_zip_assign _ _ (length_sorted_used F)
    (List.sorted_insertionSort connLE F)
    (List.Sorted.lt_of_le (List.sorted_insertionSort _ _)
      ((List.perm_insertionSort _ _).nodup_iff.mpr hn))

lemma sortAssign_mem_sock {F : List ConnRec} {x : ConnRec}
    (hx : x ∈ sortAssign F) : ∃ c ∈ F, c.socketIndex = x.socketIndex := by
  have hmem : x.socketIndex ∈ (sortAssign F).map (·.socketIndex) :=
    List.mem_map_of_mem _ hx
  rw [sortAssign_sockets] at hmem
  have hmem' : x.socketIndex ∈ F.map (·.socketIndex) :=
    (List.perm_insertionSort _ _).mem_iff.mp hmem
  obtain ⟨c, hc, hcs⟩ := List.mem_map.mp hmem'
  exact ⟨c, hc, hcs⟩

/-- A permutation of an already-compacted zone re-compacts to the same list. -/
lemma sortAssign_of_perm {F H : List ConnRec} (hperm : F ~ H)
    (hHsorted : H.Sorted connLE)
    (hHsock : (H.map (·.socketIndex)).Sorted (· ≤ ·))
    (hHnodup : (H.map (·.socketIndex)).Nodup) :
    sortAssign F = H := by
  have hanti : ∀ x ∈ H, ∀ y ∈ H, connLE x y → connLE y x → x = y := by
    intro x hx y hy hxy hyx
    have hss : x.socketIndex = y.socketIndex := by
      unfold connLE at hxy hyx
      omega
    exact List.inj_on_of_nodup_map hHnodup hx hy hss
  have hsort : F.insertionSort connLE = H :=
    perm_sorted_unique ((List.perm_insertionSort connLE F).trans hperm)
      (List.sorted_insertionSort connLE F) hHsorted hanti
  have hused : (F.map (·.socketIndex)).insertionSort (· ≤ ·) =
      H.map (·.socketIndex) :=
    List.eq_of_perm_of_sorted
      ((List.perm_insertionSort _ _).trans (hperm.map _))
      (List.sorted_insertionSort _ _) hHsock
  unfold sortAssign
  rw [hsort, hused, zipWith_setIdx_self]

/-- The fixed-point core of idempotence: compacting any permutation of a
compacted record list (with duplicate-free source sockets) reproduces it. -/
lemma compactRecs_fixed {conns conns2 : List ConnRec} {b : Nat}
    (hperm : conns2 ~ compactRecs conns b)
    (hnodup : (conns.map (·.socketIndex)).Nodup) :
    compactRecs conns2 b = compactRecs conns b := by
  have hn₀ : ((conns.filter fun c => decide (c.socketIndex < b)).map
      (·.socketIndex)).Nodup :=
    hnodup.sublist (List.Sublist.map _ (List.filter_sublist _))
  have hn₁ : ((conns.filter fun c => decide (¬ c.socketIndex < b)).map
      (·.socketIndex)).Nodup :=
    hnodup.sublist (List.Sublist.map _ (List.filter_sublist _))
  have hzone₀ : ∀ x ∈ sortAssign (conns.filter fun c =>
      decide (c.socketIndex < b)), decide (x.socketIndex < b) = true := by
    intro x hx
    obtain ⟨c, hc, hcs⟩ := sortAssign_mem_sock hx
    have := List.of_mem_filter hc
    rw [← hcs]
    exact this
  have hzone₁ : ∀ x ∈ sortAssign (conns.filter fun c =>
      decide (¬ c.socketIndex < b)), decide (¬ x.socketIndex < b) = true := by
    intro x hx
    obtain ⟨c, hc, hcs⟩ := sortAssign_mem_sock hx
    have := List.of_mem_filter hc
    rw [← hcs]
    exact this
  have hcompact : compactRecs conns b =
      sortAssign (conns.filter fun c => decide (c.socketIndex < b)) ++
        sortAssign (conns.filter fun c => decide (¬ c.socketIndex < b)) := rfl
  rw [hcompact] at hperm
  have hnil₀ : (sortAssign (conns.filter fun c =>
      decide (¬ c.socketIndex < b))).filter
        (fun c => decide (c.socketIndex < b)) = [] :=
    List.filter_eq_nil_iff.mpr fun x hx => by
      have := hzone₁ x hx
      simp only [decide_eq_true_eq] at this ⊢
      omega
  have hnil₁ : (sortAssign (conns.filter fun c =>
      decide (c.socketIndex < b))).filter
        (fun c => decide (¬ c.socketIndex < b)) = [] :=
    List.filter_eq_nil_iff.mpr fun x hx => by
      have := hzone₀ x hx
      simp only [decide_eq_true_eq] at this ⊢
      omega
  have hf₀ : conns2.filter (fun c => decide (c.socketIndex < b)) ~
      sortAssign (conns.filter fun c => decide (c.socketIndex < b)) := by
    refine (hperm.filter _).trans ?_
    rw [List.filter_append, List.filter_eq_self.mpr hzone₀, hnil₀,
      List.append_nil]
  have hf₁ : conns2.filter (fun c => decide (¬ c.socketIndex < b)) ~
      sortAssign (conns.filter fun c => decide (¬ c.socketIndex < b)) := by
    refine (hperm.filter _).trans ?_
    rw [List.filter_append, hnil₁, List.filter_eq_self.mpr hzone₁,
      List.nil_append]
  have h₀ : sortAssign (conns2.filter fun c => decide (c.socketIndex < b)) =
      sortAssign (conns.filter fun c => decide (c.socketIndex < b)) :=
    sortAssign_of_perm hf₀ (sortAssign_sorted _ hn₀) (sortAssign_sock_sorted _)
      (sortAssign_sock_nodup _ hn₀)
  have h₁ : sortAssign (conns2.filter fun c => decide (¬ c.socketIndex < b)) =
      sortAssign (conns.filter fun c => decide (¬ c.socketIndex < b)) :=
    sortAssign_of_perm hf₁ (sortAssign_sorted _ hn₁) (sortAssign_sock_sorted _)
      (sortAssign_sock_nodup _ hn₁)
  show sortAssign (conns2.filter fun c => decide (c.socketIndex < b)) ++
      sortAssign (conns2.filter fun c => decide (¬ c.socketIndex < b)) =
    compactRecs conns b
  rw [h₀, h₁, hcompact]

/-- The compaction pass preserves the device ids. -/
lemma optimizeWiring_ids (ds : List Device) (b : Nat) :
    (optimizeWiring ds b).map (·.id) = ds.map (·.id) := by
  unfold optimizeWiring
  rw [List.map_map]
  exact List.map_congr_left fun d _ => (optDevice_fields ds b d).1

/-- The socket column of a PDU's records embeds into the `p`-fiber of the
socket-pair list (unplaced devices may add further pairs). -/
lemma connsOf_sockets_sublist (p : PduId) :
    ∀ ds : List Device,
      ((connsOf ds p).map (·.socketIndex)).Sublist
        (((socketPairs ds).filter fun pr => decide (pr.1 = p)).map Prod.snd)
  | [] => List.Sublist.slnil
  | d :: ds => by
      rw [connsOf_cons, socketPairs_cons, List.map_append, List.filter_append,
        List.map_append]
      refine List.Sublist.append ?_ (connsOf_sockets_sublist p ds)
      by_cases ht : uPosTruthy d
      · rw [if_pos ht, devContribAt_sockets, ← pairs_fiber_sockets]
      · rw [if_neg ht]
        exact List.nil_sublist _


/-- Socket uniqueness of the whole list gives per-PDU socket uniqueness of the
compaction records. -/
lemma connsOf_sockets_nodup {ds : List Device}
    (hpairs : (socketPairs ds).Nodup) (p : PduId) :
    ((connsOf ds p).map (·.socketIndex)).Nodup := by
  refine (connsOf_sockets_sublist p ds).nodup ?_
  refine List.Nodup.map_on ?_ (hpairs.filter _)
  intro x hx y hy hxy
  have hxp := (List.mem_filter.mp hx).2
  have hyp := (List.mem_filter.mp hy).2
  rw [decide_eq_true_eq] at hxp hyp
  exact Prod.ext (hxp.trans hyp.symm) hxy

lemma mem_connsOf_of_slot {ds : List Device} {d : Device} (hd : d ∈ ds)
    (ht : uPosTruthy d) {i : Nat} {c : PSUConnection}
    (hslot : (i, some c) ∈ d.psuConnections.enum) :
    (⟨d.id, i, uPosVal d, c.socketIndex⟩ : ConnRec) ∈ connsOf ds c.pduId := by
  unfold connsOf
  refine List.mem_flatMap.mpr ⟨d, hd, ?_⟩
  rw [if_pos ht]
  unfold devContribAt
  exact List.mem_filterMap.mpr ⟨(i, some c), hslot, by simp⟩

lemma enumFrom_map_eq_self {α : Type} (F : Nat × α → α) :
    ∀ (l : List α) (n : Nat), (∀ q ∈ l.enumFrom n, F q = q.2) →
      (l.enumFrom n).map F = l
  | [], _, _ => rfl
  | a :: l, n, h => by
      rw [List.enumFrom_cons, List.map_cons, h (n, a) (List.mem_cons_self ..),
        enumFrom_map_eq_self F l (n + 1) fun q hq => h q (List.mem_cons_of_mem _ hq)]

/-- A device is a fixed point of the rebuild whenever every PDU's compacted
records merely permute its current records. -/
lemma optDevice_fixed {ds' : List Device} {b : Nat} {d' : Device} (hd' : d' ∈ ds')
    (hkeys : ∀ p, ((connsOf ds' p).map connKey).Nodup)
    (hfix : ∀ p, pduNewConns ds' b p ~ connsOf ds' p) :
    optDevice ds' b d' = d' := by
  by_cases ht : uPosTruthy d'
  · unfold optDevice
    rw [if_neg (by simpa using ht)]
    have hmapeq : (d'.psuConnections.enum.map fun (i, oc) =>
        match oc with
        | none => none
        | some c =>
          match (pduNewConns ds' b c.pduId).find?
              (fun r => r.deviceId = d'.id ∧ r.psuIndex = i) with
          | some r => some ⟨c.pduId, r.socketIndex⟩
          | none => some c) = d'.psuConnections := by
      refine enumFrom_map_eq_self _ d'.psuConnections 0 ?_
      rintro ⟨i, oc⟩ hq
      cases oc with
      | none => rfl
      | some c =>
          dsimp only
          cases hfind : (pduNewConns ds' b c.pduId).find?
              (fun r => decide (r.deviceId = d'.id ∧ r.psuIndex = i)) with
          | none => rfl
          | some r =>
              have hrmem : r ∈ pduNewConns ds' b c.pduId :=
                List.mem_of_find?_eq_some hfind
              have hrkey : r.deviceId = d'.id ∧ r.psuIndex = i := by
                have := List.find?_some hfind
                simpa using this
              have hrmem' : r ∈ connsOf ds' c.pduId :=
                (hfix c.pduId).mem_iff.mp hrmem
              have hrec : (⟨d'.id, i, uPosVal d', c.socketIndex⟩ : ConnRec) ∈
                  connsOf ds' c.pduId := mem_connsOf_of_slot hd' ht hq
              have hr : r = ⟨d'.id, i, uPosVal d', c.socketIndex⟩ :=
                List.inj_on_of_nodup_map (hkeys c.pduId) hrmem' hrec (by
                  show connKey r = _
                  unfold connKey
                  rw [hrkey.1, hrkey.2])
              rw [hr]
    rw [hmapeq]
  · exact optDevice_unplaced ds' b d' ht

/-- C5: for every device list with pairwise-distinct ids and no two PSU slots
on one socket (the data model's id uniqueness and §3's socket-uniqueness
invariant), the wiring compaction pass is idempotent: running it twice equals
running it once. -/
theorem C5_compaction_idempotent (ds : List Device) (b : Nat)
    (hids : (ds.map (·.id)).Nodup)
    (hpairs : (socketPairs ds).Nodup) :
    optimizeWiring (optimizeWiring ds b) b = optimizeWiring ds b := by
  have hids' : ((optimizeWiring ds b).map (·.id)).Nodup := by
    rw [optimizeWiring_ids]
    exact hids
  have hsock : ∀ p, ((connsOf ds p).map (·.socketIndex)).Nodup :=
    connsOf_sockets_nodup hpairs
  have hfix : ∀ p, pduNewConns (optimizeWiring ds b) b p ~
      connsOf (optimizeWiring ds b) p := by
    intro p
    have h1 : connsOf (optimizeWiring ds b) p ~ pduNewConns ds b p := by
      rw [connsOf_optimizeWiring]
      exact connsOf_map_substConn_perm b p hids
    have hL0 : pduNewConns (optimizeWiring ds b) b p = pduNewConns ds b p := by
      rw [pduNewConns_eq_compactRecs, pduNewConns_eq_compactRecs]
      refine compactRecs_fixed ?_ (hsock p)
      rw [← pduNewConns_eq_compactRecs]
      exact h1
    rw [hL0]
    exact h1.symm
  have hkeys : ∀ p, ((connsOf (optimizeWiring ds b) p).map connKey).Nodup :=
    fun p => connsOf_keys_nodup hids' p
  show (optimizeWiring ds b).map (optDevice (optimizeWiring ds b) b) =
    optimizeWiring ds b
  calc (optimizeWiring ds b).map (optDevice (optimizeWiring ds b) b)
      = (optimizeWiring ds b).map (fun d => d) :=
        List.map_congr_left fun d hd => optDevice_fixed hd hkeys hfix
    _ = optimizeWiring ds b := List.map_id' _

/-- Idempotence on the two wired witness devices (sockets 3, 3 and 1 across
PDUs A1 and B1, twenty primary sockets). -/
theorem C5_compaction_idempotent_witness :
    (([wiredDeviceA, wiredDeviceB].map (·.id)).Nodup ∧
      (socketPairs [wiredDeviceA, wiredDeviceB]).Nodup) ∧
    optimizeWiring (optimizeWiring [wiredDeviceA, wiredDeviceB] 20) 20 =
      optimizeWiring [wiredDeviceA, wiredDeviceB] 20 :=
  ⟨⟨by decide, by decide⟩,
    C5_compaction_idempotent [wiredDeviceA, wiredDeviceB] 20
      (by decide) (by decide)⟩

end RackPower
